import Mathlib

/-!
# answer-and-win: navigation engine and game session flow

A shallow embedding of `src/controller/interfaceController.js`,
`src/controller/gameController.js`, `src/controller/roundController.js`,
`src/controller/playerController.js`, `src/utils/utils.js` and of the store
functions these call.  The databases are lists of records in the order of their
files; reading and writing them is taken to succeed.

The JavaScript code is interactive: every prompt blocks until the user answers.
The embedding makes the user and the collaborators explicit as a finite input
script that the code consumes from the front; when the script is used up the
run is `pending` (the real program would be waiting at a prompt).  Everything
the code does that can be observed from outside (clearing the console, invoking
a view factory, calling a controller, showing the confirmation toggle, logging
an error, registering a player) is recorded in a trace.  The actions of one pass
are recorded when the script entry of that pass is read, so a `pending` run
shows the actions up to the last answer it received.

JavaScript values are kept as far as the code distinguishes them: the variable
`close` of the engine is `true`, `false` or `undefined` (`Option Bool`), an
outcome token is the string it is as a property key, and `null`/`undefined`
results of collaborators are `none`.
-/

set_option autoImplicit false

namespace InterfaceController


/-- A node of the menu tree handed to `new InterfaceController(structure)`:
the `view` property (a view factory, named here by a number), the optional
`controller` property (named by a number), and the remaining own properties,
which map a key to a sub-tree. -/
inductive MenuNode where
  | mk (view : Nat) (controller : Option Nat) (children : List (String × MenuNode))

/-- The `view` property of a node. -/
def MenuNode.view : MenuNode → Nat
  | .mk v _ _ => v

/-- The `controller` property of a node, when it has one. -/
def MenuNode.controller : MenuNode → Option Nat
  | .mk _ c _ => c

/-- The child properties of a node. -/
def MenuNode.children : MenuNode → List (String × MenuNode)
  | .mk _ _ cs => cs

/-- What `interfaceObj[choice]` evaluates to when `choice in interfaceObj` holds:
a sub-tree, or a value that is not a menu node (the view factory, the controller
class, or a member inherited from `Object.prototype`). -/
inductive Member where
  | node (n : MenuNode)
  | other

/-- The property names every plain JavaScript object inherits from
`Object.prototype`; `key in obj` is true for each of them. -/
def objectPrototypeKeys : List String :=
  ["constructor", "__defineGetter__", "__defineSetter__", "hasOwnProperty",
   "__lookupGetter__", "__lookupSetter__", "isPrototypeOf", "propertyIsEnumerable",
   "toString", "valueOf", "__proto__", "toLocaleString"]

/-- The pair `choice in interfaceObj` / `interfaceObj[choice]` of line 28-29:
`none` when the key is not in the object, otherwise the value found. -/
def MenuNode.member (n : MenuNode) (key : String) : Option Member :=
  match n.children.lookup key with
  | some c => some (.node c)
  | none =>
    if key = "view" then some .other
    else if key = "controller" ∧ n.controller.isSome then some .other
    else if key ∈ objectPrototypeKeys then some .other
    else none

/-- One loop iteration seen from the outside.  `viewRaises`: the call
`interfaceObj.view()` raises.  `runRaises`: `view.run()` raises.  Otherwise the
view yields `raw`; `processed` is what `controller.process(raw)` would return
(`none`: it raises) and is consulted only when the node has a controller;
`confirm` is what the confirmation toggle would answer (`none`: it raises) and is
consulted only when the toggle is shown. -/
inductive Step where
  | viewRaises
  | runRaises
  | result (raw : String) (processed : Option String) (confirm : Option Bool)
  deriving DecidableEq, Repr

/-- The observable actions of the engine. -/
inductive Event where
  | clear
  | view (id : Nat)
  | process (id : Nat)
  | confirm (answer : Option Bool)
  | error
  deriving DecidableEq, Repr

/-- How a call ends.  `returned none` is the JavaScript value `undefined`;
`raised` is an exception on its way to the enclosing `catch`; `pending` means the
script is used up while a prompt is waiting; `outOfFuel` is an artefact of the
recursion bound and never occurs with enough fuel. -/
inductive Status where
  | returned (close : Option Bool)
  | raised
  | pending
  | outOfFuel
  deriving DecidableEq, Repr

/-- The result of a call: how it ended, the unread part of the script, and the
actions performed in order. -/
structure Res where
  status : Status
  rest : List Step
  trace : List Event
  deriving DecidableEq, Repr

/-- Put the events `evs` in front of the trace of `r`. -/
def Res.pre (evs : List Event) (r : Res) : Res :=
  { r with trace := evs ++ r.trace }

/-- The `catch (error) { console.error(error); }` of lines 46-48: an exception
is logged and the call returns `undefined`. -/
def catchErr (r : Res) : Res :=
  match r.status with
  | .raised => { r with status := .returned none, trace := r.trace ++ [.error] }
  | _ => r

/-- The conditional of line 27,
`interfaceObj.controller ? await interfaceObj.controller.process(result) : result`:
`none` when `process` raises. -/
def choose (controller : Option Nat) (raw : String) (processed : Option String) :
    Option String :=
  match controller with
  | none => some raw
  | some _ => processed

/-- The actions of lines 24-27 at a node: clear the console, invoke the view,
and call the controller when there is one. -/
def iterEvents (node : MenuNode) : List Event :=
  [.clear, .view node.view] ++ (node.controller.map Event.process).toList

/-- One pass through `while ( !close ) { ... } return close;` (lines 23-45),
entered with the current value of `close`.  The parameter `again` stands for the
rest of the execution: `again node c s` re-enters the loop of `node` with
`close = c`, so a recursive call `this._run(child)` is
`catchErr (again child (some false) rest)`.  A recursive call on a member that is
not a menu node clears the console, fails at `interfaceObj.view()` with a
`TypeError`, logs it and returns `undefined`. -/
def body (again : MenuNode → Option Bool → List Step → Res)
    (node : MenuNode) (close : Option Bool) (script : List Step) : Res :=
  if close = some true then ⟨.returned close, script, []⟩
  else
    match script with
    | [] => ⟨.pending, [], []⟩
    | .viewRaises :: rest => ⟨.raised, rest, [.clear, .view node.view]⟩
    | .runRaises :: rest => ⟨.raised, rest, [.clear, .view node.view]⟩
    | .result raw processed confirm :: rest =>
      match choose node.controller raw processed with
      | none => ⟨.raised, rest, iterEvents node⟩
      | some choice =>
        match node.member choice with
        | some (.node child) =>
          let r := catchErr (again child (some false) rest)
          match r.status with
          | .returned c => (again node c r.rest).pre (iterEvents node ++ r.trace)
          | _ => r.pre (iterEvents node)
        | some .other =>
          (again node none rest).pre (iterEvents node ++ [.clear, .error])
        | none =>
          if choice = "close" then
            match confirm with
            | some b =>
              (again node (some b) rest).pre
                (iterEvents node ++ [.clear, .confirm (some b)])
            | none => ⟨.raised, rest, iterEvents node ++ [.clear, .confirm none]⟩
          else if choice = "back" then ⟨.returned close, rest, iterEvents node⟩
          else (again node close rest).pre (iterEvents node)

/-- The loop of lines 23-45 with a bound on the number of passes. -/
def loop : Nat → MenuNode → Option Bool → List Step → Res
  | 0, _, _, script => ⟨.outOfFuel, script, []⟩
  | fuel + 1, node, close, script => body (loop fuel) node close script

/-- The body of `_run` entered at the head of the loop with the variable `close`
holding the given value, inside the `try`/`catch`.  The fuel `script.length + 1`
is enough for every script (`loop_fuel`). -/
def resume (interfaceObj : MenuNode) (close : Option Bool) (script : List Step) : Res :=
  catchErr (loop (script.length + 1) interfaceObj close script)

/-- The method `_run` (lines 20-49) on a script: the loop starts with
`close = false`. -/
def _run (interfaceObj : MenuNode) (script : List Step) : Res :=
  resume interfaceObj (some false) script

/-- The method `start` (lines 54-60): runs the tree, discards the value, and
logs anything raised. -/
def start (treeStructureMenu : MenuNode) (script : List Step) : Res :=
  let r := _run treeStructureMenu script
  match r.status with
  | .returned _ => { r with status := .returned none }
  | .raised => { r with status := .returned none, trace := r.trace ++ [.error] }
  | _ => r

/-- The loop with the fuel its script needs. -/
def loopFull (node : MenuNode) (close : Option Bool) (script : List Step) : Res :=
  loop (script.length + 1) node close script

/-- A result in which a confirmed close, if there is one, is the last action, and
there is one exactly when the value returned is `true`. -/
def ClosedLast (r : Res) : Prop :=
  (r.status = .returned (some true) →
    ∃ pre, r.trace = pre ++ [.confirm (some true)] ∧ Event.confirm (some true) ∉ pre) ∧
  (r.status ≠ .returned (some true) → Event.confirm (some true) ∉ r.trace)

/-- The sub-tree under `2 > 1` of `InterfaceView.setInterfaceStructure`: the
category settings menu (view 3) with the category form (view 4) and the delete
table (view 5), both handled by `CategoryController` (controller 1). -/
def categorySettingNode : MenuNode :=
  .mk 3 none [("1", .mk 4 (some 1) []), ("2", .mk 5 (some 1) [])]

/-- The sub-tree under `2 > 2`: question settings, `QuestionController` is 2. -/
def questionSettingNode : MenuNode :=
  .mk 6 none [("1", .mk 7 (some 2) []), ("2", .mk 8 (some 2) [])]

/-- The sub-tree under `2 > 3`: level settings, `LevelController` is 3. -/
def levelSettingNode : MenuNode :=
  .mk 9 none [("1", .mk 10 (some 3) []), ("2", .mk 11 (some 3) [])]

/-- The sub-tree under `2`: the settings menu (view 2). -/
def settingNode : MenuNode :=
  .mk 2 none [("1", categorySettingNode), ("2", questionSettingNode),
    ("3", levelSettingNode)]

/-- The player history table under `3` (view 12, no controller). -/
def playerHistoryNode : MenuNode := .mk 12 none []

/-- The tree returned by `InterfaceView.setInterfaceStructure`
(`src/view/interfaceView.js`, lines 302-353): the main menu (view 0), the game
start toggle under `1` (view 1, `GameController` is controller 0), the settings
under `2` and the player history under `3`. -/
def interfaceStructure : MenuNode :=
  .mk 0 none [("1", .mk 1 (some 0) []), ("2", settingNode), ("3", playerHistoryNode)]

/-- A tree whose root has a child under the reserved key `back`. -/
def backKeyTree : MenuNode := .mk 0 none [("back", .mk 1 none [])]

/-- A tree whose root has a child under the reserved key `close`. -/
def closeKeyTree : MenuNode := .mk 0 none [("close", .mk 1 none [])]

end InterfaceController

/-- A record of the levels database as `LevelStore._setModel` reads it
(`src/model/level.js`): identifier, difficulty value and prize. -/
structure Level where
  id : String
  value : Int
  prize : Int
  deriving DecidableEq, Repr

namespace LevelStore

/-- `LevelStore.getLevelByValue` (`src/store/levelStore.js`, lines 133-145): the
first record, in the order of the database, whose value equals `value`; `none`
is the JavaScript `null`. -/
def getLevelByValue (data : List Level) (value : Int) : Option Level :=
  data.find? (fun level => decide (level.value = value))

end LevelStore

namespace LevelController

/-- `LevelController.searchLevelByValue` (`src/controller/levelController.js`,
lines 109-116).  The argument is always a number here, so the `isNaN` guard does
not fire. -/
def searchLevelByValue (data : List Level) (levelValue : Nat) : Option Level :=
  LevelStore.getLevelByValue data levelValue

end LevelController

/-- The value `result.round` of a finished round
(`src/controller/roundController.js`, lines 76-81): whether the chosen answer
was the correct one, and the response time in milliseconds. -/
structure Round where
  correct : Bool
  time : Nat
  deriving DecidableEq, Repr

namespace RoundController

/-- `RoundController.startRound` (`src/controller/roundController.js`, lines
64-87) as far as the game flow depends on it.  When the level is not configured,
`_getRandomCategory` fails on `level.getId()`, returns `undefined`, and
`startRound` in turn fails on `category.getId()` and returns `undefined`
(`none`).  Otherwise the result is `played`: what the selection of a category
and a question and the answer of the user produce, `none` when any of that
raises inside the `try`. -/
def startRound (data : List Level) (level : Nat) (played : Option Round) : Option Round :=
  match LevelController.searchLevelByValue data level with
  | none => none
  | some _ => played

end RoundController

namespace GameController

/-- The object handed to `PlayerController.registerPlayer` by
`_registerPlayerData` (lines 45-47). -/
structure PlayerData where
  username : String
  maxLevelReached : Nat
  time : Nat
  deriving DecidableEq, Repr

/-- `GameController._registerPlayerData`: the data that is registered. -/
def _registerPlayerData (username : String) (maxLevel : Nat) (time : Nat) : PlayerData :=
  ⟨username, maxLevel, time⟩

/-- The three toggles of `_run`: `Congratulations!` (lines 69-80), `You're
right!` (lines 84-95) and `You lost!` (lines 99-110). -/
inductive PromptKind where
  | congratulations
  | youAreRight
  | youLost
  deriving DecidableEq, Repr

/-- What the environment supplies to one call of `_run`: the round as played
(see `RoundController.startRound`) and the answer to the toggle (`none`: the
toggle raises). -/
structure Turn where
  played : Option Round
  decision : Option Bool
  deriving DecidableEq, Repr

/-- The observable actions of the game flow. -/
inductive Event where
  | clear
  | round (level : Nat)
  | prompt (kind : PromptKind)
  | register (data : PlayerData)
  deriving DecidableEq, Repr

/-- How a call of `_run` ends: it returns, an exception leaves it, or the
script is used up while it waits for a round. -/
inductive Status where
  | done
  | raised
  | pending
  deriving DecidableEq, Repr

/-- The result of a call: how it ended, the unread turns, the actions in order. -/
structure Res where
  status : Status
  rest : List Turn
  trace : List Event
  deriving DecidableEq, Repr

/-- Put the events `evs` in front of the trace of `r`. -/
def Res.pre (evs : List Event) (r : Res) : Res :=
  { r with trace := evs ++ r.trace }

/-- What lines 64-111 of `_run` decide after the round: the toggle to show, the
flag `gameOver`, and `params` (`none` is the empty array); the whole is `none`
when `level.getPrize()` raises because `level` is `null`. -/
def branch (level : Option Level) (round : Round)
    (levelValue : Nat) (accumulated : Int) (time : Nat) :
    Option (PromptKind × Bool × Option (Nat × Int × Nat)) :=
  if round.correct then
    match level with
    | none => none
    | some lv =>
      let accumulated := accumulated + lv.prize
      let nextLevelValue := levelValue + 1
      if nextLevelValue = 6 then some (.congratulations, true, none)
      else some (.youAreRight, false, some (nextLevelValue, accumulated, time))
  else some (.youLost, true, none)

/-- The toggle a call shows after an answered round. -/
def promptShown (round : Round) (levelValue : Nat) : PromptKind :=
  if round.correct then
    (if levelValue + 1 = 6 then .congratulations else .youAreRight)
  else .youLost

/-- How one call of `_run` goes on after its own work. -/
inductive Next where
  | raise (evs : List Event)
  | stop (evs : List Event)
  | again (levelValue : Nat) (accumulated : Int) (time : Nat) (evs : List Event)
  deriving DecidableEq, Repr

/-- The body of `_run` (lines 54-119) up to the recursive call of line 118.
`time += result.round.time` raises when `startRound` returned `undefined`;
`gameOver | !decision` decides the registration; `this._run(...params)` with the
empty `params` takes the default arguments `1, 0, 0`. -/
def turnOutcome (username : String) (data : List Level)
    (levelValue : Nat) (accumulated : Int) (time : Nat) (turn : Turn) : Next :=
  let level := LevelController.searchLevelByValue data levelValue
  match RoundController.startRound data levelValue turn.played with
  | none => .raise [.clear, .round levelValue, .clear]
  | some round =>
    let time := time + round.time
    match branch level round levelValue accumulated time with
    | none => .raise [.clear, .round levelValue, .clear]
    | some (kind, gameOver, params) =>
      match turn.decision with
      | none => .raise [.clear, .round levelValue, .clear, .prompt kind]
      | some decision =>
        let registered : List Event :=
          if gameOver || !decision then
            [.register (_registerPlayerData username levelValue time)]
          else []
        let evs := [.clear, .round levelValue, .clear, .prompt kind] ++ registered
        if decision then
          let p := params.getD (1, 0, 0)
          .again p.1 p.2.1 p.2.2 evs
        else .stop evs

/-- `GameController._run` (lines 54-119) for the player `username` (the static
field `_username`) on a script of turns. -/
def _run (username : String) (data : List Level) :
    Nat → Int → Nat → List Turn → Res
  | _, _, _, [] => ⟨.pending, [], []⟩
  | levelValue, accumulated, time, turn :: rest =>
    match turnOutcome username data levelValue accumulated time turn with
    | .raise evs => ⟨.raised, rest, evs⟩
    | .stop evs => ⟨.done, rest, evs⟩
    | .again l a t evs => (_run username data l a t rest).pre evs

/-- A configuration of three levels, each rewarding ten times its value. -/
def threeLevels : List Level :=
  [⟨"a", 1, 10⟩, ⟨"b", 2, 20⟩, ⟨"c", 3, 30⟩]

/-- The reference configuration: five levels, each rewarding ten times its value. -/
def fiveLevels : List Level :=
  [⟨"a", 1, 10⟩, ⟨"b", 2, 20⟩, ⟨"c", 3, 30⟩, ⟨"d", 4, 40⟩, ⟨"e", 5, 50⟩]

/-- A configuration of seven levels. -/
def sevenLevels : List Level :=
  [⟨"a", 1, 10⟩, ⟨"b", 2, 20⟩, ⟨"c", 3, 30⟩, ⟨"d", 4, 40⟩, ⟨"e", 5, 50⟩,
   ⟨"f", 6, 60⟩, ⟨"g", 7, 70⟩]

end GameController

namespace GameController

/-- How a call of `process` ends: it returns a token to the navigation engine,
an exception leaves it, or the script is used up while the game waits. -/
inductive ProcessStatus where
  | returned (token : String)
  | raised
  | pending
  deriving DecidableEq, Repr

/-- The result of a call of `process`: how it ended, the unread turns, and the
actions of the game flow in order. -/
structure ProcessRes where
  status : ProcessStatus
  rest : List Turn
  trace : List Event
  deriving DecidableEq, Repr

/-- `GameController.process` (lines 126-133).  `start` is the result of the
start toggle; `asked` is what `_askUsername` yields (`none`: the input prompt
raises).  There is no `try`, so an exception of `_run` leaves `process` too. -/
def process (asked : Option String) (data : List Level) (start : Bool)
    (turns : List Turn) : ProcessRes :=
  if start then
    match asked with
    | none => ⟨.raised, turns, []⟩
    | some username =>
      let r := _run username data 1 0 0 turns
      match r.status with
      | .done => ⟨.returned "back", r.rest, r.trace⟩
      | .raised => ⟨.raised, r.rest, r.trace⟩
      | .pending => ⟨.pending, r.rest, r.trace⟩
  else ⟨.returned "back", turns, []⟩

/-- The value of the variable `accumulated` after lines 64-66 of `_run`:
`if(result.round.correct){ accumulated += level.getPrize(); ...`.  It is `none`
when `level.getPrize()` raises because `level` is `null`. -/
def accumulatedAfter (level : Option Level) (round : Round) (accumulated : Int) :
    Option Int :=
  if round.correct then
    match level with
    | none => none
    | some lv => some (accumulated + lv.prize)
  else some accumulated

/-- One call of `_run` as it went: the arguments it was entered with, the value
the variable `accumulated` holds after lines 64-66 (`after`), which is the
amount the messages of lines 70 and 85 show as `"$" + accumulated` (`none` when
the call raises before), and how the call goes on. -/
structure Call where
  levelValue : Nat
  accumulated : Int
  time : Nat
  after : Option Int
  outcome : Next
  deriving DecidableEq, Repr

/-- The call of `_run` entered with the given arguments, for one turn of the
script. -/
def call (username : String) (data : List Level)
    (levelValue : Nat) (accumulated : Int) (time : Nat) (turn : Turn) : Call :=
  ⟨levelValue, accumulated, time,
    (match RoundController.startRound data levelValue turn.played with
      | none => none
      | some round =>
        accumulatedAfter (LevelController.searchLevelByValue data levelValue) round
          accumulated),
    turnOutcome username data levelValue accumulated time turn⟩

/-- The calls of `_run` made on a script, in order: the call entered with the
given arguments and, as long as a call goes on with `this._run(...params)`
(line 118), the call entered with those arguments on the rest of the script. -/
def calls (username : String) (data : List Level) :
    Nat → Int → Nat → List Turn → List Call
  | _, _, _, [] => []
  | levelValue, accumulated, time, turn :: rest =>
    call username data levelValue accumulated time turn ::
      match turnOutcome username data levelValue accumulated time turn with
      | .again l a t _ => calls username data l a t rest
      | _ => []

/-- The result of a run that consists of the given calls, on the script they
read: the actions of the calls in order, and the end the last call makes. -/
def replay : List Call → List Turn → Res
  | [], _ => ⟨.pending, [], []⟩
  | made :: more, turns =>
    match made.outcome with
    | .raise evs => ⟨.raised, turns.tail, evs⟩
    | .stop evs => ⟨.done, turns.tail, evs⟩
    | .again _ _ _ evs => (replay more turns.tail).pre evs

/-- The prize configured for the level with value `levelValue` (0 when the level
is not configured). -/
def prizeOf (data : List Level) (levelValue : Nat) : Int :=
  match LevelController.searchLevelByValue data levelValue with
  | some lv => lv.prize
  | none => 0

/-- Every round of the script is answered correctly at the level at which it is
played (`levelValue`, `levelValue + 1`, ...), and every round but the last is
played at a level other than 5 and followed by the decision to continue. -/
def allRight (data : List Level) : Nat → List Turn → Bool
  | _, [] => true
  | levelValue, turn :: rest =>
    (match RoundController.startRound data levelValue turn.played with
      | some round => round.correct
      | none => false) &&
    (rest.isEmpty || (levelValue != 5 && turn.decision == some true)) &&
    allRight data (levelValue + 1) rest

/-- A configuration in which level 2 has a negative prize, as
`LevelController.addLevel` accepts it. -/
def negativePrizeLevels : List Level :=
  [⟨"a", 1, 10⟩, ⟨"b", 2, -5⟩, ⟨"c", 3, 30⟩]

end GameController

/-- `fromMilitoUnit` (`src/utils/utils.js`, lines 8-10) on a whole number of
milliseconds: `value/1000 + 'e+2'` reads as `value / 10`, `Math.round` rounds it
to the nearest integer with halves going up, that is `(value + 5) / 10` in
integer division, and `+ 'e-2'` divides by 100.  The result is a number of
seconds with two decimals. -/
def fromMilitoUnit (value : Nat) : ℚ :=
  (((value + 5) / 10 : Nat) : ℚ) / 100

/-- A record of the players database as `PlayerStore._setModel` reads it
(`src/model/player.js`): the key of the record, the username, the level reached
and the time, a JavaScript number. -/
structure Player where
  id : String
  username : String
  maxLevelReached : Nat
  time : ℚ
  deriving DecidableEq, Repr

namespace PlayerStore

/-- `PlayerStore.getPlayerByUsername` (`src/store/playerStore.js`, lines
120-133): the first record, in the order of the database, with that username;
`none` is `null`. -/
def getPlayerByUsername (data : List Player) (username : String) : Option Player :=
  data.find? (fun p => decide (p.username = username))

/-- The assignment `data[id] = ...` on the database object: the record under an
existing key is replaced where it stands, a new key is added at the end. -/
def assign : List Player → Player → List Player
  | [], player => [player]
  | p :: rest, player =>
    if p.id = player.id then player :: rest else p :: assign rest player

/-- `PlayerStore.addPlayer` (lines 60-72): the record is written under its id,
whether or not the id is already there; the new database and the value
returned. -/
def addPlayer (data : List Player) (player : Player) : List Player × Bool :=
  (assign data player, true)

/-- `PlayerStore.updatePlayerData` (lines 97-113): the loop looks for the key
equal to the id of the player; when it finds it the record is replaced and
`true` returned, otherwise nothing changes and `false` is returned. -/
def updatePlayerData : List Player → Player → List Player × Bool
  | [], _ => ([], false)
  | p :: rest, player =>
    if player.id = p.id then (player :: rest, true)
    else ((p :: (updatePlayerData rest player).1), (updatePlayerData rest player).2)

end PlayerStore

namespace PlayerController

/-- `PlayerController.addPlayer` (`src/controller/playerController.js`, lines
15-25) on a plain object: a `Player` is built with the id `uuid` that `uuidv4()`
yields and with the time converted by `fromMilitoUnit`, and handed to the
store. -/
def addPlayer (data : List Player) (uuid : String) (player : GameController.PlayerData) :
    List Player × Bool :=
  PlayerStore.addPlayer data
    ⟨uuid, player.username, player.maxLevelReached, fromMilitoUnit player.time⟩

/-- `PlayerController.registerPlayer` (lines 32-47).  The object handed over by
the game has its three keys, so the guard on `Object.keys(data).length` does not
fire.  A record found by username gets the username, the level and the time of
`data` as they are and is written back; otherwise the player is added. -/
def registerPlayer (store : List Player) (uuid : String) (data : GameController.PlayerData) :
    List Player × Bool :=
  match PlayerStore.getPlayerByUsername store data.username with
  | some player =>
    PlayerStore.updatePlayerData store
      { player with
        username := data.username
        maxLevelReached := data.maxLevelReached
        time := (data.time : ℚ) }
  | none => addPlayer store uuid data

/-- A players database in which two records carry the username `ann`. -/
def twoAnns : List Player :=
  [⟨"p1", "ann", 2, 3⟩, ⟨"p2", "ann", 4, 9⟩]

/-- A players database with one record. -/
def onePlayer : List Player :=
  [⟨"p1", "bob", 2, 3⟩]

end PlayerController

/-- One value of `Math.random()`, seen through the only use the code makes of
it: `Math.floor(Math.random() * m)` for a whole number `m`.  A draw is given by
the index `pick m` it yields for each bound `m`, which is below `m` for a
positive bound and 0 for the bound 0 (the product is then 0).  The draw of a
binary64 value, with the floating-point product, is `MathRandom.toDraw`. -/
structure Draw where
  pick : Nat → Nat
  pick_lt : ∀ m, 0 < m → pick m < m
  pick_zero : pick 0 = 0

/-- The draw 0, the least value of `Math.random()`: it yields the index 0 for
every bound. -/
def Draw.least : Draw :=
  ⟨fun _ => 0, fun _ h => h, rfl⟩

/-- The draw one half: it yields the index `m / 2` for the bound `m`. -/
def Draw.half : Draw :=
  ⟨fun m => m / 2, fun m h => Nat.div_lt_self h (by decide), rfl⟩

/-- A draw just below 1: it yields the last index `m - 1` for the bound `m`. -/
def Draw.greatest : Draw :=
  ⟨fun m => m - 1, fun m h => Nat.sub_lt h (by decide), rfl⟩

/-- `getRandomNumber` (`src/utils/utils.js`, lines 18-24),
`Math.floor(Math.random() * (max - min) + min)` for whole numbers
`min ≤ max`, `min` defaulting to 0: the index the draw yields for the bound
`max - min`, moved up by `min`. -/
def getRandomNumber (draw : Draw) (max : Nat) (min : Nat := 0) : Nat :=
  draw.pick (max - min) + min

/-- The destructuring swap of line 35,
`[array[i], array[j]] = [array[j], array[i]]`, for two positions of the array. -/
def swapAt {α : Type} (array : List α) (i j : Nat) : List α :=
  match array[i]?, array[j]? with
  | some x, some y => (array.set i y).set j x
  | _, _ => array

/-- The loop of lines 33-36, `for(let i = ...; i > 0; i--)`, entered with the
value of `i`; `js i` is the index `j` drawn in the pass with that `i`. -/
def disorderLoop {α : Type} (js : Nat → Nat) : Nat → List α → List α
  | 0, array => array
  | i + 1, array => disorderLoop js i (swapAt array (i + 1) (js (i + 1)))

/-- `disorderArray` (`src/utils/utils.js`, lines 31-38): the loop runs on a copy
of the array from the last index down to 1; `draws i` is the value of
`Math.random()` in the pass with loop variable `i`, and
`j = Math.floor(Math.random() * (i + 1))`. -/
def disorderArray {α : Type} (draws : Nat → Draw) (array : List α) : List α :=
  disorderLoop (fun i => (draws i).pick (i + 1)) (array.length - 1) array

/-- A record of the categories database (`src/model/category.js`); `level` is
the id of the level of difficulty. -/
structure Category where
  id : String
  name : String
  level : String
  deriving DecidableEq, Repr

/-- A record of the questions database (`src/model/question.js`); `category` is
the id of the category. -/
structure Question where
  id : String
  text : String
  category : String
  deriving DecidableEq, Repr

/-- A record of the answers database (`src/model/answer.js`); `question` is the
id of the question. -/
structure Answer where
  id : String
  text : String
  question : String
  isCorrect : Bool
  deriving DecidableEq, Repr

/-- The four databases a round reads, each in the order of its file. -/
structure Store where
  levels : List Level
  categories : List Category
  questions : List Question
  answers : List Answer
  deriving Repr

namespace CategoryStore

/-- `CategoryStore.getCategoriesByLevel` (`src/store/categoryStore.js`, lines
133-147): the categories whose `level` is `levelId`, in the order of the
database. -/
def getCategoriesByLevel (data : List Category) (levelId : String) : List Category :=
  data.filter (fun category => decide (category.level = levelId))

end CategoryStore

namespace CategoryController

/-- `CategoryController.searchCategoriesByLevel`
(`src/controller/categoryController.js`, lines 97-104); the id is a string, so
the guard does not fire. -/
def searchCategoriesByLevel (data : List Category) (levelId : String) : List Category :=
  CategoryStore.getCategoriesByLevel data levelId

end CategoryController

namespace QuestionStore

/-- `QuestionStore.getQuestionsByCategory` (`src/store/questionStore.js`, lines
137-152): the questions whose `category` is `categoryId`, in the order of the
database. -/
def getQuestionsByCategory (data : List Question) (categoryId : String) : List Question :=
  data.filter (fun question => decide (question.category = categoryId))

end QuestionStore

namespace QuestionController

/-- `QuestionController.searchQuestionsByCategory`
(`src/controller/questionController.js`, lines 78-85); the id is a string, so
the guard does not fire. -/
def searchQuestionsByCategory (data : List Question) (categoryId : String) :
    List Question :=
  QuestionStore.getQuestionsByCategory data categoryId

end QuestionController

namespace AnswerStore

/-- `AnswerStore.getAnswersByQuestion` (`src/store/answerStore.js`, lines
139-153): the answers whose `question` is `questionId`, in the order of the
database. -/
def getAnswersByQuestion (data : List Answer) (questionId : String) : List Answer :=
  data.filter (fun answer => decide (answer.question = questionId))

end AnswerStore

/-- A choice of the select prompt: `name` is the id of the answer, `message` its
text. -/
structure Choice where
  name : String
  message : String
  deriving DecidableEq, Repr

/-- The object `{correctChoice, choices}` built by `getAnswersForChoices`. -/
structure Choices where
  correctChoice : String
  choices : List Choice
  deriving DecidableEq, Repr

namespace AnswerController

/-- `AnswerController.getAnswersForChoices`
(`src/controller/answerController.js`, lines 14-30): `correctChoice` is the id
of the first answer flagged correct, `choices` lists all answers of the
question.  When no answer is flagged, `find` yields `undefined`, `.getId()`
raises, and the `catch` makes the result `undefined` (`none`). -/
def getAnswersForChoices (data : List Answer) (questionId : String) : Option Choices :=
  let answers := AnswerStore.getAnswersByQuestion data questionId
  match answers.find? (fun answer => answer.isCorrect) with
  | none => none
  | some correct =>
    some ⟨correct.id, answers.map (fun answer => ⟨answer.id, answer.text⟩)⟩

end AnswerController

namespace RoundController

/-- `RoundController._getRandomCategory` (`src/controller/roundController.js`,
lines 19-27): a category of the level with value `levelValue`, at the drawn
index.  `none` is `undefined`: the level is not configured (`level.getId()`
raises and is caught) or the index is outside the list. -/
def _getRandomCategory (store : Store) (draw : Draw) (levelValue : Nat) :
    Option Category :=
  match LevelController.searchLevelByValue store.levels levelValue with
  | none => none
  | some level =>
    let categories := CategoryController.searchCategoriesByLevel store.categories level.id
    categories[getRandomNumber draw categories.length]?

/-- `RoundController._getRandomQuestion` (lines 34-41): a question of the
category, at the drawn index; `none` is `undefined`. -/
def _getRandomQuestion (store : Store) (draw : Draw) (categoryId : String) :
    Option Question :=
  let questions := QuestionController.searchQuestionsByCategory store.questions categoryId
  questions[getRandomNumber draw questions.length]?

/-- `RoundController._getAnswerChoices` (lines 49-57): the choices of the
question with `choices` shuffled by `disorderArray`; `none` is `undefined`
(`answers.choices` raises on `undefined` and is caught). -/
def _getAnswerChoices (store : Store) (draws : Nat → Draw) (questionId : String) :
    Option Choices :=
  match AnswerController.getAnswersForChoices store.answers questionId with
  | none => none
  | some answers => some { answers with choices := disorderArray draws answers.choices }

/-- The `result(value)` of the prompt (lines 76-81): `value` is the name of the
selected choice, `time` is `endTime - startTime`. -/
def result (correctChoice : String) (value : String) (time : Nat) : Round :=
  ⟨decide (value = correctChoice), time⟩

/-- What the environment supplies to one round: the draws for the category, for
the question and for the shuffle, and the selection of the user, given by the
position of the selected choice in the displayed list and the response time
(`none`: the prompt raises). -/
structure Play where
  categoryDraw : Draw
  questionDraw : Draw
  shuffleDraws : Nat → Draw
  selected : Option (Nat × Nat)

/-- `RoundController.startRound` (lines 64-87) on the databases.  Each of
`category.getId()`, `randomQuestion.getId()` and `answers.choices` raises on
`undefined`; the `catch` then makes the result `undefined` (`none`). -/
def startRoundOn (store : Store) (play : Play) (level : Nat) : Option Round :=
  match _getRandomCategory store play.categoryDraw level with
  | none => none
  | some category =>
    match _getRandomQuestion store play.questionDraw category.id with
    | none => none
    | some randomQuestion =>
      match _getAnswerChoices store play.shuffleDraws randomQuestion.id with
      | none => none
      | some answers =>
        match play.selected with
        | none => none
        | some (index, time) =>
          match answers.choices[index]? with
          | none => none
          | some choice => some (result answers.correctChoice choice.name time)

/-- A small content database on the reference levels: two categories at level
1, one at level 2, and one question with four answers. -/
def quizStore : Store where
  levels := GameController.fiveLevels
  categories := [⟨"c1", "Science", "a"⟩, ⟨"c2", "Art", "a"⟩, ⟨"c3", "History", "b"⟩]
  questions := [⟨"q1", "Two plus two", "c1"⟩, ⟨"q2", "Who painted it", "c2"⟩,
    ⟨"q3", "Which year", "c3"⟩]
  answers := [⟨"a1", "three", "q1", false⟩, ⟨"a2", "four", "q1", true⟩,
    ⟨"a3", "five", "q1", false⟩, ⟨"a4", "six", "q1", false⟩,
    ⟨"a5", "nobody", "q2", true⟩]

/-- A round in which every draw is the least one and the user selects the
first displayed choice after 1500 ms. -/
def firstPlay : Play :=
  ⟨Draw.least, Draw.least, fun _ => Draw.least, some (0, 1500)⟩

end RoundController

/-! ## Adding and deleting records, ordering the players, the table view

The `add` functions of the five databases, the deletion of questions with their
answers, the registration of a question with its answers, the ordering of the
players table, the validator of the username, and the rows of a table view. -/

namespace LevelStore

/-- `LevelStore.addLevel` (`src/store/levelStore.js`, lines 61-75): when the
database has the id of the level the call returns `true` at once; otherwise the
record is written under its id, a new key at the end of the object. -/
def addLevel (data : List Level) (level : Level) : List Level × Bool :=
  if data.any (fun l => decide (l.id = level.id)) then (data, true)
  else (data ++ [level], true)

end LevelStore

namespace CategoryStore

/-- `CategoryStore.addCategory` (`src/store/categoryStore.js`, lines 61-75):
`if( data.hasOwnProperty(id) ) return true;`, then the record is written. -/
def addCategory (data : List Category) (category : Category) : List Category × Bool :=
  if data.any (fun c => decide (c.id = category.id)) then (data, true)
  else (data ++ [category], true)

end CategoryStore

namespace QuestionStore

/-- `QuestionStore.addQuestion` (`src/store/questionStore.js`, lines 62-79):
`if( data.hasOwnProperty(id) ) return true;`, then the record is written and
`result && question` returned, which is truthy (`true`). -/
def addQuestion (data : List Question) (question : Question) : List Question × Bool :=
  if data.any (fun q => decide (q.id = question.id)) then (data, true)
  else (data ++ [question], true)

/-- `QuestionStore.deleteQuestion` (lines 86-97) as `deleteQuestions` calls it,
with the array of ids itself.  The array is not a `Question`, so it is the
property key `id`; as a key it is its string form, the ids joined by commas.
Without that key the call returns `false` and nothing changes; with it the
record under the key is deleted. -/
def deleteQuestion (data : List Question) (question : List String) :
    List Question × Bool :=
  let id := String.intercalate "," question
  if data.any (fun q => decide (q.id = id)) then
    (data.filter (fun q => !decide (q.id = id)), true)
  else (data, false)

end QuestionStore

namespace AnswerStore

/-- `AnswerStore.addAnswer` (`src/store/answerStore.js`, lines 66-80):
`if( data.hasOwnProperty(id) ) return true;`, then the record is written. -/
def addAnswer (data : List Answer) (answer : Answer) : List Answer × Bool :=
  if data.any (fun a => decide (a.id = answer.id)) then (data, true)
  else (data ++ [answer], true)

/-- `AnswerStore.deleteAnswer` (lines 87-98): every record whose `question` is
included in `questionIds` is deleted. -/
def deleteAnswer (data : List Answer) (questionIds : List String) : List Answer × Bool :=
  (data.filter (fun a => !questionIds.contains a.question), true)

end AnswerStore

namespace AnswerController

/-- `AnswerController.addAnswer` (`src/controller/answerController.js`, lines
37-48) on a plain object with its three keys: an `Answer` is built with the id
`uuid` that `uuidv4()` yields and handed to the store. -/
def addAnswer (data : List Answer) (uuid : String) (text question : String)
    (isCorrect : Bool) : List Answer × Bool :=
  AnswerStore.addAnswer data ⟨uuid, text, question, isCorrect⟩

/-- `AnswerController.deleteAnswers` (lines 56-64). -/
def deleteAnswers (data : List Answer) (questionIds : List String) : List Answer × Bool :=
  if questionIds.isEmpty then (data, false) else AnswerStore.deleteAnswer data questionIds

end AnswerController

namespace QuestionController

/-- `QuestionController.deleteQuestions`
(`src/controller/questionController.js`, lines 62-71):
`QuestionStore.deleteQuestion(idsArray) && AnswerController.deleteAnswers(idsArray)`,
the second call made only when the first returned `true`.  The result is the
questions database, the answers database and the value returned. -/
def deleteQuestions (questions : List Question) (answers : List Answer)
    (idsArray : List String) : List Question × List Answer × Bool :=
  if idsArray.isEmpty then (questions, answers, false)
  else
    let deleted := QuestionStore.deleteQuestion questions idsArray
    if deleted.2 then
      let removed := AnswerController.deleteAnswers answers idsArray
      (deleted.1, removed.1, removed.2)
    else (deleted.1, answers, false)

/-- The object handed to `addQuestion` by the question form: the text, the id of
the category (the empty string stands for a missing value, both are falsy), and
the entries of `answers` in the order of its keys. -/
structure QuestionData where
  text : String
  category : String
  answers : List (String × String)
  deriving DecidableEq, Repr

/-- The loop of lines 42-49, `for(const key in data.answers)`, entered at the
pass number `k`: the pass adds the answer `data.answers[key]` for the question,
flagged correct when the key is `correctAnswer`, under the id `answerUuid k`
that `uuidv4()` yields in that pass.  The state is the answers database and the
truthiness of `resultAddAnswers`. -/
def addAnswersLoop (question : String) (answerUuid : Nat → String) :
    Nat → List (String × String) → List Answer × Bool → List Answer × Bool
  | _, [], state => state
  | k, entry :: rest, state =>
    addAnswersLoop question answerUuid (k + 1) rest
      (AnswerController.addAnswer state.1 (answerUuid k) entry.2 question
        (decide (entry.1 = "correctAnswer")))

/-- `QuestionController.addQuestion` (lines 36-55).  `uuid` is the id that
`uuidv4()` yields for the new question.  The result is the questions database,
the answers database and the truthiness of the value returned
(`resultAddAnswers` is `undefined` before the first pass). -/
def addQuestion (questions : List Question) (answers : List Answer) (uuid : String)
    (answerUuid : Nat → String) (data : QuestionData) :
    List Question × List Answer × Bool :=
  if data.text = "" ∨ data.category = "" then (questions, answers, false)
  else
    let resultAddQuestion := QuestionStore.addQuestion questions ⟨uuid, data.text, data.category⟩
    let added := addAnswersLoop uuid answerUuid 0 data.answers (answers, false)
    (resultAddQuestion.1, added.1, resultAddQuestion.2 && added.2)

/-- The answers the loop of `addQuestion` builds from the entries, the first of
them in the pass number `k`. -/
def newAnswers (question : String) (answerUuid : Nat → String) :
    Nat → List (String × String) → List Answer
  | _, [] => []
  | k, entry :: rest =>
    ⟨answerUuid k, entry.2, question, decide (entry.1 = "correctAnswer")⟩ ::
      newAnswers question answerUuid (k + 1) rest

/-- The entries of the answers form (`src/view/interfaceView.js`, lines
143-148) filled in. -/
def formAnswers : List (String × String) :=
  [("correctAnswer", "four"), ("answer2", "three"), ("answer3", "five"),
   ("answer4", "six")]

/-- Four different ids for the answers of a new question. -/
def sampleUuid (k : Nat) : String :=
  ["n1", "n2", "n3", "n4"].getD k "n0"

end QuestionController

namespace PlayerController

/-- A row of the players table built by `getPlayersForTable`
(`src/controller/playerController.js`, lines 71-76). -/
structure PlayerRow where
  id : String
  username : String
  level : Nat
  time : ℚ
  deriving DecidableEq, Repr

/-- The comparator of `_orderPlayers` (line 56):
`player1.level === player2.level ? player1.time - player2.time
 : player2.level - player1.level`. -/
def comparePlayers (player1 player2 : PlayerRow) : ℚ :=
  if player1.level = player2.level then player1.time - player2.time
  else (player2.level : ℚ) - (player1.level : ℚ)

/-- `PlayerController._orderPlayers` (lines 54-60), `players.sort(comparator)`.
`Array.prototype.sort` is stable, and the comparator is consistent (it is the
sign of a comparison by level and then by time), so the sorted array is the
one a stable insertion sort yields, `player1` standing before `player2` when
the comparator is not positive. -/
def _orderPlayers (players : List PlayerRow) : List PlayerRow :=
  players.insertionSort (fun player1 player2 => comparePlayers player1 player2 ≤ 0)

/-- `PlayerController.getPlayersForTable` (lines 66-82) on the players
database. -/
def getPlayersForTable (store : List Player) : List PlayerRow :=
  _orderPlayers (store.map (fun p => ⟨p.id, p.username, p.maxLevelReached, p.time⟩))

end PlayerController

namespace GameController

/-- The `validate` function of the input prompt of `_askUsername`
(`src/controller/gameController.js`, lines 19-37), whose message reads
"Enter a username (maximum 8 characters):": `return value.length < 8;`. -/
def validate (value : String) : Bool :=
  decide (value.length < 8)

/-- The static field `_username` after a call of `process` (lines 126-133)
entered with the field holding `before`: line 128 sets it to the name asked
(nothing is assigned when `_askUsername` raises), line 130 resets it to `null`
(`none`) and is reached only when `_run` returned. -/
def usernameAfter (before : Option String) (asked : Option String) (data : List Level)
    (start : Bool) (turns : List Turn) : Option String :=
  if start then
    match asked with
    | none => before
    | some username =>
      match (_run username data 1 0 0 turns).status with
      | .done => none
      | .raised => some username
      | .pending => some username
  else before

/-- Whether each turn of `turns`, played from the level `levelValue` on, is a
round answered correctly, not at level 5, and followed by the decision to
continue. -/
def continued (data : List Level) : Nat → List Turn → Bool
  | _, [] => true
  | levelValue, turn :: rest =>
    (match RoundController.startRound data levelValue turn.played with
      | some round => round.correct
      | none => false)
    && levelValue != 5 && turn.decision == some true
    && continued data (levelValue + 1) rest

/-- The response times `result.round.time` of the rounds of `turns`, played
from the level `levelValue` on, summed. -/
def roundTimes (data : List Level) : Nat → List Turn → Nat
  | _, [] => 0
  | levelValue, turn :: rest =>
    (match RoundController.startRound data levelValue turn.played with
      | some round => round.time
      | none => 0)
    + roundTimes data (levelValue + 1) rest

/-- Whether the turn at level `levelValue` ends a play-through: the round and
the toggle are answered, and the round was lost, or won at level 5, or the
player decided to quit. -/
def ends (data : List Level) (levelValue : Nat) (turn : Turn) : Bool :=
  match RoundController.startRound data levelValue turn.played, turn.decision with
  | some round, some decision => !round.correct || levelValue == 5 || !decision
  | _, _ => false

/-- The actions of the calls of `_run` for rounds that were continued, the
first of them at the level `levelValue`. -/
def continueEvents : Nat → List Turn → List Event
  | _, [] => []
  | levelValue, _ :: rest =>
    [.clear, .round levelValue, .clear, .prompt .youAreRight]
      ++ continueEvents (levelValue + 1) rest

/-- The data registered by the actions of a trace, in order. -/
def registrations (trace : List Event) : List PlayerData :=
  trace.filterMap (fun e =>
    match e with
    | .register data => some data
    | _ => none)

/-- Two rounds won and continued, on the reference levels. -/
def twoContinued : List Turn :=
  [⟨some ⟨true, 1000⟩, some true⟩, ⟨some ⟨true, 2000⟩, some true⟩]

end GameController

namespace TableView

/-- An element of the array `choices` of a table: a separator, a selectable
entry, or `undefined` (what `_setHeadTableFormat` returns after its `catch`). -/
inductive Entry where
  | separator (message : String)
  | choice (name : String) (message : String)
  | undefined
  deriving DecidableEq, Repr

/-- A row of `params.rows`: its `id` and the text of its other properties by
name. -/
structure Row where
  id : String
  cells : List (String × String)
  deriving DecidableEq, Repr

/-- The fields of a table that the formatting reads. -/
structure Table where
  columns : List String
  columnWidth : Nat
  actions : List String
  deriving DecidableEq, Repr

/-- The constructor (`src/view/tableView.js`, lines 25-43) as far as those
fields go: `params.columnWidth || 30`, and the actions followed by the default
actions `back` and `close`. -/
def new (columns : List String) (columnWidth : Nat) (actions : List String) : Table :=
  ⟨columns, if columnWidth = 0 then 30 else columnWidth, actions ++ ["back", "close"]⟩

/-- `String.prototype.repeat`: a negative count raises a `RangeError` (`none`). -/
def stringRepeat (s : String) (count : Int) : Option String :=
  if count < 0 then none else some (String.join (List.replicate count.toNat s))

/-- One pass of the `forEach` over the columns (lines 55-56 and 97-98): the text
followed by `columnWidth - text.length` blanks.  Styles are left out, lengths
are counted in characters. -/
def padded (columnWidth : Nat) (text : String) : Option String :=
  match stringRepeat " " ((columnWidth : Int) - (text.length : Int)) with
  | none => none
  | some gap => some (text ++ gap)

/-- The `forEach` over the columns: `cell column` is the text printed for the
column, `none` when reading it raises; the message is `none` when a pass
raises. -/
def cellsMessage (columnWidth : Nat) (cell : String → Option String) :
    List String → Option String
  | [] => some ""
  | column :: rest =>
    match cell column with
    | none => none
    | some text =>
      match padded columnWidth text with
      | none => none
      | some first =>
        match cellsMessage columnWidth cell rest with
        | none => none
        | some message => some (first ++ message)

/-- The line of dashes of the header and of the footer. -/
def separatorLine (table : Table) : String :=
  String.join (List.replicate (table.columnWidth * table.columns.length + 2) "-")

/-- `_setHeadTableFormat` (lines 50-66): the names of the columns, padded,
between two lines of dashes; `undefined` when the `try` raises. -/
def _setHeadTableFormat (table : Table) : Entry :=
  match cellsMessage table.columnWidth (fun column => some column) table.columns with
  | none => .undefined
  | some names =>
    .separator ("\x08\x08" ++ separatorLine table ++ "\n  " ++ names ++ "\n"
      ++ separatorLine table)

/-- `_setFooterTable` (lines 72-83): a separator, then one entry per action. -/
def _setFooterTable (table : Table) : List Entry :=
  .separator ("\x08\x08" ++ separatorLine table)
    :: table.actions.map (fun action => .choice action action)

/-- The `rows.map` of lines 94-104: one entry per row, named by the id of the
row; `data[column].toString()` raises when the row has no such property.  The
result is `none` when the callback raises for some row. -/
def formatRows (table : Table) : List Row → Option (List Entry)
  | [] => some []
  | data :: rest =>
    match cellsMessage table.columnWidth (fun column => data.cells.lookup column)
        table.columns with
    | none => none
    | some message =>
      match formatRows table rest with
      | none => none
      | some entries => some (.choice data.id message :: entries)

/-- `TableView._setRowsFormat` (lines 90-111); `none` is `undefined`, returned
after the `catch`. -/
def _setRowsFormat (table : Table) (rows : List Row) : Option (List Entry) :=
  if rows.isEmpty then some (_setFooterTable table)
  else
    match formatRows table rows with
    | none => none
    | some rowsFormat => some (_setHeadTableFormat table :: rowsFormat ++ _setFooterTable table)

/-- The table of the questions to delete (`src/view/interfaceView.js`, lines
214-230). -/
def deleteQuestionsTable : Table :=
  new ["text", "category"] 80 ["delete"]

/-- A row of that table for a question of 95 characters. -/
def longQuestionRow : Row :=
  ⟨"q1", [("text", "Which of the rivers listed below crosses the largest number of countries on its way to the sea?"),
    ("category", "Geography")]⟩

/-- A row of that table for a short question. -/
def shortQuestionRow : Row :=
  ⟨"q2", [("text", "Two plus two"), ("category", "Science")]⟩

end TableView

/-! ## The floating-point product of `getRandomNumber`

`Math.random()` yields a binary64 number in `[0, 1)`, and the product with the
bound is rounded to binary64 before `Math.floor` is applied. -/

/-- The number of low bits of `n` that do not fit into 53 significant bits: `n`
is halved until it is below `2 ^ 53`.  The first argument bounds the number of
passes; `n` itself is enough. -/
def excessBits : Nat → Nat → Nat
  | 0, _ => 0
  | fuel + 1, n => if n < 2 ^ 53 then 0 else excessBits fuel (n / 2) + 1

/-- The rounding of binary64 arithmetic on the numerator of a dyadic number:
`n` rounded to 53 significant bits, to nearest, ties to even.  For a number
`n / 2 ^ p` with `p ≤ 1074` the binary64 value nearest to it is
`roundBinary64 n / 2 ^ p` (below `2 ^ 53` the numerator is kept as it is, which
covers the subnormal numbers). -/
def roundBinary64 (n : Nat) : Nat :=
  let s := excessBits n n
  let q := n / 2 ^ s
  let rem := n % 2 ^ s
  if 2 * rem < 2 ^ s ∨ (2 * rem = 2 ^ s ∧ q % 2 = 0) then q * 2 ^ s else (q + 1) * 2 ^ s

/-- A value of `Math.random()`: a binary64 number in `[0, 1)`, that is
`mantissa / 2 ^ exponent` with a mantissa of at most 53 bits and an exponent of
at most 1074. -/
structure MathRandom where
  mantissa : Nat
  exponent : Nat
  mantissa_lt : mantissa < 2 ^ 53
  exponent_le : exponent ≤ 1074
  lt_one : mantissa < 2 ^ exponent

/-- The number a value of `Math.random()` stands for. -/
def MathRandom.value (r : MathRandom) : ℚ :=
  (r.mantissa : ℚ) / 2 ^ r.exponent

/-- The expression `Math.floor(Math.random() * m)` of `getRandomNumber`
(`src/utils/utils.js`, line 23, with `min = 0`) for a whole number `m`: the
exact product `mantissa * m / 2 ^ exponent` is rounded to binary64 and the
floor of the rounded product is taken. -/
def MathRandom.floorTimes (r : MathRandom) (m : Nat) : Nat :=
  roundBinary64 (r.mantissa * m) / 2 ^ r.exponent

/-- The draw that a value of `Math.random()` is: for each bound the index is
the floor of the rounded product.  The rounded product stays below the bound,
because the value is at most `1 - 2 ^ -53`, and it is 0 for the bound 0. -/
def MathRandom.toDraw (r : MathRandom) : Draw :=
  ⟨r.floorTimes,
    by
      intro max hpos
      have hbits : ∀ fuel n : Nat,
          excessBits fuel n = 0 ∨ 2 ^ 52 * 2 ^ excessBits fuel n ≤ n := by
        intro fuel
        induction fuel with
        | zero => intro n; exact Or.inl rfl
        | succ fuel ih =>
          intro n
          unfold excessBits
          by_cases h : n < 2 ^ 53
          · rw [if_pos h]; exact Or.inl rfl
          · rw [if_neg h]
            right
            rw [Nat.pow_succ]
            rcases ih (n / 2) with h0 | h1
            · rw [h0]
              norm_num at h ⊢
              omega
            · norm_num at h h1 ⊢
              omega
      have hone : 2 ^ r.exponent + 2 ^ 53 * r.mantissa ≤ 2 ^ 53 * 2 ^ r.exponent := by
        have h53 := r.mantissa_lt
        have hlt := r.lt_one
        by_cases hp : r.exponent ≤ 53
        · have : (2 : Nat) ^ r.exponent ≤ 2 ^ 53 := Nat.pow_le_pow_right (by norm_num) hp
          generalize (2 : Nat) ^ r.exponent = W at *
          norm_num at *
          omega
        · have : (2 : Nat) ^ 54 ≤ 2 ^ r.exponent :=
            Nat.pow_le_pow_right (by norm_num) (by omega)
          generalize (2 : Nat) ^ r.exponent = W at *
          norm_num at *
          omega
      have hN : r.mantissa * max < max * 2 ^ r.exponent := by
        rw [Nat.mul_comm max]
        exact Nat.mul_lt_mul_of_pos_right r.lt_one hpos
      have hX : max * 2 ^ r.exponent + 2 ^ 53 * (r.mantissa * max)
          ≤ 2 ^ 53 * (max * 2 ^ r.exponent) := by
        calc max * 2 ^ r.exponent + 2 ^ 53 * (r.mantissa * max)
            = max * (2 ^ r.exponent + 2 ^ 53 * r.mantissa) := by ring
          _ ≤ max * (2 ^ 53 * 2 ^ r.exponent) := Nat.mul_le_mul_left max hone
          _ = 2 ^ 53 * (max * 2 ^ r.exponent) := by ring
      have hdiv := Nat.div_mul_le_self (r.mantissa * max)
        (2 ^ excessBits (r.mantissa * max) (r.mantissa * max))
      have hmod := Nat.div_add_mod (r.mantissa * max)
        (2 ^ excessBits (r.mantissa * max) (r.mantissa * max))
      rw [Nat.mul_comm] at hmod
      have hs := hbits (r.mantissa * max) (r.mantissa * max)
      apply (Nat.div_lt_iff_lt_mul (Nat.pos_pow_of_pos _ (by norm_num))).2
      unfold roundBinary64
      simp only
      split
      · omega
      · rename_i hcond
        have hle : 2 ^ excessBits (r.mantissa * max) (r.mantissa * max)
            ≤ 2 * (r.mantissa * max % 2 ^ excessBits (r.mantissa * max) (r.mantissa * max)) := by
          by_contra hlt
          exact hcond (Or.inl (by omega))
        rcases hs with h0 | h52
        · rw [h0] at hle
          simp [Nat.mod_one] at hle
        · rw [Nat.add_mul, Nat.one_mul]
          generalize (2 : Nat) ^ excessBits (r.mantissa * max) (r.mantissa * max) = A at *
          generalize r.mantissa * max / A * A = Q at *
          generalize r.mantissa * max % A = rem at *
          generalize r.mantissa * max = N at *
          generalize max * 2 ^ r.exponent = X at *
          norm_num at *
          omega,
    by simp [MathRandom.floorTimes, roundBinary64, excessBits]⟩

/-- The binary64 number just below two thirds, `0.6666666666666666`. -/
def belowTwoThirds : MathRandom :=
  ⟨6004799503160661, 53, by decide, by decide, by decide⟩

/-- The binary64 number one half. -/
def oneHalf : MathRandom :=
  ⟨1, 1, by decide, by decide, by decide⟩

namespace InterfaceController

theorem catchErr_rest (r : Res) : (catchErr r).rest = r.rest := by
  unfold catchErr; split <;> rfl

theorem catchErr_ne_raised (r : Res) : (catchErr r).status ≠ .raised := by
  unfold catchErr; split
  · simp
  · next h => exact fun h2 => h h2

theorem catchErr_outOfFuel (r : Res) :
    (catchErr r).status = .outOfFuel ↔ r.status = .outOfFuel := by
  unfold catchErr; split
  · next h => simp [h]
  · rfl

theorem catchErr_pre (evs : List Event) (r : Res) :
    catchErr (r.pre evs) = (catchErr r).pre evs := by
  unfold catchErr Res.pre
  cases h : r.status <;> simp [h]

/-- With more fuel than script entries the loop never runs out of fuel, and it
never hands back more script than it was given. -/
theorem loop_fuel : ∀ (fuel : Nat) (node : MenuNode) (close : Option Bool)
    (script : List Step), script.length < fuel →
    (loop fuel node close script).status ≠ .outOfFuel ∧
      (loop fuel node close script).rest.length ≤ script.length := by
  intro fuel
  induction fuel with
  | zero => intro _ _ _ h; omega
  | succ fuel ih =>
    intro node close script h
    rw [loop]
    unfold body
    split
    · simp
    · split
      · simp
      · simp
      · simp
      · next raw processed confirm rest =>
        have hr : rest.length < fuel := by simp at h; omega
        split
        · simp
        · next choice _ =>
          split
          · next child _ =>
            have hc := ih child (some false) rest hr
            simp only
            split
            · next c hst =>
              have h2 := ih node c (catchErr (loop fuel child (some false) rest)).rest
                (by rw [catchErr_rest]; omega)
              simp only [Res.pre]
              refine ⟨h2.1, ?_⟩
              have h3 := h2.2
              have h4 : (catchErr (loop fuel child (some false) rest)).rest.length
                  ≤ rest.length := by rw [catchErr_rest]; exact hc.2
              simp only [List.length_cons]
              omega
            · simp only [Res.pre, catchErr_rest]
              refine ⟨?_, by simp; omega⟩
              intro hh
              exact hc.1 ((catchErr_outOfFuel _).1 hh)
          · have h2 := ih node none rest hr
            simp only [Res.pre]
            exact ⟨h2.1, by simp; omega⟩
          · split
            · split
              · next b =>
                have h2 := ih node (some b) rest hr
                simp only [Res.pre]
                exact ⟨h2.1, by simp; omega⟩
              · simp
            · split
              · simp
              · have h2 := ih node close rest hr
                simp only [Res.pre]
                exact ⟨h2.1, by simp; omega⟩

/-- The loop body only consults `again` on strictly shorter scripts. -/
theorem body_congr (a1 a2 : MenuNode → Option Bool → List Step → Res)
    (node : MenuNode) (close : Option Bool) (script : List Step)
    (h : ∀ n c s, s.length < script.length → a1 n c s = a2 n c s)
    (hrest : ∀ n c s, s.length < script.length → (a1 n c s).rest.length ≤ s.length) :
    body a1 node close script = body a2 node close script := by
  unfold body
  split
  · rfl
  · split
    · rfl
    · rfl
    · rfl
    · next raw processed confirm rest =>
      have hr : rest.length < (Step.result raw processed confirm :: rest).length := by simp
      split
      · rfl
      · split
        · next child _ =>
          have e1 := h child (some false) rest hr
          simp only [← e1]
          split
          · next c _ =>
            have hl : (catchErr (a1 child (some false) rest)).rest.length
                < (Step.result raw processed confirm :: rest).length := by
              rw [catchErr_rest]
              have := hrest child (some false) rest hr
              simp only [List.length_cons]; omega
            rw [h node c _ hl]
          · rfl
        · rw [h node none rest hr]
        · split
          · split
            · next b => rw [h node (some b) rest hr]
            · rfl
          · split
            · rfl
            · rw [h node close rest hr]

/-- The result of the loop does not depend on the fuel once there is enough. -/
theorem loop_eq_of_lt : ∀ (f g : Nat) (node : MenuNode) (close : Option Bool)
    (script : List Step), script.length < f → script.length < g →
    loop f node close script = loop g node close script := by
  intro f
  induction f with
  | zero => intro _ _ _ _ h; omega
  | succ f ih =>
    intro g node close script hf hg
    cases g with
    | zero => omega
    | succ g =>
      rw [loop, loop]
      apply body_congr
      · intro n c s hs
        exact ih g n c s (by omega) (by omega)
      · intro n c s hs
        exact (loop_fuel f n c s (by omega)).2

theorem loopFull_rest_le (node : MenuNode) (close : Option Bool) (script : List Step) :
    (loopFull node close script).rest.length ≤ script.length :=
  (loop_fuel _ node close script (Nat.lt_succ_self _)).2

theorem loopFull_eq_body (node : MenuNode) (close : Option Bool) (script : List Step) :
    loopFull node close script = body loopFull node close script := by
  unfold loopFull
  rw [loop]
  apply body_congr
  · intro n c s hs
    exact loop_eq_of_lt _ _ n c s hs (Nat.lt_succ_self _)
  · intro n c s hs
    exact (loop_fuel _ n c s hs).2

theorem resume_eq (node : MenuNode) (close : Option Bool) (script : List Step) :
    resume node close script = catchErr (body loopFull node close script) := by
  unfold resume
  rw [← loopFull_eq_body]
  rfl

theorem catchErr_loopFull (node : MenuNode) (close : Option Bool) (script : List Step) :
    catchErr (loopFull node close script) = resume node close script := rfl

/-- A call whose `close` variable is already `true` returns it at once. -/
theorem resume_true (node : MenuNode) (script : List Step) :
    resume node (some true) script = ⟨.returned (some true), script, []⟩ := by
  rw [resume_eq]; simp [body, catchErr]

theorem resume_nil (node : MenuNode) (close : Option Bool) (hc : close ≠ some true) :
    resume node close [] = ⟨.pending, [], []⟩ := by
  rw [resume_eq]; simp [body, catchErr, hc]

theorem resume_viewRaises (node : MenuNode) (close : Option Bool) (rest : List Step)
    (hc : close ≠ some true) :
    resume node close (.viewRaises :: rest)
      = ⟨.returned none, rest, [.clear, .view node.view, .error]⟩ := by
  rw [resume_eq]; simp [body, catchErr, hc]

theorem resume_runRaises (node : MenuNode) (close : Option Bool) (rest : List Step)
    (hc : close ≠ some true) :
    resume node close (.runRaises :: rest)
      = ⟨.returned none, rest, [.clear, .view node.view, .error]⟩ := by
  rw [resume_eq]; simp [body, catchErr, hc]

theorem resume_processRaises (node : MenuNode) (close : Option Bool) (rest : List Step)
    (raw : String) (processed : Option String) (confirm : Option Bool)
    (hc : close ≠ some true) (hch : choose node.controller raw processed = none) :
    resume node close (.result raw processed confirm :: rest)
      = ⟨.returned none, rest, iterEvents node ++ [.error]⟩ := by
  rw [resume_eq]; simp [body, catchErr, hc, hch]

/-- Descent: the outcome is a key whose value is a sub-tree. -/
theorem resume_child (node child : MenuNode) (close : Option Bool) (rest : List Step)
    (raw : String) (processed : Option String) (confirm : Option Bool) (choice : String)
    (hc : close ≠ some true) (hch : choose node.controller raw processed = some choice)
    (hm : node.member choice = some (.node child)) :
    resume node close (.result raw processed confirm :: rest)
      = match (_run child rest).status with
        | .returned c =>
          (resume node c (_run child rest).rest).pre (iterEvents node ++ (_run child rest).trace)
        | _ => (_run child rest).pre (iterEvents node) := by
  rw [resume_eq]
  simp only [body, hc, if_false, hch, hm, catchErr_loopFull]
  have hnr := catchErr_ne_raised (loopFull child (some false) rest)
  rw [catchErr_loopFull] at hnr
  change _ = match (resume child (some false) rest).status with
    | .returned c => (resume node c (resume child (some false) rest).rest).pre
        (iterEvents node ++ (resume child (some false) rest).trace)
    | _ => (resume child (some false) rest).pre (iterEvents node)
  cases hst : (resume child (some false) rest).status with
  | returned c => simp only [catchErr_pre, catchErr_loopFull]
  | raised => exact absurd hst hnr
  | pending => simp [catchErr, Res.pre, hst]
  | outOfFuel => simp [catchErr, Res.pre, hst]

/-- The outcome names a member of the node that is not a sub-tree. -/
theorem resume_other (node : MenuNode) (close : Option Bool) (rest : List Step)
    (raw : String) (processed : Option String) (confirm : Option Bool) (choice : String)
    (hc : close ≠ some true) (hch : choose node.controller raw processed = some choice)
    (hm : node.member choice = some .other) :
    resume node close (.result raw processed confirm :: rest)
      = (resume node none rest).pre (iterEvents node ++ [.clear, .error]) := by
  rw [resume_eq]
  simp only [body, hc, if_false, hch, hm, catchErr_pre, catchErr_loopFull]

/-- The outcome is `close` and the toggle answers `b`. -/
theorem resume_close (node : MenuNode) (close : Option Bool) (rest : List Step)
    (raw : String) (processed : Option String) (b : Bool)
    (hc : close ≠ some true) (hch : choose node.controller raw processed = some "close")
    (hm : node.member "close" = none) :
    resume node close (.result raw processed (some b) :: rest)
      = (resume node (some b) rest).pre (iterEvents node ++ [.clear, .confirm (some b)]) := by
  rw [resume_eq]
  simp only [body, hc, if_false, hch, hm, if_true, catchErr_pre, catchErr_loopFull]

/-- The outcome is `close` and the toggle raises. -/
theorem resume_close_raises (node : MenuNode) (close : Option Bool) (rest : List Step)
    (raw : String) (processed : Option String)
    (hc : close ≠ some true) (hch : choose node.controller raw processed = some "close")
    (hm : node.member "close" = none) :
    resume node close (.result raw processed none :: rest)
      = ⟨.returned none, rest, iterEvents node ++ [.clear, .confirm none, .error]⟩ := by
  rw [resume_eq]
  simp [body, hc, hch, hm, catchErr]

/-- The outcome is `back`. -/
theorem resume_back (node : MenuNode) (close : Option Bool) (rest : List Step)
    (raw : String) (processed : Option String) (confirm : Option Bool)
    (hc : close ≠ some true) (hch : choose node.controller raw processed = some "back")
    (hm : node.member "back" = none) :
    resume node close (.result raw processed confirm :: rest)
      = ⟨.returned close, rest, iterEvents node⟩ := by
  rw [resume_eq]
  simp [body, hc, hch, hm, catchErr]

/-- Any other outcome. -/
theorem resume_stay (node : MenuNode) (close : Option Bool) (rest : List Step)
    (raw : String) (processed : Option String) (confirm : Option Bool) (choice : String)
    (hc : close ≠ some true) (hch : choose node.controller raw processed = some choice)
    (hm : node.member choice = none) (h1 : choice ≠ "close") (h2 : choice ≠ "back") :
    resume node close (.result raw processed confirm :: rest)
      = (resume node close rest).pre (iterEvents node) := by
  rw [resume_eq]
  simp only [body, hc, if_false, hch, hm, h1, h2, catchErr_pre, catchErr_loopFull]

/-- A call never ends with an escaping exception and never runs out of fuel. -/
theorem resume_status (node : MenuNode) (close : Option Bool) (script : List Step) :
    (resume node close script).status ≠ .raised ∧
      (resume node close script).status ≠ .outOfFuel := by
  refine ⟨catchErr_ne_raised _, ?_⟩
  intro h
  exact (loop_fuel _ node close script (Nat.lt_succ_self _)).1 ((catchErr_outOfFuel _).1 h)

theorem resume_rest_le (node : MenuNode) (close : Option Bool) (script : List Step) :
    (resume node close script).rest.length ≤ script.length := by
  unfold resume
  rw [catchErr_rest]
  exact (loop_fuel _ node close script (Nat.lt_succ_self _)).2

/-- Induction over an execution of the engine: a property of calls holds for
every call as soon as it is preserved by each way a pass through the loop can
go. -/
theorem resume_induct {P : MenuNode → Option Bool → List Step → Res → Prop}
    (h_true : ∀ node script, P node (some true) script ⟨.returned (some true), script, []⟩)
    (h_nil : ∀ node close, close ≠ some true → P node close [] ⟨.pending, [], []⟩)
    (h_view : ∀ node close rest, close ≠ some true →
      P node close (.viewRaises :: rest)
        ⟨.returned none, rest, [.clear, .view node.view, .error]⟩)
    (h_run : ∀ node close rest, close ≠ some true →
      P node close (.runRaises :: rest)
        ⟨.returned none, rest, [.clear, .view node.view, .error]⟩)
    (h_proc : ∀ node close rest raw processed confirm, close ≠ some true →
      choose node.controller raw processed = none →
      P node close (.result raw processed confirm :: rest)
        ⟨.returned none, rest, iterEvents node ++ [.error]⟩)
    (h_child_ret : ∀ node child close rest raw processed confirm choice c,
      close ≠ some true → choose node.controller raw processed = some choice →
      node.member choice = some (.node child) →
      (_run child rest).status = .returned c →
      P child (some false) rest (_run child rest) →
      P node c (_run child rest).rest (resume node c (_run child rest).rest) →
      P node close (.result raw processed confirm :: rest)
        ((resume node c (_run child rest).rest).pre
          (iterEvents node ++ (_run child rest).trace)))
    (h_child_pend : ∀ node child close rest raw processed confirm choice,
      close ≠ some true → choose node.controller raw processed = some choice →
      node.member choice = some (.node child) →
      (_run child rest).status = .pending →
      P child (some false) rest (_run child rest) →
      P node close (.result raw processed confirm :: rest)
        ((_run child rest).pre (iterEvents node)))
    (h_other : ∀ node close rest raw processed confirm choice,
      close ≠ some true → choose node.controller raw processed = some choice →
      node.member choice = some .other →
      P node none rest (resume node none rest) →
      P node close (.result raw processed confirm :: rest)
        ((resume node none rest).pre (iterEvents node ++ [.clear, .error])))
    (h_close : ∀ node close rest raw processed b,
      close ≠ some true → choose node.controller raw processed = some "close" →
      node.member "close" = none →
      P node (some b) rest (resume node (some b) rest) →
      P node close (.result raw processed (some b) :: rest)
        ((resume node (some b) rest).pre (iterEvents node ++ [.clear, .confirm (some b)])))
    (h_close_raises : ∀ node close rest raw processed,
      close ≠ some true → choose node.controller raw processed = some "close" →
      node.member "close" = none →
      P node close (.result raw processed none :: rest)
        ⟨.returned none, rest, iterEvents node ++ [.clear, .confirm none, .error]⟩)
    (h_back : ∀ node close rest raw processed confirm,
      close ≠ some true → choose node.controller raw processed = some "back" →
      node.member "back" = none →
      P node close (.result raw processed confirm :: rest)
        ⟨.returned close, rest, iterEvents node⟩)
    (h_stay : ∀ node close rest raw processed confirm choice,
      close ≠ some true → choose node.controller raw processed = some choice →
      node.member choice = none → choice ≠ "close" → choice ≠ "back" →
      P node close rest (resume node close rest) →
      P node close (.result raw processed confirm :: rest)
        ((resume node close rest).pre (iterEvents node))) :
    ∀ node close script, P node close script (resume node close script) := by
  suffices H : ∀ (n : Nat) node close script, List.length script ≤ n →
      P node close script (resume node close script) from
    fun node close script => H script.length node close script (Nat.le_refl _)
  intro n
  induction n with
  | zero =>
    intro node close script hl
    have hs : script = [] := List.eq_nil_of_length_eq_zero (Nat.le_zero.1 hl)
    subst hs
    by_cases hc : close = some true
    · subst hc; rw [resume_true]; exact h_true _ _
    · rw [resume_nil _ _ hc]; exact h_nil _ _ hc
  | succ n ih =>
    intro node close script hl
    by_cases hc : close = some true
    · subst hc; rw [resume_true]; exact h_true _ _
    · cases script with
      | nil => rw [resume_nil _ _ hc]; exact h_nil _ _ hc
      | cons step rest =>
        have hr : rest.length ≤ n := by simp only [List.length_cons] at hl; omega
        cases step with
        | viewRaises => rw [resume_viewRaises _ _ _ hc]; exact h_view _ _ _ hc
        | runRaises => rw [resume_runRaises _ _ _ hc]; exact h_run _ _ _ hc
        | result raw processed confirm =>
          cases hch : choose node.controller raw processed with
          | none => rw [resume_processRaises _ _ _ _ _ _ hc hch]; exact h_proc _ _ _ _ _ _ hc hch
          | some choice =>
            cases hm : node.member choice with
            | some m =>
              cases m with
              | node child =>
                rw [resume_child _ _ _ _ _ _ _ _ hc hch hm]
                have hchild := ih child (some false) rest hr
                have hst := resume_status child (some false) rest
                cases hs : (_run child rest).status with
                | returned c =>
                  simp only
                  refine h_child_ret _ _ _ _ _ _ _ _ _ hc hch hm hs hchild (ih _ _ _ ?_)
                  exact Nat.le_trans (resume_rest_le child (some false) rest) hr
                | raised => exact absurd hs hst.1
                | pending => exact h_child_pend _ _ _ _ _ _ _ _ hc hch hm hs hchild
                | outOfFuel => exact absurd hs hst.2
              | other =>
                rw [resume_other _ _ _ _ _ _ _ hc hch hm]
                exact h_other _ _ _ _ _ _ _ hc hch hm (ih _ _ _ hr)
            | none =>
              by_cases h1 : choice = "close"
              · subst h1
                cases confirm with
                | none =>
                  rw [resume_close_raises _ _ _ _ _ hc hch hm]
                  exact h_close_raises _ _ _ _ _ hc hch hm
                | some b =>
                  rw [resume_close _ _ _ _ _ _ hc hch hm]
                  exact h_close _ _ _ _ _ _ hc hch hm (ih _ _ _ hr)
              · by_cases h2 : choice = "back"
                · subst h2
                  rw [resume_back _ _ _ _ _ _ hc hch hm]
                  exact h_back _ _ _ _ _ _ hc hch hm
                · rw [resume_stay _ _ _ _ _ _ _ hc hch hm h1 h2]
                  exact h_stay _ _ _ _ _ _ _ hc hch hm h1 h2 (ih _ _ _ hr)

theorem confirm_not_mem_iterEvents (node : MenuNode) (a : Option Bool) :
    Event.confirm a ∉ iterEvents node := by
  unfold iterEvents
  cases node.controller <;> simp

theorem error_not_mem_iterEvents (node : MenuNode) : Event.error ∉ iterEvents node := by
  unfold iterEvents
  cases node.controller <;> simp

theorem ClosedLast.pre {r : Res} (h : ClosedLast r) (evs : List Event)
    (hevs : Event.confirm (some true) ∉ evs) : ClosedLast (r.pre evs) := by
  constructor
  · intro hs
    obtain ⟨pre, hp, hn⟩ := h.1 hs
    refine ⟨evs ++ pre, ?_, ?_⟩
    · simp [Res.pre, hp]
    · simp [hevs, hn]
  · intro hs
    have := h.2 hs
    simp [Res.pre, hevs, this]

/-- In every call that starts with `close` not yet `true`, a confirmed close is
the last action and occurs exactly when the call returns `true`. -/
theorem resume_closedLast : ∀ node close script, close ≠ some true →
    ClosedLast (resume node close script) := by
  apply resume_induct (P := fun _ close _ r => close ≠ some true → ClosedLast r)
  · intro node script h; exact absurd rfl h
  · intro node close _ _; simp [ClosedLast]
  · intro node close rest _ _; simp [ClosedLast]
  · intro node close rest _ _; simp [ClosedLast]
  · intro node close rest raw processed confirm _ _ _
    have := confirm_not_mem_iterEvents node (some true)
    simp [ClosedLast, this]
  · intro node child close rest raw processed confirm choice c _ _ _ hs hchild hnode _
    have hch := hchild (by simp)
    by_cases hc : c = some true
    · subst hc
      obtain ⟨pre, hp, hn⟩ := hch.1 hs
      rw [resume_true]
      constructor
      · intro _
        refine ⟨iterEvents node ++ pre, ?_, ?_⟩
        · simp [Res.pre, hp]
        · simp [hn, confirm_not_mem_iterEvents]
      · intro h; simp [Res.pre] at h
    · have hne : (_run child rest).status ≠ .returned (some true) := by
        rw [hs]; intro h; injection h with h; exact hc h
      apply (hnode hc).pre
      simp [confirm_not_mem_iterEvents, hch.2 hne]
  · intro node child close rest raw processed confirm choice _ _ _ hs hchild _
    apply (hchild (by simp)).pre
    exact confirm_not_mem_iterEvents node _
  · intro node close rest raw processed confirm choice _ _ _ h _
    apply (h (by simp)).pre
    simp [confirm_not_mem_iterEvents]
  · intro node close rest raw processed b _ _ _ h _
    cases b with
    | true =>
      rw [resume_true]
      constructor
      · intro _
        exact ⟨iterEvents node ++ [.clear], by simp [Res.pre],
          by simp [confirm_not_mem_iterEvents]⟩
      · intro h; simp [Res.pre] at h
    | false =>
      apply (h (by simp)).pre
      simp [confirm_not_mem_iterEvents]
  · intro node close rest raw processed _ _ _ _
    have := confirm_not_mem_iterEvents node (some true)
    simp [ClosedLast, this]
  · intro node close rest raw processed confirm hc _ _ _
    have := confirm_not_mem_iterEvents node (some true)
    constructor
    · intro h; simp at h; exact absurd h hc
    · intro _; exact this
  · intro node close rest raw processed confirm choice _ _ _ _ _ h hc
    exact (h hc).pre _ (confirm_not_mem_iterEvents node _)

theorem member_of_lookup (node child : MenuNode) (key : String)
    (h : node.children.lookup key = some child) :
    node.member key = some (.node child) := by
  simp [MenuNode.member, h]

theorem iterEvents_eq (node : MenuNode) :
    iterEvents node
      = .clear :: .view node.view :: (node.controller.map Event.process).toList := rfl

/-- Every pass through the loop that reads a script entry starts by clearing
the console and invoking the view of the node the loop belongs to. -/
theorem resume_cons_trace (node : MenuNode) (close : Option Bool) (step : Step)
    (rest : List Step) (hc : close ≠ some true) :
    ∃ tail, (resume node close (step :: rest)).trace
      = .clear :: .view node.view :: tail := by
  cases step with
  | viewRaises => rw [resume_viewRaises _ _ _ hc]; exact ⟨_, rfl⟩
  | runRaises => rw [resume_runRaises _ _ _ hc]; exact ⟨_, rfl⟩
  | result raw processed confirm =>
    cases hch : choose node.controller raw processed with
    | none =>
      rw [resume_processRaises _ _ _ _ _ _ hc hch, iterEvents_eq]; exact ⟨_, rfl⟩
    | some choice =>
      cases hm : node.member choice with
      | some m =>
        cases m with
        | node child =>
          rw [resume_child _ _ _ _ _ _ _ _ hc hch hm]
          cases (_run child rest).status <;>
            simp only [Res.pre, iterEvents_eq, List.cons_append] <;> exact ⟨_, rfl⟩
        | other =>
          rw [resume_other _ _ _ _ _ _ _ hc hch hm]
          simp only [Res.pre, iterEvents_eq, List.cons_append]; exact ⟨_, rfl⟩
      | none =>
        by_cases h1 : choice = "close"
        · subst h1
          cases confirm with
          | none =>
            rw [resume_close_raises _ _ _ _ _ hc hch hm, iterEvents_eq]; exact ⟨_, rfl⟩
          | some b =>
            rw [resume_close _ _ _ _ _ _ hc hch hm]
            simp only [Res.pre, iterEvents_eq, List.cons_append]; exact ⟨_, rfl⟩
        · by_cases h2 : choice = "back"
          · subst h2
            rw [resume_back _ _ _ _ _ _ hc hch hm, iterEvents_eq]; exact ⟨_, rfl⟩
          · rw [resume_stay _ _ _ _ _ _ _ hc hch hm h1 h2]
            simp only [Res.pre, iterEvents_eq, List.cons_append]; exact ⟨_, rfl⟩

/-- C1. When the outcome at a node is a key of one of its children, the call is
the node's own pass followed by `_run` on exactly that child; when that child
call returns `true` the node returns `true` at once, with no further action and
without reading more script.  Consequently, in every run from a root a confirmed
close is the last action of the whole run and the root returns `true`. -/
theorem C1_child_key_descends_and_close_propagates
    (node child : MenuNode) (close : Option Bool) (rest : List Step)
    (raw : String) (processed : Option String) (confirm : Option Bool) (choice : String)
    (hc : close ≠ some true)
    (hch : choose node.controller raw processed = some choice)
    (hkey : node.children.lookup choice = some child) :
    (resume node close (.result raw processed confirm :: rest)
      = match (_run child rest).status with
        | .returned c =>
          (resume node c (_run child rest).rest).pre
            (iterEvents node ++ (_run child rest).trace)
        | _ => (_run child rest).pre (iterEvents node)) ∧
    ((_run child rest).status = .returned (some true) →
      resume node close (.result raw processed confirm :: rest)
        = ⟨.returned (some true), (_run child rest).rest,
            iterEvents node ++ (_run child rest).trace⟩) ∧
    (∀ (root : MenuNode) (script : List Step) (before after : List Event),
      (_run root script).trace = before ++ Event.confirm (some true) :: after →
        after = [] ∧ (_run root script).status = .returned (some true)) := by
  have hm := member_of_lookup node child choice hkey
  have heq := resume_child node child close rest raw processed confirm choice hc hch hm
  refine ⟨heq, ?_, ?_⟩
  · intro hs
    rw [heq, hs]
    simp [resume_true, Res.pre]
  · intro root script before after htr
    have hcl := resume_closedLast root (some false) script (by simp)
    change ClosedLast (_run root script) at hcl
    have hmem : Event.confirm (some true) ∈ (_run root script).trace := by
      rw [htr]; simp
    have hst : (_run root script).status = .returned (some true) := by
      by_contra hne
      exact hcl.2 hne hmem
    refine ⟨?_, hst⟩
    obtain ⟨pre, hp, hn⟩ := hcl.1 hst
    rw [hp] at htr
    rcases List.eq_nil_or_concat after with h | ⟨l, x, h⟩
    · exact h
    · exfalso
      subst h
      have h2 : pre ++ [Event.confirm (some true)]
          = (before ++ Event.confirm (some true) :: l) ++ [x] := by
        rw [htr]; simp
      have h3 := List.append_inj_left' h2 rfl
      apply hn
      rw [h3]; simp

@[simp] theorem Res.pre_status (evs : List Event) (r : Res) :
    (r.pre evs).status = r.status := rfl

@[simp] theorem Res.pre_rest (evs : List Event) (r : Res) :
    (r.pre evs).rest = r.rest := rfl

@[simp] theorem Res.pre_trace (evs : List Event) (r : Res) :
    (r.pre evs).trace = evs ++ r.trace := rfl

/-- What a call hands back is the script it was given minus a front part. -/
theorem resume_suffix : ∀ node close script,
    ∃ used, script = used ++ (resume node close script).rest := by
  apply resume_induct (P := fun _ _ script r => ∃ used, script = used ++ r.rest)
  · intro node script; exact ⟨[], rfl⟩
  · intro node close _; exact ⟨[], rfl⟩
  · intro node close rest _; exact ⟨[.viewRaises], rfl⟩
  · intro node close rest _; exact ⟨[.runRaises], rfl⟩
  · intro node close rest raw processed confirm _ _; exact ⟨[_], rfl⟩
  · intro node child close rest raw processed confirm choice c _ _ _ _ h1 h2
    obtain ⟨u1, e1⟩ := h1
    obtain ⟨u2, e2⟩ := h2
    refine ⟨.result raw processed confirm :: (u1 ++ u2), ?_⟩
    simp only [Res.pre_rest, List.cons_append, List.append_assoc]
    rw [← e2, ← e1]
  · intro node child close rest raw processed confirm choice _ _ _ _ h1
    obtain ⟨u1, e1⟩ := h1
    refine ⟨.result raw processed confirm :: u1, ?_⟩
    simp only [Res.pre_rest, List.cons_append]
    rw [← e1]
  · intro node close rest raw processed confirm choice _ _ _ h
    obtain ⟨u, e⟩ := h
    refine ⟨.result raw processed confirm :: u, ?_⟩
    simp only [Res.pre_rest, List.cons_append]
    rw [← e]
  · intro node close rest raw processed b _ _ _ h
    obtain ⟨u, e⟩ := h
    refine ⟨.result raw processed (some b) :: u, ?_⟩
    simp only [Res.pre_rest, List.cons_append]
    rw [← e]
  · intro node close rest raw processed _ _ _; exact ⟨[_], rfl⟩
  · intro node close rest raw processed confirm _ _ _; exact ⟨[_], rfl⟩
  · intro node close rest raw processed confirm choice _ _ _ _ _ h
    obtain ⟨u, e⟩ := h
    refine ⟨.result raw processed confirm :: u, ?_⟩
    simp only [Res.pre_rest, List.cons_append]
    rw [← e]

/-- A call that logs no error and returns a value other than `true` returns the
value `close` had on entry or `false`, and its last pass read the outcome `back`
at its own node, where `back` is not a member, with nothing done after that
pass. -/
theorem resume_back_last : ∀ node close script,
    close ≠ some true → Event.error ∉ (resume node close script).trace →
    ∀ c, (resume node close script).status = .returned c → c ≠ some true →
      (c = close ∨ c = some false) ∧
      ∃ used raw processed confirm before,
        script = used ++ .result raw processed confirm :: (resume node close script).rest ∧
        choose node.controller raw processed = some "back" ∧
        node.member "back" = none ∧
        (resume node close script).trace = before ++ iterEvents node := by
  apply resume_induct (P := fun node close script r =>
    close ≠ some true → Event.error ∉ r.trace →
    ∀ c, r.status = .returned c → c ≠ some true →
      (c = close ∨ c = some false) ∧
      ∃ used raw processed confirm before,
        script = used ++ .result raw processed confirm :: r.rest ∧
        choose node.controller raw processed = some "back" ∧
        node.member "back" = none ∧
        r.trace = before ++ iterEvents node)
  · intro node script h; exact absurd rfl h
  · intro node close _ _ _ c hs; simp at hs
  · intro node close rest _ _ he; simp at he
  · intro node close rest _ _ he; simp at he
  · intro node close rest raw processed confirm _ _ _ he; simp at he
  · intro node child close rest raw processed confirm choice c1 _ _ _ hs hchild hnode _ he c hst hne
    simp only [Res.pre_trace, Res.pre_status, Res.pre_rest] at he hst ⊢
    have he1 : Event.error ∉ (_run child rest).trace := by
      intro h; apply he; simp [h]
    have he2 : Event.error ∉ (resume node c1 (_run child rest).rest).trace := by
      intro h; apply he; simp [h]
    have hc1 : c1 ≠ some true := by
      intro h; subst h
      rw [resume_true] at hst
      simp at hst
      exact hne hst.symm
    have hchild2 := (hchild (by simp) he1 c1 hs hc1).1
    have hc1f : c1 = some false := by rcases hchild2 with h | h <;> exact h
    obtain ⟨hval, used, raw2, processed2, confirm2, before, e1, e2, e3, e4⟩ :=
      hnode hc1 he2 c hst hne
    refine ⟨Or.inr ?_, ?_⟩
    · rcases hval with h | h
      · rw [h, hc1f]
      · exact h
    · obtain ⟨u1, eu⟩ := resume_suffix child (some false) rest
      refine ⟨.result raw processed confirm :: (u1 ++ used), raw2, processed2, confirm2,
        iterEvents node ++ (_run child rest).trace ++ before, ?_, e2, e3, ?_⟩
      · simp only [List.cons_append, List.append_assoc]
        rw [← e1]
        exact congrArg _ eu
      · rw [e4]; simp
  · intro node child close rest raw processed confirm choice _ _ _ hs _ _ _ c hst
    simp [hs] at hst
  · intro node close rest raw processed confirm choice _ _ _ _ _ he
    simp at he
  · intro node close rest raw processed b _ _ _ h _ he c hst hne
    simp only [Res.pre_trace, Res.pre_status, Res.pre_rest] at he hst ⊢
    cases b with
    | true =>
      rw [resume_true] at hst
      simp at hst
      exact absurd hst.symm hne
    | false =>
      have he2 : Event.error ∉ (resume node (some false) rest).trace := by
        intro h; apply he; simp [h]
      obtain ⟨hval, used, raw2, processed2, confirm2, before, e1, e2, e3, e4⟩ :=
        h (by simp) he2 c hst hne
      refine ⟨Or.inr (by rcases hval with h | h <;> exact h), ?_⟩
      refine ⟨.result raw processed (some false) :: used, raw2, processed2, confirm2,
        iterEvents node ++ [.clear, .confirm (some false)] ++ before, ?_, e2, e3, ?_⟩
      · simp only [List.cons_append]; rw [← e1]
      · rw [e4]; simp
  · intro node close rest raw processed _ _ _ _ he; simp at he
  · intro node close rest raw processed confirm _ hch hm _ _ c hst _
    simp at hst
    exact ⟨Or.inl hst.symm, [], raw, processed, confirm, [], rfl, hch, hm, rfl⟩
  · intro node close rest raw processed confirm choice _ _ _ _ _ h hc he c hst hne
    simp only [Res.pre_trace, Res.pre_status, Res.pre_rest] at he hst ⊢
    have he2 : Event.error ∉ (resume node close rest).trace := by
      intro h; apply he; simp [h]
    obtain ⟨hval, used, raw2, processed2, confirm2, before, e1, e2, e3, e4⟩ :=
      h hc he2 c hst hne
    refine ⟨hval, .result raw processed confirm :: used, raw2, processed2, confirm2,
      iterEvents node ++ before, ?_, e2, e3, ?_⟩
    · simp only [List.cons_append]; rw [← e1]
    · rw [e4]; simp

/-- Witness of C1 on the application tree: `3` opens the player history, where a
confirmed close ends the whole run. -/
theorem C1_witness :
    ((some false : Option Bool) ≠ some true ∧
      choose interfaceStructure.controller "3" none = some "3" ∧
      interfaceStructure.children.lookup "3" = some playerHistoryNode) ∧
    resume interfaceStructure (some false)
        (.result "3" none none :: [.result "close" none (some true)])
      = ⟨.returned (some true), (_run playerHistoryNode [.result "close" none (some true)]).rest,
          iterEvents interfaceStructure
            ++ (_run playerHistoryNode [.result "close" none (some true)]).trace⟩ :=
  ⟨⟨by decide, rfl, rfl⟩,
    (C1_child_key_descends_and_close_propagates interfaceStructure playerHistoryNode
      (some false) [.result "close" none (some true)] "3" none none "3"
      (by decide) rfl rfl).2.1 (by decide)⟩

/-- C2, as the code has it.  Take a node that has no member named `back` and
a call of `_run` on it which, having read `used` and performed `before`, stands
at the head of its loop with the variable `close` not `true`.  When the next
outcome is `back` the loop stops: the call returns, with no confirmation shown
in that pass and the rest of the script unread, and the value returned is
`false` whenever no error was logged in `before`.  Under a parent exactly one
level is popped: the parent goes on with its own loop, and its next pass
invokes the view of the parent.  On a script of `back` outcomes the call on
such a node returns `false` after the first entry, having invoked only its own
view. -/
theorem C2_back_pops_one_level
    (node : MenuNode) (close : Option Bool) (used rest : List Step) (before : List Event)
    (raw : String) (processed : Option String) (confirm : Option Bool)
    (hc : close ≠ some true)
    (hreach : ∀ tail, _run node (used ++ tail) = (resume node close tail).pre before)
    (hch : choose node.controller raw processed = some "back")
    (hm : node.member "back" = none) :
    _run node (used ++ .result raw processed confirm :: rest)
      = ⟨.returned close, rest, before ++ iterEvents node⟩ ∧
    (∀ answer, Event.confirm answer ∉ iterEvents node) ∧
    (Event.error ∉ before → close = some false) ∧
    (∀ (parent : MenuNode) (pclose : Option Bool) (praw : String)
        (pprocessed : Option String) (pconfirm : Option Bool) (key : String),
      pclose ≠ some true → choose parent.controller praw pprocessed = some key →
      parent.member key = some (.node node) →
        resume parent pclose
            (.result praw pprocessed pconfirm ::
              (used ++ .result raw processed confirm :: rest))
          = (resume parent close rest).pre
              (iterEvents parent ++ (before ++ iterEvents node)) ∧
        ∀ step rest2, rest = step :: rest2 →
          ∃ tail, (resume parent pclose
              (.result praw pprocessed pconfirm ::
                (used ++ .result raw processed confirm :: rest))).trace
            = iterEvents parent ++ (before ++ iterEvents node)
                ++ .clear :: .view parent.view :: tail) ∧
    (∀ script : List Step,
      (∀ s ∈ script, ∃ r p c, s = Step.result r p c ∧
        choose node.controller r p = some "back") →
      _run node (.result raw processed confirm :: script)
        = ⟨.returned (some false), script, iterEvents node⟩) := by
  have hcall : ∀ tail, _run node (used ++ .result raw processed confirm :: tail)
      = ⟨.returned close, tail, before ++ iterEvents node⟩ := by
    intro tail
    rw [hreach, resume_back node close tail raw processed confirm hc hch hm]
    rfl
  have hfresh : ∀ tail, _run node (.result raw processed confirm :: tail)
      = ⟨.returned (some false), tail, iterEvents node⟩ := fun tail =>
    resume_back node (some false) tail raw processed confirm (by simp) hch hm
  refine ⟨hcall rest, fun answer => confirm_not_mem_iterEvents node answer, ?_, ?_,
    fun script _ => hfresh script⟩
  · intro hbefore
    have hlast := hcall []
    have herr : Event.error ∉
        (resume node (some false) (used ++ [.result raw processed confirm])).trace := by
      change Event.error ∉ (_run node (used ++ [.result raw processed confirm])).trace
      rw [hlast]
      simp [hbefore, error_not_mem_iterEvents]
    have hst : (resume node (some false) (used ++ [.result raw processed confirm])).status
        = .returned close := by
      change (_run node (used ++ [.result raw processed confirm])).status = _
      rw [hlast]
    have := (resume_back_last node (some false) (used ++ [.result raw processed confirm])
      (by simp) herr close hst hc).1
    rcases this with h | h <;> exact h
  · intro parent pclose praw pprocessed pconfirm key hpc hpch hpm
    have heq := resume_child parent node pclose
      (used ++ .result raw processed confirm :: rest) praw pprocessed pconfirm key hpc hpch hpm
    rw [hcall rest] at heq
    simp only at heq
    refine ⟨heq, ?_⟩
    intro step rest2 hrest
    obtain ⟨tail, ht⟩ := resume_cons_trace parent close step rest2 hc
    refine ⟨tail, ?_⟩
    rw [heq, hrest, Res.pre_trace, ht]

/-- Witness of C2 on the application tree: in the category settings menu a
close is declined and then `back` is chosen, with more script to follow. -/
theorem C2_witness :
    ((some false : Option Bool) ≠ some true ∧
      (∀ tail, _run categorySettingNode ([.result "close" none (some false)] ++ tail)
        = (resume categorySettingNode (some false) tail).pre
            [.clear, .view 3, .clear, .confirm (some false)]) ∧
      choose categorySettingNode.controller "back" none = some "back" ∧
      categorySettingNode.member "back" = none) ∧
    _run categorySettingNode
        ([.result "close" none (some false)] ++ .result "back" none none ::
          [.result "3" none none])
      = ⟨.returned (some false), [.result "3" none none],
          [.clear, .view 3, .clear, .confirm (some false)] ++
            iterEvents categorySettingNode⟩ := by
  have hreach : ∀ tail,
      _run categorySettingNode ([.result "close" none (some false)] ++ tail)
        = (resume categorySettingNode (some false) tail).pre
            [.clear, .view 3, .clear, .confirm (some false)] := fun tail =>
    resume_close categorySettingNode (some false) tail "close" none false (by simp) rfl rfl
  exact ⟨⟨by decide, hreach, rfl, rfl⟩,
    (C2_back_pops_one_level categorySettingNode (some false)
      [.result "close" none (some false)] [.result "3" none none]
      [.clear, .view 3, .clear, .confirm (some false)] "back" none none
      (by decide) hreach rfl rfl).1⟩

/-- C2 fails as stated.  In the category settings menu, after the delete table
under `2` failed to open, `back` makes the call return `undefined`, not `false`;
and at a root that has a child under the key `back`, the outcome `back` descends
into that child instead of ending the call. -/
theorem C2_counterexample :
    _run categorySettingNode [.result "2" none none, .viewRaises, .result "back" none none]
      = ⟨.returned none, [],
          [.clear, .view 3, .clear, .view 5, .error, .clear, .view 3]⟩ ∧
    _run backKeyTree [.result "back" none none, .result "back" none none]
      = ⟨.pending, [], [.clear, .view 0, .clear, .view 1]⟩ := by
  decide

/-- C3, as the code has it.  At a node that has no member named `close`, the
outcome `close` shows the confirmation toggle; when it is confirmed the call
returns `true` at once; when it is declined the call goes on at the same node
with `close = false`, and its next pass invokes the view of that node again. -/
theorem C3_close_asks_confirmation
    (node : MenuNode) (close : Option Bool) (rest : List Step)
    (raw : String) (processed : Option String)
    (hc : close ≠ some true)
    (hch : choose node.controller raw processed = some "close")
    (hm : node.member "close" = none) :
    resume node close (.result raw processed (some true) :: rest)
      = ⟨.returned (some true), rest,
          iterEvents node ++ [.clear, .confirm (some true)]⟩ ∧
    resume node close (.result raw processed (some false) :: rest)
      = (resume node (some false) rest).pre
          (iterEvents node ++ [.clear, .confirm (some false)]) ∧
    (∀ step rest2, rest = step :: rest2 →
      ∃ tail, (resume node close (.result raw processed (some false) :: rest)).trace
        = iterEvents node ++ [.clear, .confirm (some false)]
            ++ .clear :: .view node.view :: tail) := by
  refine ⟨?_, resume_close node close rest raw processed false hc hch hm, ?_⟩
  · rw [resume_close node close rest raw processed true hc hch hm, resume_true]
    simp [Res.pre]
  · intro step rest2 hrest
    obtain ⟨tail, ht⟩ := resume_cons_trace node (some false) step rest2 (by simp)
    refine ⟨tail, ?_⟩
    rw [resume_close node close rest raw processed false hc hch hm, hrest, Res.pre_trace, ht]

/-- Witness of C3 on the application tree: `close` in the main menu, confirmed. -/
theorem C3_witness :
    ((some false : Option Bool) ≠ some true ∧
      choose interfaceStructure.controller "close" none = some "close" ∧
      interfaceStructure.member "close" = none) ∧
    resume interfaceStructure (some false) (.result "close" none (some true) :: [])
      = ⟨.returned (some true), [],
          iterEvents interfaceStructure ++ [.clear, .confirm (some true)]⟩ :=
  ⟨⟨by decide, rfl, rfl⟩,
    (C3_close_asks_confirmation interfaceStructure (some false) [] "close" none
      (by decide) rfl rfl).1⟩

/-- C3 fails as stated.  At a root that has a child under the key `close`, the
outcome `close` descends into that child: no confirmation is shown and the call
does not return `true` although the toggle would have been confirmed. -/
theorem C3_counterexample :
    _run closeKeyTree [.result "close" none (some true), .result "back" none none]
      = ⟨.pending, [], [.clear, .view 0, .clear, .view 1]⟩ := by
  decide

/-- C4, the code at the failing inputs.  The outcome `view` in the category
settings menu, the outcome `controller` from the category form, and the
inherited name `toString` are found by `choice in interfaceObj`: the engine
calls `_run` on that member, which clears the console, raises and logs an
error, and `close` becomes `undefined`, so that a following `back` returns
`undefined`.  An outcome that is no member at all (`x`) only re-invokes the
view. -/
theorem C4_attribute_token_descends_and_logs :
    _run categorySettingNode [.result "view" none none, .result "back" none none]
      = ⟨.returned none, [],
          [.clear, .view 3, .clear, .error, .clear, .view 3]⟩ ∧
    _run (.mk 4 (some 1) []) [.result "" (some "controller") none, .result "" (some "back") none]
      = ⟨.returned none, [],
          [.clear, .view 4, .process 1, .clear, .error, .clear, .view 4, .process 1]⟩ ∧
    _run categorySettingNode [.result "toString" none none, .result "back" none none]
      = ⟨.returned none, [],
          [.clear, .view 3, .clear, .error, .clear, .view 3]⟩ ∧
    _run categorySettingNode [.result "x" none none, .result "back" none none]
      = ⟨.returned (some false), [], [.clear, .view 3, .clear, .view 3]⟩ := by
  decide

/-- C5. For every tree and script on which the walk from the root returns and
logs no error: the value is `true` exactly when a confirmation was answered
with yes during the walk; otherwise the value is `false`, the last entry read
was the outcome `back` at the root itself (where `back` is no member), and the
walk ends with that pass of the root, without a confirmation. -/
theorem C5_returns_on_confirmed_close_or_back_at_root
    (root : MenuNode) (script : List Step) (c : Option Bool)
    (hret : (_run root script).status = .returned c)
    (hnoerr : Event.error ∉ (_run root script).trace) :
    (c = some true ↔ Event.confirm (some true) ∈ (_run root script).trace) ∧
    (c ≠ some true →
      c = some false ∧
      ∃ used raw processed confirm before,
        script = used ++ .result raw processed confirm :: (_run root script).rest ∧
        choose root.controller raw processed = some "back" ∧
        root.member "back" = none ∧
        (_run root script).trace = before ++ iterEvents root) := by
  have hcl : ClosedLast (_run root script) :=
    resume_closedLast root (some false) script (by simp)
  constructor
  · constructor
    · intro h
      subst h
      obtain ⟨pre, hp, _⟩ := hcl.1 hret
      rw [hp]; simp
    · intro hmem
      by_contra hne
      apply hcl.2 _ hmem
      rw [hret]
      intro h; injection h with h; exact hne h
  · intro hne
    obtain ⟨hval, hrest⟩ :=
      resume_back_last root (some false) script (by simp) hnoerr c hret hne
    exact ⟨by rcases hval with h | h <;> exact h, hrest⟩

/-- Witness of C5 on the application tree: settings, then a confirmed close. -/
theorem C5_witness :
    ((_run interfaceStructure [.result "2" none none, .result "close" none (some true)]).status
        = .returned (some true) ∧
      Event.error ∉
        (_run interfaceStructure
          [.result "2" none none, .result "close" none (some true)]).trace) ∧
    ((some true : Option Bool) = some true ↔
      Event.confirm (some true) ∈
        (_run interfaceStructure
          [.result "2" none none, .result "close" none (some true)]).trace) :=
  ⟨⟨by decide, by decide⟩,
    (C5_returns_on_confirmed_close_or_back_at_root interfaceStructure
      [.result "2" none none, .result "close" none (some true)] (some true)
      (by decide) (by decide)).1⟩

/-- C6. When the view factory raises, when running the view raises, or when the
controller raises while processing the result, the call on that node logs the
error and returns `undefined`, leaving the rest of the script unread.  No call
of `_run` ends with an exception reaching its caller, and neither does
`start`, for every tree and every script. -/
theorem C6_errors_are_caught_and_yield_undefined
    (node : MenuNode) (close : Option Bool) (rest : List Step)
    (raw : String) (processed : Option String) (confirm : Option Bool)
    (hc : close ≠ some true)
    (hch : choose node.controller raw processed = none) :
    resume node close (.viewRaises :: rest)
      = ⟨.returned none, rest, [.clear, .view node.view, .error]⟩ ∧
    resume node close (.runRaises :: rest)
      = ⟨.returned none, rest, [.clear, .view node.view, .error]⟩ ∧
    resume node close (.result raw processed confirm :: rest)
      = ⟨.returned none, rest, iterEvents node ++ [.error]⟩ ∧
    (∀ (n : MenuNode) (script : List Step), (_run n script).status ≠ .raised) ∧
    (∀ (tree : MenuNode) (script : List Step), (start tree script).status ≠ .raised) := by
  refine ⟨resume_viewRaises node close rest hc, resume_runRaises node close rest hc,
    resume_processRaises node close rest raw processed confirm hc hch, ?_, ?_⟩
  · intro n script
    exact (resume_status n (some false) script).1
  · intro tree script
    have h := (resume_status tree (some false) script).1
    change (_run tree script).status ≠ .raised at h
    unfold start
    cases hs : (_run tree script).status with
    | returned c => simp [hs]
    | raised => exact absurd hs h
    | pending => simp [hs]
    | outOfFuel => simp [hs]

/-- Witness of C6 on the application tree: `CategoryController.process` raises
on the result of the category form. -/
theorem C6_witness :
    ((some false : Option Bool) ≠ some true ∧
      choose (MenuNode.mk 4 (some 1) []).controller "form" none = none) ∧
    resume (.mk 4 (some 1) []) (some false) (.result "form" none none :: [])
      = ⟨.returned none, [], iterEvents (.mk 4 (some 1) []) ++ [.error]⟩ :=
  ⟨⟨by decide, rfl⟩,
    (C6_errors_are_caught_and_yield_undefined (.mk 4 (some 1) []) (some false) []
      "form" none none (by decide) rfl).2.2.1⟩

end InterfaceController

namespace GameController

theorem startRound_some (data : List Level) (level : Nat) (played : Option Round)
    (round : Round) (h : RoundController.startRound data level played = some round) :
    (∃ lv, LevelController.searchLevelByValue data level = some lv) ∧ played = some round := by
  unfold RoundController.startRound at h
  cases hl : LevelController.searchLevelByValue data level with
  | none => simp [hl] at h
  | some lv => simp [hl] at h; exact ⟨⟨lv, rfl⟩, h⟩

theorem run_cons (username : String) (data : List Level) (levelValue : Nat)
    (accumulated : Int) (time : Nat) (turn : Turn) (rest : List Turn) :
    _run username data levelValue accumulated time (turn :: rest)
      = match turnOutcome username data levelValue accumulated time turn with
        | .raise evs => ⟨.raised, rest, evs⟩
        | .stop evs => ⟨.done, rest, evs⟩
        | .again l a t evs => (_run username data l a t rest).pre evs := by
  rw [_run]

/-- The outcome of a call whose round was answered and whose toggle was
answered, in terms of what `branch` decided. -/
theorem turnOutcome_answered (username : String) (data : List Level)
    (levelValue : Nat) (accumulated : Int) (time : Nat) (played : Option Round)
    (round : Round) (decision : Bool) (kind : PromptKind) (gameOver : Bool)
    (params : Option (Nat × Int × Nat))
    (hround : RoundController.startRound data levelValue played = some round)
    (hb : branch (LevelController.searchLevelByValue data levelValue) round levelValue
      accumulated (time + round.time) = some (kind, gameOver, params)) :
    turnOutcome username data levelValue accumulated time ⟨played, some decision⟩
      = if decision then
          .again (params.getD (1, 0, 0)).1 (params.getD (1, 0, 0)).2.1
            (params.getD (1, 0, 0)).2.2
            ([.clear, .round levelValue, .clear, .prompt kind] ++
              if gameOver || !decision then
                [.register (_registerPlayerData username levelValue (time + round.time))]
              else [])
        else
          .stop ([.clear, .round levelValue, .clear, .prompt kind] ++
              if gameOver || !decision then
                [.register (_registerPlayerData username levelValue (time + round.time))]
              else []) := by
  simp only [turnOutcome, hround, hb]

/-- What `branch` decides when the level is configured. -/
theorem branch_some (lv : Level) (round : Round) (levelValue : Nat) (accumulated : Int)
    (time : Nat) :
    branch (some lv) round levelValue accumulated time
      = some (if round.correct then
          (if levelValue + 1 = 6 then (.congratulations, true, none)
           else (.youAreRight, false, some (levelValue + 1, accumulated + lv.prize, time)))
        else (.youLost, true, none)) := by
  unfold branch
  cases round.correct <;> simp
  split <;> rfl

/-- After an answered round the call clears the console, plays the round, clears
the console again and shows the toggle `promptShown`. -/
theorem run_trace_prompt (username : String) (data : List Level) (levelValue : Nat)
    (accumulated : Int) (time : Nat) (turn : Turn) (rest : List Turn) (round : Round)
    (hround : RoundController.startRound data levelValue turn.played = some round) :
    ∃ tail, (_run username data levelValue accumulated time (turn :: rest)).trace
      = [.clear, .round levelValue, .clear, .prompt (promptShown round levelValue)]
          ++ tail := by
  obtain ⟨⟨lv, hlv⟩, _⟩ := startRound_some data levelValue turn.played round hround
  rw [run_cons]
  by_cases h6 : levelValue + 1 = 6 <;> cases hc : round.correct <;>
    rcases hd : turn.decision with _ | (_ | _) <;>
    simp [turnOutcome, hround, hlv, branch_some, promptShown, hc, hd, h6, Res.pre]

/-- A lost round: the result is registered with the level of the round and the
time so far, then the toggle decides between a new play-through and the end. -/
theorem run_lost (username : String) (data : List Level) (levelValue : Nat)
    (accumulated : Int) (time : Nat) (played : Option Round) (rest : List Turn)
    (roundTime : Nat) (decision : Bool)
    (hround : RoundController.startRound data levelValue played = some ⟨false, roundTime⟩) :
    _run username data levelValue accumulated time (⟨played, some decision⟩ :: rest)
      = if decision then
          (_run username data 1 0 0 rest).pre
            [.clear, .round levelValue, .clear, .prompt .youLost,
              .register ⟨username, levelValue, time + roundTime⟩]
        else
          ⟨.done, rest,
            [.clear, .round levelValue, .clear, .prompt .youLost,
              .register ⟨username, levelValue, time + roundTime⟩]⟩ := by
  obtain ⟨⟨lv, hlv⟩, _⟩ := startRound_some data levelValue played _ hround
  rw [run_cons]
  cases decision <;>
    simp [turnOutcome, hround, hlv, branch_some, _registerPlayerData]

/-- A correct round at level 5: the result is registered with level 5 and the
time so far, then the toggle decides between a new play-through and the end. -/
theorem run_won (username : String) (data : List Level)
    (accumulated : Int) (time : Nat) (played : Option Round) (rest : List Turn)
    (roundTime : Nat) (decision : Bool)
    (hround : RoundController.startRound data 5 played = some ⟨true, roundTime⟩) :
    _run username data 5 accumulated time (⟨played, some decision⟩ :: rest)
      = if decision then
          (_run username data 1 0 0 rest).pre
            [.clear, .round 5, .clear, .prompt .congratulations,
              .register ⟨username, 5, time + roundTime⟩]
        else
          ⟨.done, rest,
            [.clear, .round 5, .clear, .prompt .congratulations,
              .register ⟨username, 5, time + roundTime⟩]⟩ := by
  obtain ⟨⟨lv, hlv⟩, _⟩ := startRound_some data 5 played _ hround
  rw [run_cons]
  cases decision <;>
    simp [turnOutcome, hround, hlv, branch_some, _registerPlayerData]

/-- A correct round at a level other than 5: quitting registers the level of the
round and the time so far and ends; continuing registers nothing and plays the
next level with the prize added and the time carried over. -/
theorem run_right (username : String) (data : List Level) (levelValue : Nat)
    (accumulated : Int) (time : Nat) (played : Option Round) (rest : List Turn)
    (roundTime : Nat) (lv : Level) (decision : Bool)
    (hL : levelValue ≠ 5)
    (hlv : LevelController.searchLevelByValue data levelValue = some lv)
    (hround : RoundController.startRound data levelValue played = some ⟨true, roundTime⟩) :
    _run username data levelValue accumulated time (⟨played, some decision⟩ :: rest)
      = if decision then
          (_run username data (levelValue + 1) (accumulated + lv.prize) (time + roundTime)
              rest).pre
            [.clear, .round levelValue, .clear, .prompt .youAreRight]
        else
          ⟨.done, rest,
            [.clear, .round levelValue, .clear, .prompt .youAreRight,
              .register ⟨username, levelValue, time + roundTime⟩]⟩ := by
  rw [run_cons]
  cases decision <;>
    simp [turnOutcome, hround, hlv, branch_some, _registerPlayerData, hL]

/-- C7, as the code has it.  For every level configuration, the toggle shown
after an answered round is the winning one exactly when the round was answered
correctly at level 5, that is when the next level index is the constant 6; the
configured levels play no part in it. -/
theorem C7_won_exactly_at_level_five
    (username : String) (data : List Level) (levelValue : Nat)
    (accumulated : Int) (time : Nat) (turn : Turn) (rest : List Turn) (round : Round)
    (hround : RoundController.startRound data levelValue turn.played = some round) :
    (∃ tail, (_run username data levelValue accumulated time (turn :: rest)).trace
        = [.clear, .round levelValue, .clear, .prompt .congratulations] ++ tail)
      ↔ (round.correct = true ∧ levelValue + 1 = 6) := by
  obtain ⟨tail, ht⟩ :=
    run_trace_prompt username data levelValue accumulated time turn rest round hround
  constructor
  · rintro ⟨tail2, h2⟩
    rw [ht] at h2
    simp only [List.cons_append, List.nil_append, List.cons.injEq, Event.prompt.injEq,
      true_and] at h2
    have hk := h2.1
    unfold promptShown at hk
    by_cases hc : round.correct = true
    · by_cases h6 : levelValue + 1 = 6
      · exact ⟨hc, h6⟩
      · simp [hc, h6] at hk
    · simp [hc] at hk
  · rintro ⟨hc, h6⟩
    refine ⟨tail, ?_⟩
    rw [ht]
    simp [promptShown, hc, h6]

/-- Witness of C7: level 5 of the reference configuration, answered correctly. -/
theorem C7_witness :
    RoundController.startRound fiveLevels 5 (Turn.mk (some ⟨true, 7⟩) (some false)).played
        = some ⟨true, 7⟩ ∧
    ((∃ tail, (_run "ann" fiveLevels 5 100 0 [⟨some ⟨true, 7⟩, some false⟩]).trace
        = [.clear, .round 5, .clear, .prompt .congratulations] ++ tail)
      ↔ ((Round.mk true 7).correct = true ∧ 5 + 1 = 6)) :=
  ⟨by decide,
    C7_won_exactly_at_level_five "ann" fiveLevels 5 100 0 ⟨some ⟨true, 7⟩, some false⟩ []
      ⟨true, 7⟩ (by decide)⟩

/-- C7 fails as stated.  With three configured levels, three correct rounds
from level 1 never show the winning toggle: after the round at the highest
level 3 the player is asked whether to continue.  With seven configured levels
the winning toggle is shown after the round at level 5. -/
theorem C7_counterexample :
    _run "ann" threeLevels 1 0 0
        [⟨some ⟨true, 1⟩, some true⟩, ⟨some ⟨true, 1⟩, some true⟩,
          ⟨some ⟨true, 1⟩, some false⟩]
      = ⟨.done, [],
          [.clear, .round 1, .clear, .prompt .youAreRight,
           .clear, .round 2, .clear, .prompt .youAreRight,
           .clear, .round 3, .clear, .prompt .youAreRight,
           .register ⟨"ann", 3, 3⟩]⟩ ∧
    _run "ann" sevenLevels 5 100 4 [⟨some ⟨true, 1⟩, some false⟩]
      = ⟨.done, [],
          [.clear, .round 5, .clear, .prompt .congratulations,
           .register ⟨"ann", 5, 5⟩]⟩ := by
  decide

/-- C8. After an incorrect round at level `levelValue` the player is registered
with that level and the time accumulated so far including this round, whatever
the answer to the game-over toggle; the registration comes before everything
the new play-through does; and the whole outcome is the same for every value
of the accumulated reward, which is not part of what is registered. -/
theorem C8_lost_round_registers_level_and_time
    (username : String) (data : List Level) (levelValue : Nat)
    (accumulated : Int) (time : Nat) (played : Option Round) (rest : List Turn)
    (roundTime : Nat) (decision : Bool)
    (hround : RoundController.startRound data levelValue played = some ⟨false, roundTime⟩) :
    _run username data levelValue accumulated time (⟨played, some decision⟩ :: rest)
      = (if decision then
          (_run username data 1 0 0 rest).pre
            [.clear, .round levelValue, .clear, .prompt .youLost,
              .register ⟨username, levelValue, time + roundTime⟩]
        else
          ⟨.done, rest,
            [.clear, .round levelValue, .clear, .prompt .youLost,
              .register ⟨username, levelValue, time + roundTime⟩]⟩) ∧
    ∀ other : Int,
      _run username data levelValue other time (⟨played, some decision⟩ :: rest)
        = _run username data levelValue accumulated time (⟨played, some decision⟩ :: rest) := by
  refine ⟨run_lost username data levelValue accumulated time played rest roundTime
    decision hround, ?_⟩
  intro other
  rw [run_lost username data levelValue accumulated time played rest roundTime decision hround,
    run_lost username data levelValue other time played rest roundTime decision hround]

/-- Witness of C8: the scenario of the specification, an incorrect round at
level 4 after three correct ones (reward 60, 9 seconds so far). -/
theorem C8_witness :
    RoundController.startRound fiveLevels 4 (some ⟨false, 2000⟩) = some ⟨false, 2000⟩ ∧
    _run "ann" fiveLevels 4 60 9000 (⟨some ⟨false, 2000⟩, some false⟩ :: [])
      = (if false = true then
          (_run "ann" fiveLevels 1 0 0 []).pre
            [.clear, .round 4, .clear, .prompt .youLost,
              .register ⟨"ann", 4, 9000 + 2000⟩]
        else
          ⟨.done, [],
            [.clear, .round 4, .clear, .prompt .youLost,
              .register ⟨"ann", 4, 9000 + 2000⟩]⟩) :=
  ⟨by decide,
    (C8_lost_round_registers_level_and_time "ann" fiveLevels 4 60 9000
      (some ⟨false, 2000⟩) [] 2000 false (by decide)).1⟩

/-- C9. When the round at level 5 is answered correctly the player is registered
with level 5 and the time accumulated so far including this round, both when
the player chooses to play again and when they go back to the menu.  Five
consecutive correct rounds from level 1, continued each time, register exactly
this: level 5 with the sum of the five round times. -/
theorem C9_win_registers_level_five
    (username : String) (data : List Level)
    (accumulated : Int) (time : Nat) (played : Option Round) (rest : List Turn)
    (roundTime : Nat) (decision : Bool)
    (hround : RoundController.startRound data 5 played = some ⟨true, roundTime⟩) :
    _run username data 5 accumulated time (⟨played, some decision⟩ :: rest)
      = (if decision then
          (_run username data 1 0 0 rest).pre
            [.clear, .round 5, .clear, .prompt .congratulations,
              .register ⟨username, 5, time + roundTime⟩]
        else
          ⟨.done, rest,
            [.clear, .round 5, .clear, .prompt .congratulations,
              .register ⟨username, 5, time + roundTime⟩]⟩) ∧
    (∀ (p1 p2 p3 p4 : Option Round) (t1 t2 t3 t4 : Nat),
      RoundController.startRound data 1 p1 = some ⟨true, t1⟩ →
      RoundController.startRound data 2 p2 = some ⟨true, t2⟩ →
      RoundController.startRound data 3 p3 = some ⟨true, t3⟩ →
      RoundController.startRound data 4 p4 = some ⟨true, t4⟩ →
      _run username data 1 0 0
          (⟨p1, some true⟩ :: ⟨p2, some true⟩ :: ⟨p3, some true⟩ :: ⟨p4, some true⟩ ::
            ⟨played, some decision⟩ :: rest)
        = (if decision then
            (_run username data 1 0 0 rest).pre
              [.clear, .round 1, .clear, .prompt .youAreRight,
               .clear, .round 2, .clear, .prompt .youAreRight,
               .clear, .round 3, .clear, .prompt .youAreRight,
               .clear, .round 4, .clear, .prompt .youAreRight,
               .clear, .round 5, .clear, .prompt .congratulations,
               .register ⟨username, 5, 0 + t1 + t2 + t3 + t4 + roundTime⟩]
          else
            ⟨.done, rest,
              [.clear, .round 1, .clear, .prompt .youAreRight,
               .clear, .round 2, .clear, .prompt .youAreRight,
               .clear, .round 3, .clear, .prompt .youAreRight,
               .clear, .round 4, .clear, .prompt .youAreRight,
               .clear, .round 5, .clear, .prompt .congratulations,
               .register ⟨username, 5, 0 + t1 + t2 + t3 + t4 + roundTime⟩]⟩)) := by
  refine ⟨run_won username data accumulated time played rest roundTime decision hround, ?_⟩
  intro p1 p2 p3 p4 t1 t2 t3 t4 h1 h2 h3 h4
  obtain ⟨⟨l1, hl1⟩, _⟩ := startRound_some data 1 p1 _ h1
  obtain ⟨⟨l2, hl2⟩, _⟩ := startRound_some data 2 p2 _ h2
  obtain ⟨⟨l3, hl3⟩, _⟩ := startRound_some data 3 p3 _ h3
  obtain ⟨⟨l4, hl4⟩, _⟩ := startRound_some data 4 p4 _ h4
  rw [run_right username data 1 _ _ p1 _ t1 l1 true (by decide) hl1 h1,
    run_right username data 2 _ _ p2 _ t2 l2 true (by decide) hl2 h2,
    run_right username data 3 _ _ p3 _ t3 l3 true (by decide) hl3 h3,
    run_right username data 4 _ _ p4 _ t4 l4 true (by decide) hl4 h4,
    run_won username data _ _ played rest roundTime decision hround]
  cases decision <;> simp [Res.pre]

/-- Witness of C9: the scenario of the specification on the reference
configuration, the last toggle answered with back to menu. -/
theorem C9_witness :
    RoundController.startRound fiveLevels 5 (some ⟨true, 5⟩) = some ⟨true, 5⟩ ∧
    _run "ann" fiveLevels 5 100 10 (⟨some ⟨true, 5⟩, some false⟩ :: [])
      = (if false = true then
          (_run "ann" fiveLevels 1 0 0 []).pre
            [.clear, .round 5, .clear, .prompt .congratulations,
              .register ⟨"ann", 5, 10 + 5⟩]
        else
          ⟨.done, [],
            [.clear, .round 5, .clear, .prompt .congratulations,
              .register ⟨"ann", 5, 10 + 5⟩]⟩) :=
  ⟨by decide,
    (C9_win_registers_level_five "ann" fiveLevels 100 10 (some ⟨true, 5⟩) [] 5 false
      (by decide)).1⟩

end GameController

namespace GameController

/-- C11. Choosing to play again after a lost round, or after the correct round
at level 5, makes `_run` call itself with the default arguments: level 1,
accumulated reward 0 and time 0.  What follows the registration is exactly a
play-through from that fresh state on the rest of the script; the level, the
reward and the time of the finished play-through occur in it nowhere. -/
theorem C11_play_again_starts_fresh
    (username : String) (data : List Level) (levelValue : Nat)
    (accumulated : Int) (time : Nat) (played : Option Round) (rest : List Turn)
    (round : Round)
    (hround : RoundController.startRound data levelValue played = some round)
    (hover : round.correct = false ∨ levelValue = 5) :
    turnOutcome username data levelValue accumulated time ⟨played, some true⟩
      = .again 1 0 0
          [.clear, .round levelValue, .clear, .prompt (promptShown round levelValue),
            .register ⟨username, levelValue, time + round.time⟩] ∧
    _run username data levelValue accumulated time (⟨played, some true⟩ :: rest)
      = (_run username data 1 0 0 rest).pre
          [.clear, .round levelValue, .clear, .prompt (promptShown round levelValue),
            .register ⟨username, levelValue, time + round.time⟩] := by
  obtain ⟨⟨lv, hlv⟩, _⟩ := startRound_some data levelValue played round hround
  have h1 : turnOutcome username data levelValue accumulated time ⟨played, some true⟩
      = .again 1 0 0
          [.clear, .round levelValue, .clear, .prompt (promptShown round levelValue),
            .register ⟨username, levelValue, time + round.time⟩] := by
    rcases hover with hc | h5
    · simp [turnOutcome, hround, hlv, branch_some, promptShown, hc, _registerPlayerData]
    · subst h5
      cases hc : round.correct <;>
        simp [turnOutcome, hround, hlv, branch_some, promptShown, hc, _registerPlayerData]
  refine ⟨h1, ?_⟩
  rw [run_cons, h1]

/-- Witness of C11: play again after a lost round at level 3 of the reference
configuration. -/
theorem C11_witness :
    (RoundController.startRound fiveLevels 3 (some ⟨false, 800⟩) = some ⟨false, 800⟩ ∧
      ((Round.mk false 800).correct = false ∨ 3 = 5)) ∧
    _run "ann" fiveLevels 3 30 2000 (⟨some ⟨false, 800⟩, some true⟩ :: [])
      = (_run "ann" fiveLevels 1 0 0 []).pre
          [.clear, .round 3, .clear, .prompt (promptShown ⟨false, 800⟩ 3),
            .register ⟨"ann", 3, 2000 + (Round.mk false 800).time⟩] :=
  ⟨⟨by decide, Or.inl rfl⟩,
    (C11_play_again_starts_fresh "ann" fiveLevels 3 30 2000 (some ⟨false, 800⟩) []
      ⟨false, 800⟩ (by decide) (Or.inl rfl)).2⟩

/-- With the levels 1 to 5 configured, a call of `_run` at one of these levels
on a script in which every round yields a result and every toggle is answered
does not raise. -/
theorem run_not_raised (username : String) (data : List Level)
    (hlevels : ∀ l : Nat, 1 ≤ l → l ≤ 5 →
      LevelController.searchLevelByValue data l ≠ none) :
    ∀ (turns : List Turn) (levelValue : Nat) (accumulated : Int) (time : Nat),
      1 ≤ levelValue → levelValue ≤ 5 →
      (∀ t ∈ turns, t.played ≠ none ∧ t.decision ≠ none) →
      (_run username data levelValue accumulated time turns).status ≠ .raised := by
  intro turns
  induction turns with
  | nil => intro _ _ _ _ _ _; simp [_run]
  | cons turn rest ih =>
    intro levelValue accumulated time h1 h5 hall
    obtain ⟨hp, hd⟩ := hall turn (by simp)
    have hrest : ∀ t ∈ rest, t.played ≠ none ∧ t.decision ≠ none :=
      fun t ht => hall t (by simp [ht])
    obtain ⟨round, hround⟩ := Option.ne_none_iff_exists'.1 hp
    obtain ⟨decision, hdec⟩ := Option.ne_none_iff_exists'.1 hd
    obtain ⟨lv, hlv⟩ := Option.ne_none_iff_exists'.1 (hlevels levelValue h1 h5)
    have hst : RoundController.startRound data levelValue turn.played = some round := by
      simp [RoundController.startRound, hlv, hround]
    rw [run_cons]
    simp only [turnOutcome, hst, hlv, branch_some, hdec]
    cases decision
    · simp
    · by_cases hc : round.correct = true
      · by_cases h6 : levelValue + 1 = 6
        · simpa [hc, h6, Res.pre] using ih 1 0 0 (by omega) (by omega) hrest
        · simpa [hc, h6, Res.pre] using
            ih (levelValue + 1) (accumulated + lv.prize) (time + round.time)
              (by omega) (by omega) hrest
      · simpa [hc, Res.pre] using ih 1 0 0 (by omega) (by omega) hrest

/-- C12. With the levels 1 to 5 configured, for every start value, every
username and every script in which each round yields a result and each toggle
is answered, `process` does not raise: it returns the token `back`, or the game
is still waiting for the next answer; it returns `back` exactly when `_run`
returns.  Whatever the input, a token it returns is `back`; and when `start` is
false it returns `back` at once, with no round played and nobody registered. -/
theorem C12_process_returns_back
    (username : String) (data : List Level) (start : Bool) (turns : List Turn)
    (hlevels : ∀ l : Nat, 1 ≤ l → l ≤ 5 →
      LevelController.searchLevelByValue data l ≠ none)
    (hturns : ∀ t ∈ turns, t.played ≠ none ∧ t.decision ≠ none) :
    ((process (some username) data start turns).status = .returned "back" ∨
      (process (some username) data start turns).status = .pending) ∧
    ((_run username data 1 0 0 turns).status = .done →
      (process (some username) data true turns).status = .returned "back") ∧
    (∀ (asked : Option String) (d : List Level) (s : Bool) (ts : List Turn) (token : String),
      (process asked d s ts).status = .returned token → token = "back") ∧
    (∀ (asked : Option String) (d : List Level) (ts : List Turn),
      process asked d false ts = ⟨.returned "back", ts, []⟩) := by
  refine ⟨?_, ?_, ?_, ?_⟩
  · have hnr := run_not_raised username data hlevels turns 1 0 0 (by omega) (by omega) hturns
    cases start
    · simp [process]
    · simp only [process, if_true]
      cases hs : (_run username data 1 0 0 turns).status with
      | done => simp
      | raised => exact absurd hs hnr
      | pending => simp
  · intro hs
    simp [process, hs]
  · intro asked d s ts token h
    cases s
    · simp [process] at h; exact h.symm
    · cases asked with
      | none => simp [process] at h
      | some u =>
        simp only [process, if_true] at h
        cases hs : (_run u d 1 0 0 ts).status <;> simp [hs] at h
        exact h.symm
  · intro asked d ts
    simp [process]

/-- Witness of C12: a lost first round on the reference configuration, after
which the player goes back to the menu. -/
theorem C12_witness :
    ((∀ l : Nat, 1 ≤ l → l ≤ 5 →
        LevelController.searchLevelByValue fiveLevels l ≠ none) ∧
      (∀ t ∈ [Turn.mk (some ⟨false, 900⟩) (some false)],
        t.played ≠ none ∧ t.decision ≠ none)) ∧
    ((_run "ann" fiveLevels 1 0 0 [⟨some ⟨false, 900⟩, some false⟩]).status = .done →
      (process (some "ann") fiveLevels true [⟨some ⟨false, 900⟩, some false⟩]).status
        = .returned "back") :=
  have hl : ∀ l : Nat, 1 ≤ l → l ≤ 5 →
      LevelController.searchLevelByValue fiveLevels l ≠ none := by
    intro l h1 h5
    interval_cases l <;> decide
  have ht : ∀ t ∈ [Turn.mk (some ⟨false, 900⟩) (some false)],
      t.played ≠ none ∧ t.decision ≠ none := by
    intro t ht
    simp at ht
    subst ht
    simp
  ⟨⟨hl, ht⟩,
    (C12_process_returns_back "ann" fiveLevels true [⟨some ⟨false, 900⟩, some false⟩]
      hl ht).2.1⟩

end GameController

namespace GameController

theorem prizeOf_eq (data : List Level) (levelValue : Nat) (lv : Level)
    (h : LevelController.searchLevelByValue data levelValue = some lv) :
    prizeOf data levelValue = lv.prize := by
  simp [prizeOf, h]

end GameController

namespace PlayerController

open PlayerStore

/-- The records of a database with the username `u`. -/
theorem getPlayerByUsername_eq_head (data : List Player) (u : String) :
    getPlayerByUsername data u
      = (data.filter (fun p => decide (p.username = u))).head? := by
  unfold getPlayerByUsername
  induction data with
  | nil => rfl
  | cons p rest ih =>
    rw [List.find?_cons, List.filter_cons]
    by_cases h : p.username = u
    · subst h; simp
    · simp only [h, decide_False, Bool.false_eq_true, if_false]
      exact ih

/-- On a database whose keys are pairwise different, writing back a record that
is in the database under its own key replaces exactly that record. -/
theorem updatePlayerData_eq_map (data : List Player) (player : Player)
    (hmem : player.id ∈ data.map (fun p => p.id)) :
    updatePlayerData data player
      = (data.map (fun q => if q.id = player.id then player else q), true) ∨
    ¬ (data.map (fun p => p.id)).Nodup := by
  induction data with
  | nil => simp at hmem
  | cons p rest ih =>
    by_cases hnd : (List.map (fun p => p.id) (p :: rest)).Nodup
    · left
      simp only [List.map_cons, List.nodup_cons] at hnd
      by_cases h : player.id = p.id
      · have hrest : rest.map (fun q => if q.id = player.id then player else q) = rest := by
          conv_rhs => rw [← List.map_id rest]
          apply List.map_congr_left
          intro q hq
          have : q.id ≠ player.id := by
            intro hqe
            apply hnd.1
            rw [← h, ← hqe]
            exact List.mem_map_of_mem _ hq
          simp [this]
        have hrest2 : rest.map (fun q => if q.id = p.id then player else q) = rest := by
          rw [← h]; exact hrest
        simp [updatePlayerData, h, hrest2]
      · have hmem2 : player.id ∈ rest.map (fun p => p.id) := by
          simp only [List.map_cons, List.mem_cons] at hmem
          rcases hmem with hm | hm
          · exact absurd hm h
          · exact hm
        rcases ih hmem2 with h2 | h2
        · have hne : ¬ (p.id = player.id) := fun e => h e.symm
          simp [updatePlayerData, h, h2, hne]
        · exact absurd hnd.2 h2
    · right; exact hnd

theorem assign_ids (data : List Player) (player : Player) :
    (assign data player).map (fun p => p.id)
      = if player.id ∈ data.map (fun p => p.id) then data.map (fun p => p.id)
        else data.map (fun p => p.id) ++ [player.id] := by
  induction data with
  | nil => simp [assign]
  | cons p rest ih =>
    by_cases h : p.id = player.id
    · simp [assign, h]
    · have h2 : ¬ (player.id = p.id) := fun e => h e.symm
      simp only [assign, h, if_false, List.map_cons, ih, List.mem_cons, h2, false_or]
      split <;> simp

theorem assign_nodup (data : List Player) (player : Player)
    (hnd : (data.map (fun p => p.id)).Nodup) :
    ((assign data player).map (fun p => p.id)).Nodup := by
  rw [assign_ids]
  split
  · exact hnd
  · next h =>
    rw [List.nodup_append]
    refine ⟨hnd, by simp, ?_⟩
    intro a ha hb
    simp only [List.mem_singleton] at hb
    subst hb
    exact h ha

/-- Adding a record whose username is not in the database yet leaves exactly
this record under that username. -/
theorem assign_filter_absent (data : List Player) (player : Player)
    (habs : data.filter (fun p => decide (p.username = player.username)) = []) :
    (assign data player).filter (fun p => decide (p.username = player.username))
      = [player] := by
  induction data with
  | nil => simp [assign]
  | cons p rest ih =>
    have hp : ¬ (p.username = player.username) := by
      intro h
      simp [List.filter, h] at habs
    have hrest : rest.filter (fun p => decide (p.username = player.username)) = [] := by
      simpa [List.filter, hp] using habs
    by_cases h : p.id = player.id
    · simp [assign, h, List.filter, hrest]
    · simp [assign, h, List.filter, hp, ih hrest]

theorem assign_fresh (data : List Player) (player : Player)
    (hfresh : player.id ∉ data.map (fun p => p.id)) :
    assign data player = data ++ [player] := by
  induction data with
  | nil => rfl
  | cons p rest ih =>
    simp only [List.map_cons, List.mem_cons, not_or] at hfresh
    have h : ¬ (p.id = player.id) := fun e => hfresh.1 e.symm
    simp [assign, h, ih hfresh.2]

/-- Registering a username that is in the database exactly once, on a database
whose keys are pairwise different: the record keeps its key and its place and
carries the username, the level and the time of the call; nothing is added. -/
theorem registerPlayer_present (store : List Player) (uuid : String)
    (data : GameController.PlayerData) (r : Player)
    (hnd : (store.map (fun p => p.id)).Nodup)
    (hone : store.filter (fun p => decide (p.username = data.username)) = [r]) :
    (registerPlayer store uuid data).1.filter
        (fun p => decide (p.username = data.username))
      = [⟨r.id, data.username, data.maxLevelReached, (data.time : ℚ)⟩] ∧
    (registerPlayer store uuid data).1.map (fun p => p.id) = store.map (fun p => p.id) ∧
    (registerPlayer store uuid data).2 = true := by
  have hget : getPlayerByUsername store data.username = some r := by
    rw [getPlayerByUsername_eq_head, hone]; rfl
  have hrmem : r ∈ store.filter (fun p => decide (p.username = data.username)) := by
    rw [hone]; simp
  have hr := List.mem_filter.1 hrmem
  have hru : r.username = data.username := by simpa using hr.2
  have hidmem : r.id ∈ store.map (fun p => p.id) := List.mem_map_of_mem _ hr.1
  have hupd := updatePlayerData_eq_map store
    ⟨r.id, data.username, data.maxLevelReached, (data.time : ℚ)⟩ hidmem
  rcases hupd with hupd | hupd
  · have hreg : registerPlayer store uuid data
        = (store.map (fun q => if q.id = r.id then
            (⟨r.id, data.username, data.maxLevelReached, (data.time : ℚ)⟩ : Player) else q),
          true) := by
      simp only [registerPlayer, hget]
      exact hupd
    rw [hreg]
    refine ⟨?_, ?_, rfl⟩
    · simp only
      rw [List.filter_map]
      have hcongr : store.filter ((fun p => decide (p.username = data.username)) ∘
            (fun q => if q.id = r.id then
              (⟨r.id, data.username, data.maxLevelReached, (data.time : ℚ)⟩ : Player) else q))
          = store.filter (fun p => decide (p.username = data.username)) := by
        apply List.filter_congr
        intro q hq
        by_cases hqid : q.id = r.id
        · have hqr : q = r := by
            have := List.inj_on_of_nodup_map hnd hq hr.1 hqid
            exact this
          subst hqr
          simp [hru]
        · simp [hqid]
      rw [hcongr, hone]
      simp
    · simp only [List.map_map]
      apply List.map_congr_left
      intro q _
      by_cases hqid : q.id = r.id <;> simp [hqid]
  · exact absurd hnd hupd

/-- Registering a username that is not in the database: the record built by
`addPlayer` is the only one under that username afterwards, and the keys stay
pairwise different. -/
theorem registerPlayer_absent (store : List Player) (uuid : String)
    (data : GameController.PlayerData)
    (hnd : (store.map (fun p => p.id)).Nodup)
    (habs : store.filter (fun p => decide (p.username = data.username)) = []) :
    registerPlayer store uuid data
      = (assign store
          ⟨uuid, data.username, data.maxLevelReached, fromMilitoUnit data.time⟩, true) ∧
    (registerPlayer store uuid data).1.filter
        (fun p => decide (p.username = data.username))
      = [⟨uuid, data.username, data.maxLevelReached, fromMilitoUnit data.time⟩] ∧
    ((registerPlayer store uuid data).1.map (fun p => p.id)).Nodup := by
  have hget : getPlayerByUsername store data.username = none := by
    rw [getPlayerByUsername_eq_head, habs]; rfl
  have hreg : registerPlayer store uuid data
      = (assign store
          ⟨uuid, data.username, data.maxLevelReached, fromMilitoUnit data.time⟩, true) := by
    simp [registerPlayer, hget, addPlayer, PlayerStore.addPlayer]
  refine ⟨hreg, ?_, ?_⟩
  · rw [hreg]
    exact assign_filter_absent store
      ⟨uuid, data.username, data.maxLevelReached, fromMilitoUnit data.time⟩ habs
  · rw [hreg]
    exact assign_nodup store _ hnd

end PlayerController

namespace PlayerController

open PlayerStore

/-- C13, as the code has it.  For every players database (keys pairwise
different, as in any JSON object) that holds at most one record for the
username: after registering the username twice, exactly one record carries that
username, and its level and time are those of the second call exactly, whatever
the first call registered.  A username that is not in the database is inserted:
with a fresh id the database becomes the old one followed by the new record. -/
theorem C13_last_write_wins
    (store : List Player) (uuid1 uuid2 : String) (username : String)
    (level1 time1 level2 time2 : Nat)
    (hkeys : (store.map (fun p => p.id)).Nodup)
    (hone : (store.filter (fun p => decide (p.username = username))).length ≤ 1) :
    (∃ key,
      (registerPlayer (registerPlayer store uuid1 ⟨username, level1, time1⟩).1 uuid2
          ⟨username, level2, time2⟩).1.filter (fun p => decide (p.username = username))
        = [⟨key, username, level2, (time2 : ℚ)⟩]) ∧
    (store.filter (fun p => decide (p.username = username)) = [] →
      uuid1 ∉ store.map (fun p => p.id) →
      registerPlayer store uuid1 ⟨username, level1, time1⟩
        = (store ++ [⟨uuid1, username, level1, fromMilitoUnit time1⟩], true)) := by
  constructor
  · cases hf : store.filter (fun p => decide (p.username = username)) with
    | nil =>
      obtain ⟨_, h1, hnd1⟩ :=
        registerPlayer_absent store uuid1 ⟨username, level1, time1⟩ hkeys hf
      obtain ⟨h2, _, _⟩ :=
        registerPlayer_present (registerPlayer store uuid1 ⟨username, level1, time1⟩).1
          uuid2 ⟨username, level2, time2⟩ _ hnd1 h1
      exact ⟨uuid1, h2⟩
    | cons r tail =>
      have htail : tail = [] := by
        rw [hf] at hone
        simp only [List.length_cons] at hone
        exact List.eq_nil_of_length_eq_zero (by omega)
      subst htail
      obtain ⟨h1, hid1, _⟩ :=
        registerPlayer_present store uuid1 ⟨username, level1, time1⟩ r hkeys hf
      have hnd1 : ((registerPlayer store uuid1 ⟨username, level1, time1⟩).1.map
          (fun p => p.id)).Nodup := by
        rw [hid1]; exact hkeys
      obtain ⟨h2, _, _⟩ :=
        registerPlayer_present (registerPlayer store uuid1 ⟨username, level1, time1⟩).1
          uuid2 ⟨username, level2, time2⟩ _ hnd1 h1
      exact ⟨r.id, h2⟩
  · intro habs hfresh
    obtain ⟨h1, _, _⟩ :=
      registerPlayer_absent store uuid1 ⟨username, level1, time1⟩ hkeys habs
    rw [h1, assign_fresh store _ hfresh]

/-- Witness of C13: `ann` is registered twice in a database that holds only
`bob`, the second time with a lower level. -/
theorem C13_witness :
    ((onePlayer.map (fun p => p.id)).Nodup ∧
      (onePlayer.filter (fun p => decide (p.username = "ann"))).length ≤ 1) ∧
    (∃ key,
      (registerPlayer (registerPlayer onePlayer "p2" ⟨"ann", 4, 9000⟩).1 "p3"
          ⟨"ann", 1, 700⟩).1.filter (fun p => decide (p.username = "ann"))
        = [⟨key, "ann", 1, ((700 : Nat) : ℚ)⟩]) :=
  ⟨⟨by decide, by decide⟩,
    (C13_last_write_wins onePlayer "p2" "p3" "ann" 4 9000 1 700 (by decide) (by decide)).1⟩

/-- C13 fails as stated.  In a database that already holds two records for
`ann`, registering `ann` twice rewrites the first of them and leaves two records
under that username. -/
theorem C13_counterexample :
    (registerPlayer (registerPlayer twoAnns "p3" ⟨"ann", 1, 700⟩).1 "p4"
        ⟨"ann", 1, 650⟩).1.filter (fun p => decide (p.username = "ann"))
      = [⟨"p1", "ann", 1, 650⟩, ⟨"p2", "ann", 4, 9⟩] := by
  decide

end PlayerController

theorem swapAt_length {α : Type} (a : List α) (i j : Nat) :
    (swapAt a i j).length = a.length := by
  unfold swapAt
  split <;> simp

theorem swapAt_getElem?_ne {α : Type} (a : List α) (i j k : Nat)
    (hi : k ≠ i) (hj : k ≠ j) : (swapAt a i j)[k]? = a[k]? := by
  unfold swapAt
  split
  · rw [List.getElem?_set_ne (Ne.symm hj), List.getElem?_set_ne (Ne.symm hi)]
  · rfl

theorem swapAt_getElem?_left {α : Type} (a : List α) (i j : Nat)
    (hi : i < a.length) (hj : j < a.length) : (swapAt a i j)[i]? = a[j]? := by
  unfold swapAt
  rw [List.getElem?_eq_getElem hi, List.getElem?_eq_getElem hj]
  simp only
  by_cases h : j = i
  · subst h
    simp [List.getElem?_set, hi]
  · rw [List.getElem?_set_ne h]
    simp [List.getElem?_set, hi]

theorem swapAt_getElem?_right {α : Type} (a : List α) (i j : Nat)
    (hi : i < a.length) (hj : j < a.length) : (swapAt a i j)[j]? = a[i]? := by
  unfold swapAt
  rw [List.getElem?_eq_getElem hi, List.getElem?_eq_getElem hj]
  simp [List.getElem?_set, hj]

/-- The swap of two positions rearranges the array. -/
theorem swapAt_perm {α : Type} (a : List α) (i j : Nat) : (swapAt a i j).Perm a := by
  classical
  unfold swapAt
  cases hi : a[i]? with
  | none => exact List.Perm.refl _
  | some x =>
    cases hj : a[j]? with
    | none => exact List.Perm.refl _
    | some y =>
      simp only
      have hil : i < a.length := by
        by_contra h
        rw [List.getElem?_eq_none (by omega)] at hi
        exact Option.noConfusion hi
      have hjl : j < a.length := by
        by_contra h
        rw [List.getElem?_eq_none (by omega)] at hj
        exact Option.noConfusion hj
      have hx : a[i] = x := by
        rw [List.getElem?_eq_getElem hil] at hi
        exact Option.some.inj hi
      have hy : a[j] = y := by
        rw [List.getElem?_eq_getElem hjl] at hj
        exact Option.some.inj hj
      rw [List.perm_iff_count]
      intro b
      have hjl2 : j < (a.set i y).length := by simpa using hjl
      rw [List.count_set _ _ _ _ hjl2, List.count_set _ _ _ _ hil]
      have hy2 : (a.set i y)[j] = y := by
        rw [List.getElem_set]
        split
        · rfl
        · exact hy
      rw [hy2, hx]
      have hxm : x ∈ a := hx ▸ List.getElem_mem hil
      by_cases hxb : x = b
      · subst hxb
        have hpos : 0 < a.count x := List.count_pos_iff.2 hxm
        by_cases hyb : y = x
        · simp [hyb]; omega
        · simp [hyb]; omega
      · by_cases hyb : y = b
        · simp [hxb, hyb]
        · simp [hxb, hyb]

theorem disorderLoop_length {α : Type} (js : Nat → Nat) :
    ∀ (i : Nat) (a : List α), (disorderLoop js i a).length = a.length := by
  intro i
  induction i with
  | zero => intro a; rfl
  | succ i ih => intro a; rw [disorderLoop, ih, swapAt_length]

/-- The loop rearranges the array, whatever indices are drawn. -/
theorem disorderLoop_perm {α : Type} (js : Nat → Nat) :
    ∀ (i : Nat) (a : List α), (disorderLoop js i a).Perm a := by
  intro i
  induction i with
  | zero => intro a; exact List.Perm.refl _
  | succ i ih =>
    intro a
    rw [disorderLoop]
    exact (ih _).trans (swapAt_perm a (i + 1) (js (i + 1)))

/-- C16. For every input list and every sequence of random draws, the list
returned by `disorderArray` is a permutation of the input: it has the same
elements with the same multiplicities, and the same length. -/
theorem C16_disorderArray_is_permutation {α : Type} (draws : Nat → Draw)
    (array : List α) :
    (disorderArray draws array).Perm array ∧
    (disorderArray draws array).length = array.length ∧
    ((disorderArray draws array : List α) : Multiset α) = (array : Multiset α) :=
  ⟨disorderLoop_perm _ _ array, disorderLoop_length _ _ array,
    Multiset.coe_eq_coe.2 (disorderLoop_perm _ _ array)⟩

/-- The passes of the loop from `i` down leave the positions above `i` alone. -/
theorem disorderLoop_getElem?_above {α : Type} (js : Nat → Nat) :
    ∀ (i : Nat) (a : List α) (k : Nat), (∀ m, 1 ≤ m → m ≤ i → js m ≤ m) → i < k →
      (disorderLoop js i a)[k]? = a[k]? := by
  intro i
  induction i with
  | zero => intro a k _ _; rfl
  | succ i ih =>
    intro a k hv hk
    rw [disorderLoop, ih _ k (fun m h1 h2 => hv m h1 (by omega)) (by omega)]
    have := hv (i + 1) (by omega) (Nat.le_refl _)
    exact swapAt_getElem?_ne a (i + 1) (js (i + 1)) k (by omega) (by omega)

/-- The pass with loop variable `i + 1` puts the element at the drawn position
into position `i + 1`, where it stays. -/
theorem disorderLoop_getElem?_top {α : Type} (js : Nat → Nat) (i : Nat) (a : List α)
    (hv : ∀ m, 1 ≤ m → m ≤ i + 1 → js m ≤ m) (hl : i + 1 < a.length) :
    (disorderLoop js (i + 1) a)[i + 1]? = a[js (i + 1)]? := by
  have hj := hv (i + 1) (by omega) (Nat.le_refl _)
  rw [disorderLoop,
    disorderLoop_getElem?_above js i _ (i + 1) (fun m h1 h2 => hv m h1 (by omega))
      (Nat.lt_succ_self _),
    swapAt_getElem?_left a (i + 1) (js (i + 1)) hl (by omega)]

theorem disorderLoop_congr {α : Type} (js js2 : Nat → Nat) :
    ∀ (i : Nat) (a : List α), (∀ m, 1 ≤ m → m ≤ i → js m = js2 m) →
      disorderLoop js i a = disorderLoop js2 i a := by
  intro i
  induction i with
  | zero => intro a _; rfl
  | succ i ih =>
    intro a h
    rw [disorderLoop, disorderLoop, h (i + 1) (by omega) (Nat.le_refl _)]
    exact ih _ (fun m h1 h2 => h m h1 (by omega))

/-- On an array without repetitions, two sequences of drawn indices that give the
same result are the same sequence. -/
theorem disorderLoop_injective {α : Type} (js js2 : Nat → Nat) :
    ∀ (i : Nat) (a : List α), a.Nodup → i < a.length →
      (∀ m, 1 ≤ m → m ≤ i → js m ≤ m) → (∀ m, 1 ≤ m → m ≤ i → js2 m ≤ m) →
      disorderLoop js i a = disorderLoop js2 i a →
      ∀ m, 1 ≤ m → m ≤ i → js m = js2 m := by
  intro i
  induction i with
  | zero => intro a _ _ _ _ _ m h1 h2; omega
  | succ i ih =>
    intro a hnd hl hv hv2 heq m h1 h2
    have htop : a[js (i + 1)]? = a[js2 (i + 1)]? := by
      rw [← disorderLoop_getElem?_top js i a hv hl,
        ← disorderLoop_getElem?_top js2 i a hv2 hl, heq]
    have hjl : js (i + 1) < a.length := by
      have := hv (i + 1) (by omega) (Nat.le_refl _)
      omega
    have hj : js (i + 1) = js2 (i + 1) := List.getElem?_inj hjl hnd htop
    by_cases hm : m = i + 1
    · subst hm; exact hj
    · have heq2 : disorderLoop js i (swapAt a (i + 1) (js (i + 1)))
          = disorderLoop js2 i (swapAt a (i + 1) (js (i + 1))) := by
        have h := heq
        rw [disorderLoop, disorderLoop, ← hj] at h
        exact h
      exact ih (swapAt a (i + 1) (js (i + 1)))
        ((swapAt_perm a (i + 1) (js (i + 1))).nodup_iff.2 hnd)
        (by rw [swapAt_length]; omega)
        (fun m h1 h2 => hv m h1 (by omega)) (fun m h1 h2 => hv2 m h1 (by omega))
        heq2 m h1 (by omega)

/-- Two rearrangements of each other that agree above position `i` have
rearranged front parts of length `i + 1`. -/
theorem take_perm_of_agree_above {α : Type} (i : Nat) (a target : List α)
    (hp : target.Perm a) (hag : ∀ k, i < k → target[k]? = a[k]?) :
    (target.take (i + 1)).Perm (a.take (i + 1)) := by
  have hd : target.drop (i + 1) = a.drop (i + 1) := by
    apply List.ext_getElem?
    intro k
    rw [List.getElem?_drop, List.getElem?_drop]
    exact hag _ (by omega)
  have h : (target.take (i + 1) ++ target.drop (i + 1)).Perm
      (a.take (i + 1) ++ target.drop (i + 1)) := by
    rw [List.take_append_drop, hd, List.take_append_drop]
    exact hp
  exact (List.perm_append_right_iff _).1 h

/-- Every rearrangement of the array that agrees with it above position `i` is
reached by the loop from `i` for some drawn indices within range. -/
theorem disorderLoop_surjective {α : Type} :
    ∀ (i : Nat) (a target : List α), i < a.length → target.Perm a →
      (∀ k, i < k → target[k]? = a[k]?) →
      ∃ js : Nat → Nat, (∀ m, js m ≤ m) ∧ disorderLoop js i a = target := by
  intro i
  induction i with
  | zero =>
    intro a target hl hp hag
    refine ⟨fun _ => 0, fun _ => Nat.zero_le _, ?_⟩
    rw [disorderLoop]
    have ht := take_perm_of_agree_above 0 a target hp hag
    have hd : target.drop 1 = a.drop 1 := by
      apply List.ext_getElem?
      intro k
      rw [List.getElem?_drop, List.getElem?_drop]
      exact hag _ (by omega)
    cases a with
    | nil => simp at hl
    | cons y s =>
      cases target with
      | nil => simpa using hp.length_eq
      | cons x t =>
        simp only [List.take_succ_cons, List.take_zero, List.drop_succ_cons, List.drop_zero]
          at ht hd
        rw [List.singleton_perm_singleton.1 ht, hd]
  | succ i ih =>
    intro a target hl hp hag
    have hlt : target.length = a.length := hp.length_eq
    have hb : i + 1 < target.length := by omega
    have hy : target[i + 1]? = some target[i + 1] := List.getElem?_eq_getElem hb
    have ht := take_perm_of_agree_above (i + 1) a target hp hag
    have hmem : target[i + 1] ∈ target.take (i + 1 + 1) := by
      apply List.getElem?_mem (n := i + 1)
      rw [List.getElem?_take_of_lt (by omega), hy]
    have hmem2 := ht.subset hmem
    obtain ⟨j, hj⟩ := List.mem_iff_getElem?.1 hmem2
    rw [List.getElem?_take] at hj
    have hjlt : j < i + 1 + 1 := by
      by_contra h
      simp [h] at hj
    simp only [hjlt, if_true] at hj
    have hjl : j < a.length := by
      by_contra h
      rw [List.getElem?_eq_none (by omega)] at hj
      exact Option.noConfusion hj
    have hag2 : ∀ k, i < k → target[k]? = (swapAt a (i + 1) j)[k]? := by
      intro k hk
      by_cases hk1 : k = i + 1
      · subst hk1
        rw [swapAt_getElem?_left a (i + 1) j hl hjl, hj, hy]
      · rw [swapAt_getElem?_ne a (i + 1) j k hk1 (by omega)]
        exact hag k (by omega)
    obtain ⟨js0, hv0, hloop⟩ := ih (swapAt a (i + 1) j) target
      (by rw [swapAt_length]; omega) (hp.trans (swapAt_perm a (i + 1) j).symm) hag2
    refine ⟨fun m => if m = i + 1 then j else js0 m, ?_, ?_⟩
    · intro m
      by_cases hm : m = i + 1
      · simp only [hm, if_true]; omega
      · simp only [hm, if_false]; exact hv0 m
    · rw [disorderLoop]
      simp only [if_true]
      rw [← hloop]
      apply disorderLoop_congr
      intro m _ h2
      have : m ≠ i + 1 := by omega
      simp [this]

/-- C17. `disorderArray` runs from the last index down to 1 and swaps position
`i` with a drawn index between 0 and `i`.  For a list of distinct elements every
result is a permutation of the list, two sequences of drawn indices that give
the same ordering are equal, and every permutation of the list is the result of
some sequence of draws: the sequences of drawn indices correspond one to one to
the `n!` orderings of the list. -/
theorem C17_disorderArray_is_fisher_yates {α : Type} (array : List α)
    (hnd : array.Nodup) :
    (∀ (draws : Nat → Draw) (i : Nat), (draws i).pick (i + 1) ≤ i) ∧
    (∀ draws : Nat → Draw, (disorderArray draws array).Perm array) ∧
    (∀ draws draws2 : Nat → Draw,
      disorderArray draws array = disorderArray draws2 array →
      ∀ i, 1 ≤ i → i < array.length →
        (draws i).pick (i + 1) = (draws2 i).pick (i + 1)) ∧
    (∀ target : List α, target.Perm array →
      ∃ draws : Nat → Draw, disorderArray draws array = target) ∧
    array.permutations.length = array.length.factorial := by
  have hrange : ∀ (draws : Nat → Draw) (i : Nat), (draws i).pick (i + 1) ≤ i := by
    intro draws i
    have := (draws i).pick_lt (i + 1) (Nat.succ_pos _)
    omega
  refine ⟨hrange, fun draws => disorderLoop_perm _ _ array, ?_, ?_,
    List.length_permutations array⟩
  · intro draws draws2 heq i h1 hi
    exact disorderLoop_injective (fun i => (draws i).pick (i + 1))
      (fun i => (draws2 i).pick (i + 1)) (array.length - 1) array hnd (by omega)
      (fun m _ _ => hrange draws m) (fun m _ _ => hrange draws2 m) heq i h1 (by omega)
  · intro target hp
    by_cases hl : 0 < array.length
    · obtain ⟨js, hv, hloop⟩ := disorderLoop_surjective (array.length - 1) array target
        (by omega) hp (by
          intro k hk
          rw [List.getElem?_eq_none (by rw [hp.length_eq]; omega),
            List.getElem?_eq_none (by omega)])
      refine ⟨fun m => ⟨fun n => if n = m + 1 then js m else 0, ?_, ?_⟩, ?_⟩
      · intro n hn
        by_cases h : n = m + 1
        · have := hv m
          simp only [h, if_true]; omega
        · simp only [h, if_false]; exact hn
      · simp
      · unfold disorderArray
        simp only [if_true]
        exact hloop
    · have ha : array = [] := List.eq_nil_of_length_eq_zero (by omega)
      subst ha
      refine ⟨fun _ => Draw.least, ?_⟩
      rw [List.perm_nil.1 hp]
      rfl

/-- Witness of C17: the ordering `[3, 1, 2]` of `[1, 2, 3]` is reached. -/
theorem C17_witness :
    ([1, 2, 3] : List Nat).Nodup ∧
    ∃ draws : Nat → Draw, disorderArray draws [1, 2, 3] = [3, 1, 2] :=
  ⟨by decide,
    (C17_disorderArray_is_fisher_yates [1, 2, 3] (by decide)).2.2.2.1 [3, 1, 2]
      (by decide)⟩

namespace RoundController

/-- The drawn index selects an element of a list that is not empty. -/
theorem getRandomNumber_select {α : Type} (draw : Draw) (l : List α) (h : l ≠ []) :
    ∃ x, l[getRandomNumber draw l.length]? = some x ∧ x ∈ l := by
  have hl : 0 < l.length := List.length_pos.2 h
  have hlt : getRandomNumber draw l.length < l.length := by
    unfold getRandomNumber
    simpa using draw.pick_lt l.length hl
  exact ⟨l[getRandomNumber draw l.length], List.getElem?_eq_getElem hlt,
    List.getElem_mem hlt⟩

/-- Without a configured level the round yields `undefined`, and otherwise it is
what the game flow takes as the round played. -/
theorem startRoundOn_eq_startRound (store : Store) (play : Play) (level : Nat) :
    startRoundOn store play level
      = startRound store.levels level (startRoundOn store play level) := by
  unfold startRound
  cases h : LevelController.searchLevelByValue store.levels level with
  | none => simp [startRoundOn, _getRandomCategory, h]
  | some lv => rfl

/-- C19. For every question whose stored answers contain an answer flagged
correct and for every shuffle of its choices: the choices shown are a
rearrangement of the answers of the question, the id that counts as correct is
the id of the first flagged answer whatever the shuffle, and the flag reported
by the round is true exactly when the name of the selected choice is that
id. -/
theorem C19_correct_flag_follows_flagged_answer
    (store : Store) (draws : Nat → Draw) (questionId : String)
    (hflag : ∃ a ∈ AnswerStore.getAnswersByQuestion store.answers questionId,
      a.isCorrect = true) :
    ∃ (correct : Answer) (answers : Choices),
      (AnswerStore.getAnswersByQuestion store.answers questionId).find?
          (fun a => a.isCorrect) = some correct ∧
      correct ∈ AnswerStore.getAnswersByQuestion store.answers questionId ∧
      correct.isCorrect = true ∧
      _getAnswerChoices store draws questionId = some answers ∧
      answers.correctChoice = correct.id ∧
      answers.choices.Perm
        ((AnswerStore.getAnswersByQuestion store.answers questionId).map
          (fun a => (⟨a.id, a.text⟩ : Choice))) ∧
      (∀ (value : String) (time : Nat),
        ((result answers.correctChoice value time).correct = true ↔ value = correct.id) ∧
        (result answers.correctChoice value time).time = time) ∧
      (∀ (play : Play) (level : Nat) (category : Category) (question : Question)
          (index time : Nat) (choice : Choice),
        play.shuffleDraws = draws →
        _getRandomCategory store play.categoryDraw level = some category →
        _getRandomQuestion store play.questionDraw category.id = some question →
        question.id = questionId →
        play.selected = some (index, time) →
        answers.choices[index]? = some choice →
        startRoundOn store play level
          = some ⟨decide (choice.name = correct.id), time⟩) := by
  obtain ⟨a, ha, hac⟩ := hflag
  cases hfind : (AnswerStore.getAnswersByQuestion store.answers questionId).find?
      (fun a => a.isCorrect) with
  | none =>
    have := List.find?_eq_none.1 hfind a ha
    simp [hac] at this
  | some correct =>
    have hget : AnswerController.getAnswersForChoices store.answers questionId
        = some ⟨correct.id,
            (AnswerStore.getAnswersByQuestion store.answers questionId).map
              (fun a => (⟨a.id, a.text⟩ : Choice))⟩ := by
      simp [AnswerController.getAnswersForChoices, hfind]
    have hchoices : _getAnswerChoices store draws questionId
        = some ⟨correct.id, disorderArray draws
            ((AnswerStore.getAnswersByQuestion store.answers questionId).map
              (fun a => (⟨a.id, a.text⟩ : Choice)))⟩ := by
      simp [_getAnswerChoices, hget]
    refine ⟨correct, _, rfl, List.mem_of_find?_eq_some hfind, ?_, hchoices, rfl,
      (disorderLoop_perm _ _ _), ?_, ?_⟩
    · simpa using List.find?_some hfind
    · intro value time
      simp [result]
    · intro play level category question index time choice hd hcat hq hqid hsel hch
      subst hd
      subst hqid
      simp only [startRoundOn, hcat, hq, hchoices, hsel, hch, result]

/-- Witness of C19 on the small content database, question `q1`. -/
theorem C19_witness :
    (∃ a ∈ AnswerStore.getAnswersByQuestion quizStore.answers "q1", a.isCorrect = true) ∧
    ∃ (correct : Answer) (answers : Choices),
      (AnswerStore.getAnswersByQuestion quizStore.answers "q1").find?
          (fun a => a.isCorrect) = some correct ∧
      correct ∈ AnswerStore.getAnswersByQuestion quizStore.answers "q1" ∧
      correct.isCorrect = true ∧
      _getAnswerChoices quizStore (fun _ => Draw.least) "q1" = some answers ∧
      answers.correctChoice = correct.id ∧
      answers.choices.Perm
        ((AnswerStore.getAnswersByQuestion quizStore.answers "q1").map
          (fun a => (⟨a.id, a.text⟩ : Choice))) ∧
      (∀ (value : String) (time : Nat),
        ((result answers.correctChoice value time).correct = true ↔ value = correct.id) ∧
        (result answers.correctChoice value time).time = time) ∧
      (∀ (play : Play) (level : Nat) (category : Category) (question : Question)
          (index time : Nat) (choice : Choice),
        play.shuffleDraws = (fun _ => Draw.least) →
        _getRandomCategory quizStore play.categoryDraw level = some category →
        _getRandomQuestion quizStore play.questionDraw category.id = some question →
        question.id = "q1" →
        play.selected = some (index, time) →
        answers.choices[index]? = some choice →
        startRoundOn quizStore play level
          = some ⟨decide (choice.name = correct.id), time⟩) :=
  ⟨⟨⟨"a2", "four", "q1", true⟩, by decide, rfl⟩,
    C19_correct_flag_follows_flagged_answer quizStore (fun _ => Draw.least) "q1"
      ⟨⟨"a2", "four", "q1", true⟩, by decide, rfl⟩⟩

/-- C20. For every state of the databases in which the level with value `level`
is configured and has at least one category, and for every draw: a category is
selected, it is one of the stored categories, and its `level` field is the id of
that level; and when the selected category has at least one question, a question
is selected, it is one of the stored questions, and its `category` field is the
id of the selected category. -/
theorem C20_selection_respects_level_and_category
    (store : Store) (categoryDraw questionDraw : Draw) (level : Nat) (lv : Level)
    (hlv : LevelController.searchLevelByValue store.levels level = some lv)
    (hcats : CategoryStore.getCategoriesByLevel store.categories lv.id ≠ []) :
    ∃ category : Category,
      _getRandomCategory store categoryDraw level = some category ∧
      category ∈ store.categories ∧
      category.level = lv.id ∧
      (QuestionStore.getQuestionsByCategory store.questions category.id ≠ [] →
        ∃ question : Question,
          _getRandomQuestion store questionDraw category.id = some question ∧
          question ∈ store.questions ∧
          question.category = category.id) := by
  obtain ⟨category, hsel, hmem⟩ := getRandomNumber_select categoryDraw _ hcats
  have hm := List.mem_filter.1 hmem
  refine ⟨category, ?_, hm.1, by simpa using hm.2, ?_⟩
  · simp only [_getRandomCategory, hlv, CategoryController.searchCategoriesByLevel]
    exact hsel
  · intro hqs
    obtain ⟨question, hqsel, hqmem⟩ := getRandomNumber_select questionDraw _ hqs
    have hqm := List.mem_filter.1 hqmem
    refine ⟨question, ?_, hqm.1, by simpa using hqm.2⟩
    simp only [_getRandomQuestion, QuestionController.searchQuestionsByCategory]
    exact hqsel

/-- Witness of C20 on the small content database at level 1. -/
theorem C20_witness :
    (LevelController.searchLevelByValue quizStore.levels 1 = some ⟨"a", 1, 10⟩ ∧
      CategoryStore.getCategoriesByLevel quizStore.categories (Level.mk "a" 1 10).id ≠ []) ∧
    ∃ category : Category,
      _getRandomCategory quizStore Draw.greatest 1 = some category ∧
      category ∈ quizStore.categories ∧
      category.level = (Level.mk "a" 1 10).id ∧
      (QuestionStore.getQuestionsByCategory quizStore.questions category.id ≠ [] →
        ∃ question : Question,
          _getRandomQuestion quizStore Draw.half category.id = some question ∧
          question ∈ quizStore.questions ∧
          question.category = category.id) :=
  ⟨⟨by decide, by decide⟩,
    C20_selection_respects_level_and_category quizStore Draw.greatest Draw.half 1
      ⟨"a", 1, 10⟩ (by decide) (by decide)⟩

end RoundController

/-! ## Adding a record whose id is stored (claim C21) -/

namespace LevelStore

/-- Adding a level whose id is stored changes nothing and returns `true`. -/
theorem addLevel_present (data : List Level) (level : Level)
    (h : ∃ l ∈ data, l.id = level.id) : addLevel data level = (data, true) := by
  obtain ⟨l, hl, hid⟩ := h
  have : data.any (fun l => decide (l.id = level.id)) = true :=
    List.any_eq_true.mpr ⟨l, hl, by simp [hid]⟩
  simp [addLevel, this]

end LevelStore

namespace CategoryStore

/-- Adding a category whose id is stored changes nothing and returns `true`. -/
theorem addCategory_present (data : List Category) (category : Category)
    (h : ∃ c ∈ data, c.id = category.id) : addCategory data category = (data, true) := by
  obtain ⟨c, hc, hid⟩ := h
  have : data.any (fun c => decide (c.id = category.id)) = true :=
    List.any_eq_true.mpr ⟨c, hc, by simp [hid]⟩
  simp [addCategory, this]

end CategoryStore

namespace QuestionStore

/-- Adding a question whose id is stored changes nothing and returns `true`. -/
theorem addQuestion_present (data : List Question) (question : Question)
    (h : ∃ q ∈ data, q.id = question.id) : addQuestion data question = (data, true) := by
  obtain ⟨q, hq, hid⟩ := h
  have : data.any (fun q => decide (q.id = question.id)) = true :=
    List.any_eq_true.mpr ⟨q, hq, by simp [hid]⟩
  simp [addQuestion, this]

end QuestionStore

namespace AnswerStore

/-- Adding an answer whose id is stored changes nothing and returns `true`. -/
theorem addAnswer_present (data : List Answer) (answer : Answer)
    (h : ∃ a ∈ data, a.id = answer.id) : addAnswer data answer = (data, true) := by
  obtain ⟨a, ha, hid⟩ := h
  have : data.any (fun a => decide (a.id = answer.id)) = true :=
    List.any_eq_true.mpr ⟨a, ha, by simp [hid]⟩
  simp [addAnswer, this]

/-- Adding an answer whose id is not stored puts it at the end. -/
theorem addAnswer_absent (data : List Answer) (answer : Answer)
    (h : ∀ a ∈ data, a.id ≠ answer.id) :
    addAnswer data answer = (data ++ [answer], true) := by
  have : data.any (fun a => decide (a.id = answer.id)) = false := by
    rw [Bool.eq_false_iff]
    intro hany
    obtain ⟨a, ha, hid⟩ := List.any_eq_true.mp hany
    exact h a ha (by simpa using hid)
  simp [addAnswer, this]

end AnswerStore

namespace PlayerStore

/-- After `data[id] = ...` the database holds the record written. -/
theorem assign_mem (data : List Player) (player : Player) :
    player ∈ assign data player := by
  induction data with
  | nil => simp [assign]
  | cons p rest ih =>
    unfold assign
    split
    · simp
    · exact List.mem_cons_of_mem _ ih

/-- Adding a player always returns `true`, and whenever the record handed over
is not already in the database as it is, the database changes: also when its id
is stored with other data. -/
theorem addPlayer_changes (data : List Player) (player : Player) (h : player ∉ data) :
    (addPlayer data player).2 = true ∧ (addPlayer data player).1 ≠ data := by
  refine ⟨rfl, ?_⟩
  intro heq
  apply h
  have hm := assign_mem data player
  simp only [addPlayer] at heq
  rw [heq] at hm
  exact hm

end PlayerStore

/-- C21. Adding a record whose id is already stored returns success and leaves
the database as it is for levels, categories, questions and answers, whose
`add` functions return at once when the id is present.  `PlayerStore.addPlayer`
has no such test: adding a player under the stored id `p1` returns success and
replaces the stored record, so the stored data changes. -/
theorem C21_addPlayer_overwrites_stored_id :
    LevelStore.addLevel GameController.fiveLevels ⟨"a", 9, 90⟩
      = (GameController.fiveLevels, true) ∧
    CategoryStore.addCategory RoundController.quizStore.categories ⟨"c1", "Sports", "b"⟩
      = (RoundController.quizStore.categories, true) ∧
    QuestionStore.addQuestion RoundController.quizStore.questions ⟨"q1", "Other", "c2"⟩
      = (RoundController.quizStore.questions, true) ∧
    AnswerStore.addAnswer RoundController.quizStore.answers ⟨"a1", "other", "q2", true⟩
      = (RoundController.quizStore.answers, true) ∧
    PlayerController.onePlayer = [⟨"p1", "bob", 2, 3⟩] ∧
    PlayerStore.addPlayer PlayerController.onePlayer ⟨"p1", "ann", 1, 5⟩
      = ([⟨"p1", "ann", 1, 5⟩], true) ∧
    (PlayerStore.addPlayer PlayerController.onePlayer ⟨"p1", "ann", 1, 5⟩).1
      ≠ PlayerController.onePlayer := by
  refine ⟨by decide, by decide, by decide, by decide, rfl, by decide, by decide⟩

/-! ## Deleting questions (claim C22) -/

namespace QuestionController

/-- With one id in the array the key is that id: the question stored under it
is deleted together with its answers. -/
theorem deleteQuestions_single (questions : List Question) (answers : List Answer)
    (id : String) (h : ∃ q ∈ questions, q.id = id) :
    deleteQuestions questions answers [id]
      = (questions.filter (fun q => !decide (q.id = id)),
         answers.filter (fun a => !decide (a.question = id)), true) := by
  obtain ⟨q, hq, hid⟩ := h
  have hkey : String.intercalate "," [id] = id := rfl
  have hany : questions.any (fun q => decide (q.id = id)) = true :=
    List.any_eq_true.mpr ⟨q, hq, by simp [hid]⟩
  have hanswers : answers.filter (fun a => !([id].contains a.question))
      = answers.filter (fun a => !decide (a.question = id)) := by
    apply List.filter_congr
    intro a _
    simp
  simp only [deleteQuestions, QuestionStore.deleteQuestion, hkey, hany,
    AnswerController.deleteAnswers, AnswerStore.deleteAnswer, List.isEmpty_cons,
    Bool.false_eq_true, if_false, if_true, hanswers]

/-- When no question is stored under the ids joined by commas, which is the
case for two or more stored ids, nothing is deleted and `false` returned. -/
theorem deleteQuestions_no_key (questions : List Question) (answers : List Answer)
    (idsArray : List String)
    (h : ∀ q ∈ questions, q.id ≠ String.intercalate "," idsArray) :
    deleteQuestions questions answers idsArray = (questions, answers, false) := by
  have hany : questions.any (fun q => decide (q.id = String.intercalate "," idsArray))
      = false := by
    rw [Bool.eq_false_iff]
    intro hany
    obtain ⟨q, hq, hid⟩ := List.any_eq_true.mp hany
    exact h q hq (by simpa using hid)
  unfold deleteQuestions
  split
  · rfl
  · simp [QuestionStore.deleteQuestion, hany]

/-- C22. `deleteQuestions` hands the whole array to
`QuestionStore.deleteQuestion`, which takes one id: for the stored ids `q1` and
`q2` together the key looked up is `q1,q2`, the call returns `false`, and no
question and no answer is removed.  With the single id `q1` the question and
its four answers are removed and `true` is returned; with the empty array
`false` is returned and nothing changes. -/
theorem C22_deleteQuestions_of_two_ids_deletes_nothing :
    deleteQuestions RoundController.quizStore.questions RoundController.quizStore.answers
        ["q1", "q2"]
      = (RoundController.quizStore.questions, RoundController.quizStore.answers, false) ∧
    deleteQuestions RoundController.quizStore.questions RoundController.quizStore.answers
        ["q1"]
      = ([⟨"q2", "Who painted it", "c2"⟩, ⟨"q3", "Which year", "c3"⟩],
         [⟨"a5", "nobody", "q2", true⟩], true) ∧
    deleteQuestions RoundController.quizStore.questions RoundController.quizStore.answers []
      = (RoundController.quizStore.questions, RoundController.quizStore.answers, false) := by
  refine ⟨by decide, by decide, by decide⟩

end QuestionController

/-! ## The username validator (claim C25) -/

namespace GameController

/-- The validator accepts exactly the names of at most seven characters. -/
theorem validate_iff (value : String) : validate value = true ↔ value.length ≤ 7 := by
  simp [validate, Nat.lt_succ_iff]

/-- C25. The validator is `value.length < 8`: a username of exactly 8
characters, which the announced maximum of 8 characters allows, is rejected,
while one of 7 characters is accepted. -/
theorem C25_validator_rejects_eight_characters :
    "abcdefgh".length = 8 ∧ validate "abcdefgh" = false ∧ validate "abcdefg" = true := by
  refine ⟨by decide, by decide, by decide⟩

end GameController

/-! ## The unit of the registered time (claim C26) -/

/-- The converted time is below the time in milliseconds, for every positive
time. -/
theorem fromMilitoUnit_lt (value : Nat) (h : 0 < value) :
    fromMilitoUnit value < (value : ℚ) := by
  unfold fromMilitoUnit
  have h1 : (value + 5) / 10 ≤ value := by omega
  have h2 : (((value + 5) / 10 : Nat) : ℚ) ≤ (value : ℚ) := by exact_mod_cast h1
  have h3 : (0 : ℚ) < (value : ℚ) := by exact_mod_cast h
  rw [div_lt_iff₀ (by norm_num)]
  nlinarith

namespace PlayerController

/-- C26. The two paths of `registerPlayer` store the time in different units.
Registering `ann` with 1500 ms when she has no record stores the time 1.5
(seconds, through `fromMilitoUnit`); registering the same data when she has a
record stores the time 1500 (milliseconds, as handed over). -/
theorem C26_time_unit_differs_between_insert_and_update :
    registerPlayer [] "p1" ⟨"ann", 1, 1500⟩ = ([⟨"p1", "ann", 1, 3 / 2⟩], true) ∧
    registerPlayer [⟨"p1", "ann", 2, 9⟩] "p2" ⟨"ann", 1, 1500⟩
      = ([⟨"p1", "ann", 1, 1500⟩], true) ∧
    ((3 / 2 : ℚ) ≠ 1500) := by
  refine ⟨?_, ?_, by norm_num⟩
  · simp only [registerPlayer, PlayerStore.getPlayerByUsername, List.find?_nil, addPlayer,
      PlayerStore.addPlayer, PlayerStore.assign, fromMilitoUnit]
    norm_num
  · simp [registerPlayer, PlayerStore.getPlayerByUsername, PlayerStore.updatePlayerData]

end PlayerController

/-! ## The rows of a table (claim C30) -/

namespace TableView

/-- A text longer than the column width cannot be padded: `repeat` raises. -/
theorem padded_long (columnWidth : Nat) (text : String) (h : columnWidth < text.length) :
    padded columnWidth text = none := by
  have : (columnWidth : Int) - (text.length : Int) < 0 := by omega
  simp [padded, stringRepeat, this]

/-- The message of a row is not built when a cell is longer than the column
width. -/
theorem cellsMessage_long (columnWidth : Nat) (cell : String → Option String)
    (columns : List String) (column text : String) (hcol : column ∈ columns)
    (hcell : cell column = some text) (hlong : columnWidth < text.length) :
    cellsMessage columnWidth cell columns = none := by
  induction columns with
  | nil => simp at hcol
  | cons c rest ih =>
    unfold cellsMessage
    rcases List.mem_cons.mp hcol with h | h
    · subst h
      simp [hcell, padded_long columnWidth text hlong]
    · have := ih h
      cases hc : cell c with
      | none => simp
      | some t =>
        cases hp : padded columnWidth t with
        | none => simp [hp]
        | some first => simp [hp, this]

/-- The rows are not formatted when a cell of a row is longer than the column
width: `_setRowsFormat` returns `undefined`. -/
theorem setRowsFormat_long (table : Table) (rows : List Row) (row : Row)
    (column text : String) (hrow : row ∈ rows) (hcol : column ∈ table.columns)
    (hcell : row.cells.lookup column = some text)
    (hlong : table.columnWidth < text.length) :
    _setRowsFormat table rows = none := by
  have hrows : formatRows table rows = none := by
    induction rows with
    | nil => simp at hrow
    | cons r rest ih =>
      unfold formatRows
      rcases List.mem_cons.mp hrow with h | h
      · subst h
        rw [cellsMessage_long table.columnWidth (fun column => row.cells.lookup column)
          table.columns column text hcol hcell hlong]
      · have := ih h
        cases hm : cellsMessage table.columnWidth (fun column => r.cells.lookup column)
          table.columns with
        | none => simp
        | some message => simp [this]
  have hne : rows.isEmpty = false := by
    cases rows with
    | nil => simp at hrow
    | cons _ _ => rfl
  simp [_setRowsFormat, hne, hrows]

/-- C30. `_setRowsFormat` is not total: in the table of the questions to
delete, whose columns are 80 wide, a question of 95 characters makes
`' '.repeat(gapSize)` raise, and the result is `undefined` instead of a list
of entries.  With rows that fit the result is the header, one entry per row
named by its id, a separator and the actions `delete`, `back`, `close`; without
rows it is the footer only. -/
theorem C30_setRowsFormat_undefined_for_long_cell :
    (longQuestionRow.cells.lookup "text").map String.length = some 95 ∧
    deleteQuestionsTable.columnWidth = 80 ∧
    _setRowsFormat deleteQuestionsTable [shortQuestionRow, longQuestionRow] = none ∧
    (_setRowsFormat deleteQuestionsTable [shortQuestionRow]).map
        (fun entries => entries.map (fun e =>
          match e with
          | .choice name _ => name
          | .separator _ => "separator"
          | .undefined => "undefined"))
      = some ["separator", "q2", "separator", "delete", "back", "close"] ∧
    _setRowsFormat deleteQuestionsTable [] = some (_setFooterTable deleteQuestionsTable) := by
  refine ⟨by decide, by decide, ?_, by decide, rfl⟩
  exact setRowsFormat_long deleteQuestionsTable _ longQuestionRow "text" _
    (by simp) (by decide) rfl (by decide)

end TableView

/-! ## The order of the players table (claim C23) -/

namespace PlayerController

/-- The comparator is not positive exactly when the first row has the higher
level, or the same level and not the longer time. -/
theorem comparePlayers_le_iff (a b : PlayerRow) :
    comparePlayers a b ≤ 0 ↔ (b.level < a.level ∨ (a.level = b.level ∧ a.time ≤ b.time)) := by
  unfold comparePlayers
  by_cases h : a.level = b.level
  · simp [h, sub_nonpos]
  · have hcast : ((b.level : ℚ) - (a.level : ℚ) ≤ 0) ↔ b.level ≤ a.level := by
      rw [sub_nonpos]
      exact Nat.cast_le
    simp only [h, if_false, hcast, false_and, or_false]
    omega

/-- C23. For every list of player rows, `_orderPlayers` yields a rearrangement
of the list in which every row stands before the rows of a lower level and,
among rows of its own level, before the rows with a longer time: the rows are
ordered by level descending and by time ascending within a level. -/
theorem C23_orderPlayers_sorts_by_level_then_time (players : List PlayerRow) :
    (_orderPlayers players).Perm players ∧
    (_orderPlayers players).Pairwise
      (fun a b => b.level < a.level ∨ (a.level = b.level ∧ a.time ≤ b.time)) := by
  haveI htotal : IsTotal PlayerRow (fun p1 p2 => comparePlayers p1 p2 ≤ 0) :=
    ⟨fun a b => by
      simp only [comparePlayers_le_iff]
      rcases lt_trichotomy a.level b.level with h | h | h
      · exact Or.inr (Or.inl h)
      · rcases le_total a.time b.time with ht | ht
        · exact Or.inl (Or.inr ⟨h, ht⟩)
        · exact Or.inr (Or.inr ⟨h.symm, ht⟩)
      · exact Or.inl (Or.inl h)⟩
  haveI htrans : IsTrans PlayerRow (fun p1 p2 => comparePlayers p1 p2 ≤ 0) :=
    ⟨fun a b c hab hbc => by
      simp only [comparePlayers_le_iff] at hab hbc ⊢
      rcases hab with h1 | ⟨h1, t1⟩ <;> rcases hbc with h2 | ⟨h2, t2⟩
      · exact Or.inl (by omega)
      · exact Or.inl (by omega)
      · exact Or.inl (by omega)
      · exact Or.inr ⟨by omega, le_trans t1 t2⟩⟩
  refine ⟨List.perm_insertionSort _ players, ?_⟩
  have hs := List.sorted_insertionSort (fun p1 p2 => comparePlayers p1 p2 ≤ 0) players
  exact List.Pairwise.imp (fun h => (comparePlayers_le_iff _ _).mp h) hs

end PlayerController

/-! ## Usernames stay unique (claim C28) -/

namespace PlayerController

open PlayerStore

/-- A record of the database after `data[id] = ...` is the record written or a
record of the database before. -/
theorem mem_assign (data : List Player) (player q : Player)
    (h : q ∈ assign data player) : q = player ∨ q ∈ data := by
  induction data with
  | nil =>
    simp only [assign, List.mem_singleton] at h
    exact Or.inl h
  | cons p rest ih =>
    unfold assign at h
    split at h
    · rcases List.mem_cons.mp h with h1 | h1
      · exact Or.inl h1
      · exact Or.inr (List.mem_cons_of_mem _ h1)
    · rcases List.mem_cons.mp h with h1 | h1
      · exact Or.inr (by rw [h1]; exact List.mem_cons_self _ _)
      · rcases ih h1 with h2 | h2
        · exact Or.inl h2
        · exact Or.inr (List.mem_cons_of_mem _ h2)

/-- Writing a record with a username that no record carries keeps the usernames
pairwise different. -/
theorem assign_usernames_nodup (data : List Player) (player : Player)
    (hunique : (data.map (fun p => p.username)).Nodup)
    (hnew : player.username ∉ data.map (fun p => p.username)) :
    ((assign data player).map (fun p => p.username)).Nodup := by
  induction data with
  | nil => simp [assign]
  | cons p rest ih =>
    simp only [List.map_cons, List.nodup_cons, List.mem_cons, not_or] at hunique hnew
    unfold assign
    split
    · simp only [List.map_cons, List.nodup_cons]
      exact ⟨hnew.2, hunique.2⟩
    · simp only [List.map_cons, List.nodup_cons]
      refine ⟨?_, ih hunique.2 hnew.2⟩
      intro hmem
      obtain ⟨q, hq, hqu⟩ := List.mem_map.mp hmem
      rcases mem_assign rest player q hq with h1 | h1
      · apply hnew.1
        rw [← hqu, h1]
      · apply hunique.1
        rw [← hqu]
        exact List.mem_map_of_mem _ h1

/-- The update path of `registerPlayer`: on a database whose keys are pairwise
different the record found by username is replaced where it stands. -/
theorem registerPlayer_update_eq (store : List Player) (uuid : String)
    (data : GameController.PlayerData) (r : Player)
    (hnd : (store.map (fun p => p.id)).Nodup)
    (hget : getPlayerByUsername store data.username = some r) :
    registerPlayer store uuid data
      = (store.map (fun q => if q.id = r.id then
          (⟨r.id, data.username, data.maxLevelReached, (data.time : ℚ)⟩ : Player) else q),
        true) := by
  have hr : r ∈ store := List.mem_of_find?_eq_some hget
  have hidmem : r.id ∈ store.map (fun p => p.id) := List.mem_map_of_mem _ hr
  rcases updatePlayerData_eq_map store
    ⟨r.id, data.username, data.maxLevelReached, (data.time : ℚ)⟩ hidmem with hupd | hupd
  · simp only [registerPlayer, hget]
    exact hupd
  · exact absurd hnd hupd

/-- The insert path of `registerPlayer`. -/
theorem registerPlayer_insert_eq (store : List Player) (uuid : String)
    (data : GameController.PlayerData)
    (hget : getPlayerByUsername store data.username = none) :
    registerPlayer store uuid data
      = (assign store
          ⟨uuid, data.username, data.maxLevelReached, fromMilitoUnit data.time⟩, true) := by
  simp [registerPlayer, hget, addPlayer, PlayerStore.addPlayer]

/-- C28. On a players database (keys pairwise different, as in any JSON
object) that holds at most one record per username, after any call of
`registerPlayer` the database still holds at most one record per username.
When the username is registered, the database afterwards is the database
before with the record of that username replaced where it stands by one with
the same id: the number of records, the ids and every other record are as
before.  When the username is not registered and the id drawn is not in use,
the database afterwards is the database before followed by one new record. -/
theorem C28_registerPlayer_keeps_usernames_unique
    (store : List Player) (uuid : String) (data : GameController.PlayerData)
    (hkeys : (store.map (fun p => p.id)).Nodup)
    (hunique : (store.map (fun p => p.username)).Nodup) :
    ((registerPlayer store uuid data).1.map (fun p => p.username)).Nodup ∧
    (∀ r, getPlayerByUsername store data.username = some r →
      (registerPlayer store uuid data).1
        = store.map (fun q => if q.id = r.id then
            (⟨r.id, data.username, data.maxLevelReached, (data.time : ℚ)⟩ : Player) else q) ∧
      (registerPlayer store uuid data).1.length = store.length ∧
      (registerPlayer store uuid data).1.map (fun p => p.id) = store.map (fun p => p.id) ∧
      (∀ q ∈ store, q ≠ r → q ∈ (registerPlayer store uuid data).1)) ∧
    (getPlayerByUsername store data.username = none →
      uuid ∉ store.map (fun p => p.id) →
      (registerPlayer store uuid data).1
        = store ++ [⟨uuid, data.username, data.maxLevelReached, fromMilitoUnit data.time⟩] ∧
      (registerPlayer store uuid data).1.length = store.length + 1) := by
  have hupdate : ∀ r, getPlayerByUsername store data.username = some r →
      (registerPlayer store uuid data).1.map (fun p => p.username)
        = store.map (fun p => p.username) ∧
      (registerPlayer store uuid data).1.map (fun p => p.id) = store.map (fun p => p.id) := by
    intro r hget
    have hr : r ∈ store := List.mem_of_find?_eq_some hget
    have hru : r.username = data.username := by
      have := List.find?_some hget
      simpa using this
    rw [registerPlayer_update_eq store uuid data r hkeys hget]
    constructor
    · simp only [List.map_map]
      apply List.map_congr_left
      intro q hq
      by_cases hqid : q.id = r.id
      · have hqr : q = r := List.inj_on_of_nodup_map hkeys hq hr hqid
        simp [hqr, hru]
      · simp [hqid]
    · simp only [List.map_map]
      apply List.map_congr_left
      intro q _
      by_cases hqid : q.id = r.id <;> simp [hqid]
  refine ⟨?_, ?_, ?_⟩
  · cases hget : getPlayerByUsername store data.username with
    | some r =>
      rw [(hupdate r hget).1]
      exact hunique
    | none =>
      rw [registerPlayer_insert_eq store uuid data hget]
      apply assign_usernames_nodup store _ hunique
      intro hmem
      obtain ⟨q, hq, hqu⟩ := List.mem_map.mp hmem
      have hnone := List.find?_eq_none.mp hget q hq
      simp at hnone
      exact hnone hqu
  · intro r hget
    have hr : r ∈ store := List.mem_of_find?_eq_some hget
    refine ⟨by rw [registerPlayer_update_eq store uuid data r hkeys hget], ?_,
      (hupdate r hget).2, ?_⟩
    · rw [registerPlayer_update_eq store uuid data r hkeys hget]
      simp
    · intro q hq hne
      rw [registerPlayer_update_eq store uuid data r hkeys hget]
      have hqid : q.id ≠ r.id := fun e => hne (List.inj_on_of_nodup_map hkeys hq hr e)
      apply List.mem_map.mpr
      exact ⟨q, hq, by simp [hqid]⟩
  · intro hget hfresh
    rw [registerPlayer_insert_eq store uuid data hget]
    have := assign_fresh store
      ⟨uuid, data.username, data.maxLevelReached, fromMilitoUnit data.time⟩ hfresh
    simp only
    rw [this]
    simp

/-- The theorem at the database `onePlayer`, for the registered username `bob`
and for the new username `ann` with the unused id `p2`. -/
theorem C28_witness :
    ((onePlayer.map (fun p => p.id)).Nodup ∧ (onePlayer.map (fun p => p.username)).Nodup) ∧
    (((registerPlayer onePlayer "p2" ⟨"bob", 4, 7000⟩).1.map (fun p => p.username)).Nodup ∧
      (registerPlayer onePlayer "p2" ⟨"bob", 4, 7000⟩).1 = [⟨"p1", "bob", 4, 7000⟩]) ∧
    (registerPlayer onePlayer "p2" ⟨"ann", 1, 1500⟩).1.length = 2 := by
  refine ⟨⟨by decide, by decide⟩, ?_⟩
  have hb := C28_registerPlayer_keeps_usernames_unique onePlayer "p2" ⟨"bob", 4, 7000⟩
    (by decide) (by decide)
  have ha := C28_registerPlayer_keeps_usernames_unique onePlayer "p2" ⟨"ann", 1, 1500⟩
    (by decide) (by decide)
  refine ⟨⟨hb.1, ?_⟩, ?_⟩
  · have := (hb.2.1 ⟨"p1", "bob", 2, 3⟩ (by decide)).1
    rw [this]
    simp [onePlayer]
  · exact (ha.2.2 (by decide) (by decide)).2

end PlayerController

/-! ## A question and its answers (claim C24) -/

namespace QuestionController

/-- With ids that are not in use and pairwise different, the loop of
`addQuestion` puts the answers it builds at the end of the database, in the
order of the keys. -/
theorem addAnswersLoop_fresh (question : String) (answerUuid : Nat → String) :
    ∀ (entries : List (String × String)) (k : Nat) (data : List Answer) (b : Bool),
      (∀ i, i < entries.length → ∀ a ∈ data, a.id ≠ answerUuid (k + i)) →
      (∀ i j, i < j → j < entries.length → answerUuid (k + i) ≠ answerUuid (k + j)) →
      addAnswersLoop question answerUuid k entries (data, b)
        = (data ++ newAnswers question answerUuid k entries,
           if entries.isEmpty then b else true) := by
  intro entries
  induction entries with
  | nil => intro k data b _ _; simp [addAnswersLoop, newAnswers]
  | cons entry rest ih =>
    intro k data b hfresh hdistinct
    have h0 : ∀ a ∈ data, a.id ≠ answerUuid k := by
      intro a ha
      have := hfresh 0 (by simp) a ha
      simpa using this
    have hadd : AnswerController.addAnswer data (answerUuid k) entry.2 question
        (decide (entry.1 = "correctAnswer"))
        = (data ++ [⟨answerUuid k, entry.2, question, decide (entry.1 = "correctAnswer")⟩],
           true) :=
      AnswerStore.addAnswer_absent data _ h0
    rw [addAnswersLoop, hadd]
    rw [ih (k + 1) _ true]
    · cases rest <;> simp [newAnswers]
    · intro i hi a ha
      rcases List.mem_append.mp ha with h1 | h1
      · have := hfresh (i + 1) (by simp; omega) a h1
        rw [show k + 1 + i = k + (i + 1) by omega]
        exact this
      · simp only [List.mem_singleton] at h1
        rw [h1]
        have := hdistinct 0 (i + 1) (by omega) (by simp; omega)
        rw [show k + 1 + i = k + (i + 1) by omega]
        simpa using this
    · intro i j hij hj
      have := hdistinct (i + 1) (j + 1) (by omega) (by simp; omega)
      rw [show k + 1 + i = k + (i + 1) by omega, show k + 1 + j = k + (j + 1) by omega]
      exact this

/-- The answers built by the loop all belong to the question. -/
theorem newAnswers_question (question : String) (answerUuid : Nat → String) :
    ∀ (entries : List (String × String)) (k : Nat),
      ∀ a ∈ newAnswers question answerUuid k entries, a.question = question := by
  intro entries
  induction entries with
  | nil => intro k a ha; simp [newAnswers] at ha
  | cons entry rest ih =>
    intro k a ha
    simp only [newAnswers, List.mem_cons] at ha
    rcases ha with h | h
    · rw [h]
    · exact ih (k + 1) a h

/-- The texts and the flags of the answers built by the loop: one answer per
key, flagged exactly when the key is `correctAnswer`. -/
theorem newAnswers_texts (question : String) (answerUuid : Nat → String) :
    ∀ (entries : List (String × String)) (k : Nat),
      (newAnswers question answerUuid k entries).map (fun a => (a.text, a.isCorrect))
        = entries.map (fun e => (e.2, decide (e.1 = "correctAnswer"))) := by
  intro entries
  induction entries with
  | nil => intro k; rfl
  | cons entry rest ih =>
    intro k
    simp only [newAnswers, List.map_cons, ih (k + 1)]

/-- The number of flagged answers built by the loop is the number of keys
`correctAnswer`. -/
theorem newAnswers_correct (question : String) (answerUuid : Nat → String) :
    ∀ (entries : List (String × String)) (k : Nat),
      ((newAnswers question answerUuid k entries).filter (fun a => a.isCorrect)).length
        = (entries.map Prod.fst).count "correctAnswer" := by
  intro entries
  induction entries with
  | nil => intro k; rfl
  | cons entry rest ih =>
    intro k
    by_cases h : entry.1 = "correctAnswer"
    · simp [newAnswers, List.filter_cons, h, ih (k + 1)]
    · simp [newAnswers, List.filter_cons, h, ih (k + 1), List.count_cons]

/-- C24. The ids drawn by `uuidv4()` are not in use: no stored answer belongs
to the id of the new question or carries one of the four ids of the new
answers, which are pairwise different.  Then for every input with a text and a
category whose `answers` has the four keys `correctAnswer`, `answer2`,
`answer3`, `answer4` (in any order), the answers stored for the new question
afterwards are exactly four, one per key with the text of that key, flagged
correct exactly when the key is `correctAnswer`, so exactly one is flagged, and
a truthy value is returned.  When the text or the category is missing, `false`
is returned and both databases are unchanged. -/
theorem C24_addQuestion_stores_four_answers
    (questions : List Question) (answers : List Answer) (uuid : String)
    (answerUuid : Nat → String) (data : QuestionData)
    (hquestion : ∀ a ∈ answers, a.question ≠ uuid)
    (hfresh : ∀ i, i < 4 → ∀ a ∈ answers, a.id ≠ answerUuid i)
    (hdistinct : ∀ i j, i < j → j < 4 → answerUuid i ≠ answerUuid j) :
    (data.text ≠ "" → data.category ≠ "" →
      (data.answers.map Prod.fst).Perm ["correctAnswer", "answer2", "answer3", "answer4"] →
      (AnswerStore.getAnswersByQuestion
          (addQuestion questions answers uuid answerUuid data).2.1 uuid).length = 4 ∧
      (AnswerStore.getAnswersByQuestion
          (addQuestion questions answers uuid answerUuid data).2.1 uuid).map
          (fun a => (a.text, a.isCorrect))
        = data.answers.map (fun e => (e.2, decide (e.1 = "correctAnswer"))) ∧
      ((AnswerStore.getAnswersByQuestion
          (addQuestion questions answers uuid answerUuid data).2.1 uuid).filter
          (fun a => a.isCorrect)).length = 1 ∧
      (addQuestion questions answers uuid answerUuid data).2.1
        = answers ++ newAnswers uuid answerUuid 0 data.answers ∧
      (addQuestion questions answers uuid answerUuid data).2.2 = true) ∧
    (data.text = "" ∨ data.category = "" →
      addQuestion questions answers uuid answerUuid data = (questions, answers, false)) := by
  constructor
  · intro htext hcategory hkeys
    have hlen : data.answers.length = 4 := by
      have := hkeys.length_eq
      simpa using this
    have hloop := addAnswersLoop_fresh uuid answerUuid data.answers 0 answers false
      (by
        intro i hi a ha
        rw [hlen] at hi
        simpa using hfresh i hi a ha)
      (by
        intro i j hij hj
        rw [hlen] at hj
        simpa using hdistinct i j hij hj)
    have hne : data.answers.isEmpty = false := by
      cases hd : data.answers with
      | nil => rw [hd] at hlen; simp at hlen
      | cons _ _ => rfl
    have hstored : (addQuestion questions answers uuid answerUuid data).2.1
        = answers ++ newAnswers uuid answerUuid 0 data.answers := by
      simp [addQuestion, htext, hcategory, hloop]
    have hresult : (addQuestion questions answers uuid answerUuid data).2.2 = true := by
      simp [addQuestion, htext, hcategory, hloop, hne, QuestionStore.addQuestion]
      split <;> rfl
    have hget : AnswerStore.getAnswersByQuestion
        (addQuestion questions answers uuid answerUuid data).2.1 uuid
        = newAnswers uuid answerUuid 0 data.answers := by
      rw [hstored]
      unfold AnswerStore.getAnswersByQuestion
      rw [List.filter_append]
      have h1 : answers.filter (fun answer => decide (answer.question = uuid)) = [] := by
        apply List.filter_eq_nil_iff.mpr
        intro a ha
        simpa using hquestion a ha
      have h2 : (newAnswers uuid answerUuid 0 data.answers).filter
          (fun answer => decide (answer.question = uuid))
          = newAnswers uuid answerUuid 0 data.answers := by
        apply List.filter_eq_self.mpr
        intro a ha
        simpa using newAnswers_question uuid answerUuid data.answers 0 a ha
      rw [h1, h2]
      rfl
    rw [hget]
    refine ⟨?_, newAnswers_texts uuid answerUuid data.answers 0, ?_, hstored, hresult⟩
    · have := congrArg List.length (newAnswers_texts uuid answerUuid data.answers 0)
      simpa [hlen] using this
    · rw [newAnswers_correct, hkeys.count_eq]
      decide
  · intro hmissing
    unfold addQuestion
    rw [if_pos hmissing]

/-- The theorem at the small content database, for a new question with the
entries of the answers form, and for an input without text. -/
theorem C24_witness :
    ((∀ a ∈ RoundController.quizStore.answers, a.question ≠ "q9") ∧
      (∀ i, i < 4 → ∀ a ∈ RoundController.quizStore.answers, a.id ≠ sampleUuid i) ∧
      (∀ i j, i < j → j < 4 → sampleUuid i ≠ sampleUuid j)) ∧
    (AnswerStore.getAnswersByQuestion
        (addQuestion RoundController.quizStore.questions RoundController.quizStore.answers
          "q9" sampleUuid ⟨"Capital of Peru", "c1", formAnswers⟩).2.1 "q9").map
        (fun a => (a.text, a.isCorrect))
      = [("four", true), ("three", false), ("five", false), ("six", false)] ∧
    addQuestion RoundController.quizStore.questions RoundController.quizStore.answers
        "q9" sampleUuid ⟨"", "c1", formAnswers⟩
      = (RoundController.quizStore.questions, RoundController.quizStore.answers, false) := by
  have h1 : ∀ a ∈ RoundController.quizStore.answers, a.question ≠ "q9" := by decide
  have h2 : ∀ i, i < 4 → ∀ a ∈ RoundController.quizStore.answers, a.id ≠ sampleUuid i := by
    intro i hi
    interval_cases i <;> decide
  have h3 : ∀ i j, i < j → j < 4 → sampleUuid i ≠ sampleUuid j := by
    intro i j hij hj
    interval_cases j <;> interval_cases i <;> first | omega | decide
  refine ⟨⟨h1, h2, h3⟩, ?_, ?_⟩
  · exact ((C24_addQuestion_stores_four_answers RoundController.quizStore.questions
      RoundController.quizStore.answers "q9" sampleUuid ⟨"Capital of Peru", "c1", formAnswers⟩
      h1 h2 h3).1 (by decide) (by decide) (by decide)).2.1
  · exact (C24_addQuestion_stores_four_answers RoundController.quizStore.questions
      RoundController.quizStore.answers "q9" sampleUuid ⟨"", "c1", formAnswers⟩
      h1 h2 h3).2 (Or.inl rfl)

end QuestionController

/-! ## Play-throughs and their registration (claims C27, C29) -/

namespace GameController

/-- Putting events in front twice puts the concatenation in front. -/
theorem pre_pre (r : Res) (a b : List Event) : (r.pre b).pre a = r.pre (a ++ b) := by
  simp [Res.pre, List.append_assoc]

/-- Putting no event in front changes nothing. -/
theorem pre_nil (r : Res) : r.pre [] = r := by
  simp [Res.pre]

/-- A round that was not played is `undefined` whatever the level. -/
theorem startRound_none (data : List Level) (level : Nat) :
    RoundController.startRound data level none = none := by
  unfold RoundController.startRound
  cases LevelController.searchLevelByValue data level <;> rfl

/-- Rounds that are continued register nothing. -/
theorem registrations_continueEvents :
    ∀ (conts : List Turn) (levelValue : Nat),
      registrations (continueEvents levelValue conts) = [] := by
  intro conts
  induction conts with
  | nil => intro _; rfl
  | cons turn rest ih =>
    intro levelValue
    have := ih (levelValue + 1)
    simp only [registrations] at this
    simp [continueEvents, registrations, List.filterMap_append, List.filterMap_cons, this]

/-- The time of a sequence of rounds followed by one more round. -/
theorem roundTimes_append (data : List Level) :
    ∀ (conts : List Turn) (levelValue : Nat) (final : Turn),
      roundTimes data levelValue (conts ++ [final])
        = roundTimes data levelValue conts
          + (match RoundController.startRound data (levelValue + conts.length) final.played with
            | some round => round.time
            | none => 0) := by
  intro conts
  induction conts with
  | nil => intro levelValue final; simp [roundTimes]
  | cons turn rest ih =>
    intro levelValue final
    show roundTimes data levelValue (turn :: (rest ++ [final])) = _
    rw [roundTimes, roundTimes, ih (levelValue + 1) final, List.length_cons,
      show levelValue + 1 + rest.length = levelValue + (rest.length + 1) by omega]
    omega

/-- The calls of `_run` for rounds that are continued: each shows the round and
the toggle `You're right!`, registers nothing, and the call after them is
entered at the next level with the times of the rounds added up. -/
theorem run_continued (username : String) (data : List Level) :
    ∀ (conts : List Turn) (levelValue : Nat) (accumulated : Int) (time : Nat)
      (tail : List Turn),
      continued data levelValue conts = true →
      ∃ accumulated2 : Int,
        _run username data levelValue accumulated time (conts ++ tail)
          = (_run username data (levelValue + conts.length) accumulated2
              (time + roundTimes data levelValue conts) tail).pre
              (continueEvents levelValue conts) := by
  intro conts
  induction conts with
  | nil =>
    intro levelValue accumulated time tail _
    exact ⟨accumulated, by simp [roundTimes, continueEvents, pre_nil]⟩
  | cons turn rest ih =>
    intro levelValue accumulated time tail hc
    obtain ⟨played, decision⟩ := turn
    simp only [continued, Bool.and_eq_true, bne_iff_ne, ne_eq, beq_iff_eq] at hc
    obtain ⟨⟨⟨hround, hlevel⟩, hdecision⟩, hrest⟩ := hc
    cases hr : RoundController.startRound data levelValue played with
    | none => simp [hr] at hround
    | some round =>
      simp only [hr] at hround
      obtain ⟨⟨lv, hlv⟩, _⟩ := startRound_some data levelValue played round hr
      subst hdecision
      have hb : branch (LevelController.searchLevelByValue data levelValue) round levelValue
          accumulated (time + round.time)
          = some (.youAreRight, false,
              some (levelValue + 1, accumulated + lv.prize, time + round.time)) := by
        rw [hlv, branch_some]
        have h6 : ¬ (levelValue + 1 = 6) := by omega
        simp [hround, h6]
      have ho := turnOutcome_answered username data levelValue accumulated time played round
        true _ _ _ hr hb
      obtain ⟨accumulated2, hih⟩ := ih (levelValue + 1) (accumulated + lv.prize)
        (time + round.time) tail hrest
      refine ⟨accumulated2, ?_⟩
      rw [List.cons_append, run_cons, ho]
      simp only [if_true, Option.getD_some, Bool.false_or, Bool.not_true, Bool.false_eq_true,
        if_false, List.append_nil]
      rw [hih, pre_pre]
      simp only [roundTimes, hr, continueEvents, List.length_cons]
      rw [show levelValue + 1 + rest.length = levelValue + (rest.length + 1) by omega,
        show time + round.time + roundTimes data (levelValue + 1) rest
          = time + (round.time + roundTimes data (levelValue + 1) rest) by omega]

/-- The call of `_run` for a round that ends a play-through: it shows the round
and the toggle, registers the level of the call and the time handed in plus the
time of the round, and then either returns or, when the player decides to play
again, starts over at level 1 with the time 0. -/
theorem run_ends (username : String) (data : List Level) (levelValue : Nat)
    (accumulated : Int) (time : Nat) (final : Turn) (rest : List Turn)
    (he : ends data levelValue final = true) :
    ∃ round, RoundController.startRound data levelValue final.played = some round ∧
      _run username data levelValue accumulated time (final :: rest)
        = (if final.decision = some true then _run username data 1 0 0 rest
            else ⟨.done, rest, []⟩).pre
            [.clear, .round levelValue, .clear, .prompt (promptShown round levelValue),
              .register ⟨username, levelValue, time + round.time⟩] := by
  obtain ⟨played, decision⟩ := final
  unfold ends at he
  cases hr : RoundController.startRound data levelValue played with
  | none => simp [hr] at he
  | some round =>
    cases decision with
    | none => simp [hr] at he
    | some d =>
      simp only [hr, Bool.or_eq_true, Bool.not_eq_true', beq_iff_eq] at he
      obtain ⟨⟨lv, hlv⟩, _⟩ := startRound_some data levelValue played round hr
      refine ⟨round, rfl, ?_⟩
      by_cases hcorrect : round.correct = true
      · by_cases h5 : levelValue = 5
        · have hb : branch (LevelController.searchLevelByValue data levelValue) round
              levelValue accumulated (time + round.time)
              = some (.congratulations, true, none) := by
            rw [hlv, branch_some]
            simp [hcorrect, h5]
          rw [run_cons, turnOutcome_answered username data levelValue accumulated time played
            round d _ _ _ hr hb]
          cases d <;> simp [promptShown, hcorrect, h5, Res.pre, _registerPlayerData]
        · have hd : d = false := by
            rcases he with (h | h) | h
            · rw [hcorrect] at h; cases h
            · exact absurd h h5
            · exact h
          have h6 : ¬ (levelValue + 1 = 6) := by omega
          subst hd
          have hb : branch (LevelController.searchLevelByValue data levelValue) round
              levelValue accumulated (time + round.time)
              = some (.youAreRight, false,
                  some (levelValue + 1, accumulated + lv.prize, time + round.time)) := by
            rw [hlv, branch_some]
            simp [hcorrect, h6]
          rw [run_cons, turnOutcome_answered username data levelValue accumulated time played
            round false _ _ _ hr hb]
          simp [promptShown, hcorrect, h6, Res.pre, _registerPlayerData]
      · have hfalse : round.correct = false := by
          cases hrc : round.correct with
          | true => exact absurd hrc hcorrect
          | false => rfl
        have hb : branch (LevelController.searchLevelByValue data levelValue) round
            levelValue accumulated (time + round.time)
            = some (.youLost, true, none) := by
          rw [hlv, branch_some]
          simp [hfalse]
        rw [run_cons, turnOutcome_answered username data levelValue accumulated time played
          round d _ _ _ hr hb]
        cases d <;> simp [promptShown, hfalse, Res.pre, _registerPlayerData]

/-- C27. A play-through is a start at level 1, some rounds that are won and
continued, and a round that ends it: lost, won at level 5, or won and followed
by the decision to quit.  For every such play-through, the calls of `_run` for
the continued rounds register nothing, the call for the last round registers
the player once, with the level reached and the sum of the round times of this
play-through, and what follows is either the return of `_run` or, after the
decision to play again, a new play-through entered at level 1 with the time
0, so that no earlier time is carried over. -/
theorem C27_each_play_through_registers_once
    (username : String) (data : List Level) (conts : List Turn) (final : Turn)
    (rest : List Turn)
    (hcontinued : continued data 1 conts = true)
    (hends : ends data (1 + conts.length) final = true) :
    ∃ round, RoundController.startRound data (1 + conts.length) final.played = some round ∧
      _run username data 1 0 0 (conts ++ final :: rest)
        = (if final.decision = some true then _run username data 1 0 0 rest
            else ⟨.done, rest, []⟩).pre
            (continueEvents 1 conts ++
              [.clear, .round (1 + conts.length), .clear,
                .prompt (promptShown round (1 + conts.length)),
                .register ⟨username, 1 + conts.length,
                  roundTimes data 1 (conts ++ [final])⟩]) ∧
      registrations (continueEvents 1 conts) = [] ∧
      registrations (continueEvents 1 conts ++
          [.clear, .round (1 + conts.length), .clear,
            .prompt (promptShown round (1 + conts.length)),
            .register ⟨username, 1 + conts.length, roundTimes data 1 (conts ++ [final])⟩])
        = [⟨username, 1 + conts.length, roundTimes data 1 (conts ++ [final])⟩] := by
  obtain ⟨accumulated2, hrun⟩ := run_continued username data conts 1 0 0 (final :: rest)
    hcontinued
  obtain ⟨round, hround, hlast⟩ := run_ends username data (1 + conts.length) accumulated2
    (0 + roundTimes data 1 conts) final rest hends
  have htime : roundTimes data 1 (conts ++ [final])
      = 0 + roundTimes data 1 conts + round.time := by
    simp only [roundTimes_append, hround]
    omega
  refine ⟨round, hround, ?_, registrations_continueEvents conts 1, ?_⟩
  · rw [hrun, hlast, pre_pre, htime]
  · have h0 := registrations_continueEvents conts 1
    simp only [registrations] at h0 ⊢
    rw [List.filterMap_append, h0]
    rfl

/-- The theorem at a play-through of three rounds on the reference levels, the
third of them lost and followed by the decision to play again, and then a
second play-through of one round: the first registration carries the time of
the three rounds, the second the time of its own round only. -/
theorem C27_witness :
    (continued fiveLevels 1 twoContinued = true ∧
      ends fiveLevels (1 + twoContinued.length) ⟨some ⟨false, 500⟩, some true⟩ = true) ∧
    registrations (_run "ann" fiveLevels 1 0 0
        (twoContinued ++ ⟨some ⟨false, 500⟩, some true⟩ :: [⟨some ⟨true, 300⟩, some false⟩])).trace
      = [⟨"ann", 3, 3500⟩, ⟨"ann", 1, 300⟩] := by
  refine ⟨⟨by decide, by decide⟩, ?_⟩
  obtain ⟨round, hround, hrun, _, _⟩ := C27_each_play_through_registers_once "ann" fiveLevels
    twoContinued ⟨some ⟨false, 500⟩, some true⟩ [⟨some ⟨true, 300⟩, some false⟩]
    (by decide) (by decide)
  have hplayed : RoundController.startRound fiveLevels (1 + twoContinued.length)
      (some ⟨false, 500⟩) = some ⟨false, 500⟩ := by decide
  have hsame : some (⟨false, 500⟩ : Round) = some round := hplayed.symm.trans hround
  cases hsame
  rw [hrun]
  decide

end GameController

namespace RoundController

/-- C29. Some rounds are won and continued, and the next round is asked at a
level that is not configured, or has no category, or whose drawn category has
no question (the index drawn for an empty list is 0, and the element at it is
`undefined`).  Then `startRound` returns `undefined`, `_run` raises in the call
for that round after showing it, and nothing is registered in the whole run;
`process` is left by that exception, so it does not return `back`, and the
field `_username` still holds the name asked. -/
theorem C29_round_without_material_raises
    (store : Store) (play : Play) (username : String) (before : Option String)
    (conts : List GameController.Turn) (decision : Option Bool)
    (rest : List GameController.Turn)
    (hcontinued : GameController.continued store.levels 1 conts = true)
    (hfail :
      LevelController.searchLevelByValue store.levels (1 + conts.length) = none ∨
      (∃ lv, LevelController.searchLevelByValue store.levels (1 + conts.length) = some lv ∧
        CategoryController.searchCategoriesByLevel store.categories lv.id = []) ∨
      (∃ category, _getRandomCategory store play.categoryDraw (1 + conts.length)
          = some category ∧
        QuestionController.searchQuestionsByCategory store.questions category.id = [])) :
    getRandomNumber play.categoryDraw 0 = 0 ∧ getRandomNumber play.questionDraw 0 = 0 ∧
    startRoundOn store play (1 + conts.length) = none ∧
    GameController._run username store.levels 1 0 0
        (conts ++ ⟨startRoundOn store play (1 + conts.length), decision⟩ :: rest)
      = ⟨.raised, rest,
          GameController.continueEvents 1 conts ++
            [.clear, .round (1 + conts.length), .clear]⟩ ∧
    GameController.registrations
        (GameController.continueEvents 1 conts ++
          [.clear, .round (1 + conts.length), .clear]) = [] ∧
    GameController.process (some username) store.levels true
        (conts ++ ⟨startRoundOn store play (1 + conts.length), decision⟩ :: rest)
      = ⟨.raised, rest,
          GameController.continueEvents 1 conts ++
            [.clear, .round (1 + conts.length), .clear]⟩ ∧
    GameController.usernameAfter before (some username) store.levels true
        (conts ++ ⟨startRoundOn store play (1 + conts.length), decision⟩ :: rest)
      = some username := by
  have hzero : ∀ draw : Draw, getRandomNumber draw 0 = 0 := by
    intro draw
    simp [getRandomNumber, draw.pick_zero]
  have hnone : startRoundOn store play (1 + conts.length) = none := by
    rcases hfail with h | ⟨lv, hlv, hcat⟩ | ⟨category, hcat, hq⟩
    · simp [startRoundOn, _getRandomCategory, h]
    · simp [startRoundOn, _getRandomCategory, hlv, hcat]
    · simp [startRoundOn, hcat, _getRandomQuestion, hq]
  have hrun : GameController._run username store.levels 1 0 0
        (conts ++ ⟨startRoundOn store play (1 + conts.length), decision⟩ :: rest)
      = ⟨.raised, rest,
          GameController.continueEvents 1 conts ++
            [.clear, .round (1 + conts.length), .clear]⟩ := by
    obtain ⟨accumulated2, h⟩ := GameController.run_continued username store.levels conts 1 0 0
      (⟨startRoundOn store play (1 + conts.length), decision⟩ :: rest) hcontinued
    rw [h, hnone, GameController.run_cons]
    simp [GameController.turnOutcome, GameController.startRound_none, GameController.Res.pre]
  refine ⟨hzero _, hzero _, hnone, hrun, ?_, ?_, ?_⟩
  · have h0 := GameController.registrations_continueEvents conts 1
    simp only [GameController.registrations] at h0 ⊢
    rw [List.filterMap_append, h0]
    rfl
  · simp [GameController.process, hrun]
  · simp [GameController.usernameAfter, hrun]

/-- The theorem at the small content database: two rounds are won and
continued, and level 3 is configured but has no category. -/
theorem C29_witness :
    (GameController.continued quizStore.levels 1 GameController.twoContinued = true ∧
      ∃ lv, LevelController.searchLevelByValue quizStore.levels
          (1 + GameController.twoContinued.length) = some lv ∧
        CategoryController.searchCategoriesByLevel quizStore.categories lv.id = []) ∧
    GameController.process (some "ann") quizStore.levels true
        (GameController.twoContinued ++
          ⟨startRoundOn quizStore firstPlay (1 + GameController.twoContinued.length),
            some true⟩ :: [])
      = ⟨.raised, [],
          [.clear, .round 1, .clear, .prompt .youAreRight,
           .clear, .round 2, .clear, .prompt .youAreRight,
           .clear, .round 3, .clear]⟩ :=
  ⟨⟨by decide, ⟨"c", 3, 30⟩, by decide, by decide⟩,
    (C29_round_without_material_raises quizStore firstPlay "ann" none
      GameController.twoContinued (some true) [] (by decide)
      (Or.inr (Or.inl ⟨⟨"c", 3, 30⟩, by decide, by decide⟩))).2.2.2.2.2.1⟩

end RoundController

/-! ## The accumulated reward through the calls of a run (claims C10, C14, C15) -/

namespace GameController

/-- A run is the sequence of its calls: `_run` yields exactly the actions of the
calls listed by `calls`, in order, and ends as the last of them ends. -/
theorem run_eq_replay (username : String) (data : List Level) :
    ∀ (turns : List Turn) (levelValue : Nat) (accumulated : Int) (time : Nat),
      _run username data levelValue accumulated time turns
        = replay (calls username data levelValue accumulated time turns) turns := by
  intro turns
  induction turns with
  | nil => intro _ _ _; rfl
  | cons turn rest ih =>
    intro levelValue accumulated time
    rw [run_cons, calls, replay]
    simp only [call, List.tail_cons]
    cases h : turnOutcome username data levelValue accumulated time turn with
    | raise evs => rfl
    | stop evs => rfl
    | again l a t evs => simp only [ih l a t]

/-- The call for a correct round at a level other than 5: quitting ends the run
with a registration; continuing calls `_run` with the next level, the reward
with the prize of this level added, and the time with the time of this round
added. -/
theorem turnOutcome_right (username : String) (data : List Level) (levelValue : Nat)
    (accumulated : Int) (time : Nat) (played : Option Round)
    (roundTime : Nat) (lv : Level) (decision : Bool)
    (hL : levelValue ≠ 5)
    (hlv : LevelController.searchLevelByValue data levelValue = some lv)
    (hround : RoundController.startRound data levelValue played = some ⟨true, roundTime⟩) :
    turnOutcome username data levelValue accumulated time ⟨played, some decision⟩
      = if decision then
          .again (levelValue + 1) (accumulated + lv.prize) (time + roundTime)
            [.clear, .round levelValue, .clear, .prompt .youAreRight]
        else
          .stop [.clear, .round levelValue, .clear, .prompt .youAreRight,
            .register ⟨username, levelValue, time + roundTime⟩] := by
  cases decision <;>
    simp [turnOutcome, hround, hlv, branch_some, _registerPlayerData, hL]

/-- The sum over the first `k + 1` indices is the first term plus the sum of the
following `k` terms. -/
theorem sum_range_succ_shift (f : Nat → Int) (k : Nat) :
    ((List.range (k + 1)).map f).sum
      = f 0 + ((List.range k).map (fun j => f (j + 1))).sum := by
  rw [List.range_succ_eq_map, List.map_cons, List.sum_cons, List.map_map]
  rfl

/-- In a sequence of rounds that are all answered correctly and continued up to
the last, the calls are entered with the running totals of the prizes of the
levels played before, and hold the running totals including their own level
after lines 64-66. -/
theorem calls_allRight (username : String) (data : List Level) :
    ∀ (turns : List Turn) (levelValue : Nat) (accumulated : Int) (time : Nat),
      allRight data levelValue turns = true →
      (calls username data levelValue accumulated time turns).map (fun c => c.after)
        = (List.range turns.length).map (fun k =>
            some (accumulated + ((List.range (k + 1)).map
              (fun j => prizeOf data (levelValue + j))).sum)) ∧
      (calls username data levelValue accumulated time turns).map (fun c => c.accumulated)
        = (List.range turns.length).map (fun k =>
            accumulated + ((List.range k).map
              (fun j => prizeOf data (levelValue + j))).sum) := by
  intro turns
  induction turns with
  | nil => intro _ _ _ _; simp [calls]
  | cons turn rest ih =>
    intro levelValue accumulated time h
    obtain ⟨played, decision⟩ := turn
    simp only [allRight, Bool.and_eq_true] at h
    obtain ⟨⟨h1, h2⟩, h3⟩ := h
    cases hround : RoundController.startRound data levelValue played with
    | none => simp [hround] at h1
    | some round =>
      simp only [hround] at h1
      obtain ⟨correct, roundTime⟩ := round
      simp only at h1
      subst h1
      obtain ⟨⟨lv, hlv⟩, _⟩ := startRound_some data levelValue played _ hround
      have hp := prizeOf_eq data levelValue lv hlv
      have hafter : (call username data levelValue accumulated time ⟨played, decision⟩).after
          = some (accumulated + lv.prize) := by
        simp [call, hround, hlv, accumulatedAfter]
      have hentry : (call username data levelValue accumulated time
          ⟨played, decision⟩).accumulated = accumulated := rfl
      have htail : (match turnOutcome username data levelValue accumulated time
            ⟨played, decision⟩ with
          | .again l a t _ => calls username data l a t rest
          | _ => [])
          = calls username data (levelValue + 1) (accumulated + lv.prize)
              (time + roundTime) rest := by
        cases rest with
        | nil =>
          cases turnOutcome username data levelValue accumulated time ⟨played, decision⟩ <;>
            simp [calls]
        | cons t2 rest2 =>
          simp only [List.isEmpty_cons, Bool.false_or, Bool.and_eq_true, bne_iff_ne,
            ne_eq, beq_iff_eq] at h2
          obtain ⟨h5, hd⟩ := h2
          subst hd
          rw [turnOutcome_right username data levelValue accumulated time played roundTime
            lv true h5 hlv hround]
          simp
      obtain ⟨ih1, ih2⟩ := ih (levelValue + 1) (accumulated + lv.prize) (time + roundTime) h3
      rw [calls, htail]
      simp only [List.map_cons, hafter, hentry, ih1, ih2, List.length_cons]
      refine ⟨?_, ?_⟩
      · rw [List.range_succ_eq_map, List.map_cons, List.map_map]
        congr 1
        · simp [hp, List.range_succ]
        · apply List.map_congr_left
          intro k _
          simp only [Function.comp, Nat.succ_eq_add_one]
          rw [sum_range_succ_shift (fun j => prizeOf data (levelValue + j)) (k + 1)]
          simp only [Nat.add_zero, hp]
          have hshift : (fun j => prizeOf data (levelValue + 1 + j))
              = (fun j => prizeOf data (levelValue + (j + 1))) := by
            funext j
            rw [Nat.add_right_comm]
            rfl
          rw [hshift, Int.add_assoc]
      · rw [List.range_succ_eq_map, List.map_cons, List.map_map]
        congr 1
        · simp
        · apply List.map_congr_left
          intro k _
          simp only [Function.comp, Nat.succ_eq_add_one]
          rw [sum_range_succ_shift (fun j => prizeOf data (levelValue + j)) k]
          simp only [Nat.add_zero, hp]
          have hshift : (fun j => prizeOf data (levelValue + 1 + j))
              = (fun j => prizeOf data (levelValue + (j + 1))) := by
            funext j
            rw [Nat.add_right_comm]
            rfl
          rw [hshift, Int.add_assoc]

/-- The value of the reward after one call is the value the call was entered
with when the round is lost, and that value plus the prize of the level when
the round is won. -/
theorem call_after (username : String) (data : List Level) (levelValue : Nat)
    (accumulated : Int) (time : Nat) (turn : Turn) (round : Round)
    (hround : RoundController.startRound data levelValue turn.played = some round) :
    (call username data levelValue accumulated time turn).after
      = some (if round.correct then accumulated + prizeOf data levelValue
          else accumulated) := by
  obtain ⟨⟨lv, hlv⟩, _⟩ := startRound_some data levelValue turn.played round hround
  have hp := prizeOf_eq data levelValue lv hlv
  cases hc : round.correct <;> simp [call, hround, hlv, accumulatedAfter, hc, hp]

/-- With no negative prize configured, through rounds that are won and
continued and one more round, the reward after a call never falls below the
value the first call was entered with, and never decreases from one call to
the next. -/
theorem calls_monotone (username : String) (data : List Level) (last : Turn)
    (hprize : ∀ l ∈ data, 0 ≤ l.prize) :
    ∀ (conts : List Turn) (levelValue : Nat) (accumulated : Int) (time : Nat),
      continued data levelValue conts = true →
      (∀ v ∈ (calls username data levelValue accumulated time (conts ++ [last])).filterMap
          (fun c => c.after), accumulated ≤ v) ∧
      List.Pairwise (· ≤ ·)
        ((calls username data levelValue accumulated time (conts ++ [last])).filterMap
          (fun c => c.after)) := by
  have hnn : ∀ levelValue, 0 ≤ prizeOf data levelValue := by
    intro levelValue
    unfold prizeOf
    cases hlv : LevelController.searchLevelByValue data levelValue with
    | none => simp
    | some lv =>
      have hmem : lv ∈ data := by
        unfold LevelController.searchLevelByValue LevelStore.getLevelByValue at hlv
        exact List.mem_of_find?_eq_some hlv
      simpa using hprize lv hmem
  intro conts
  induction conts with
  | nil =>
    intro levelValue accumulated time _
    have htail : (match turnOutcome username data levelValue accumulated time last with
        | .again l a t _ => calls username data l a t []
        | _ => []) = [] := by
      cases turnOutcome username data levelValue accumulated time last <;> simp [calls]
    rw [List.nil_append, calls, htail]
    cases hround : RoundController.startRound data levelValue last.played with
    | none => simp [call, hround]
    | some round =>
      have ha := call_after username data levelValue accumulated time last round hround
      have h0 := hnn levelValue
      simp only [List.filterMap_cons, ha, List.filterMap_nil]
      refine ⟨?_, List.pairwise_singleton _ _⟩
      intro v hv
      simp only [List.mem_singleton] at hv
      subst hv
      split <;> omega
  | cons turn rest ih =>
    intro levelValue accumulated time hc
    obtain ⟨played, decision⟩ := turn
    simp only [continued, Bool.and_eq_true, bne_iff_ne, ne_eq, beq_iff_eq] at hc
    obtain ⟨⟨⟨hround, hlevel⟩, hdecision⟩, hrest⟩ := hc
    cases hr : RoundController.startRound data levelValue played with
    | none => simp [hr] at hround
    | some round =>
      simp only [hr] at hround
      obtain ⟨correct, roundTime⟩ := round
      simp only at hround
      subst hround
      subst hdecision
      obtain ⟨⟨lv, hlv⟩, _⟩ := startRound_some data levelValue played _ hr
      have hp := prizeOf_eq data levelValue lv hlv
      have h0 := hnn levelValue
      have ha := call_after username data levelValue accumulated time ⟨played, some true⟩
        ⟨true, roundTime⟩ hr
      obtain ⟨hle, hpw⟩ := ih (levelValue + 1) (accumulated + lv.prize) (time + roundTime)
        hrest
      rw [List.cons_append, calls, turnOutcome_right username data levelValue accumulated time
        played roundTime lv true hlevel hlv hr]
      simp only [if_true, List.filterMap_cons, ha]
      rw [hp] at h0 ha ⊢
      refine ⟨?_, ?_⟩
      · intro v hv
        simp only [List.mem_cons] at hv
        rcases hv with hv | hv
        · omega
        · have := hle v hv
          omega
      · exact List.Pairwise.cons hle hpw

/-- C10. After a correct round at a level other than the final level 5: when the
player quits, the player is registered with the level of the round and the time
so far including this round, and the run ends without reading another turn;
when the player continues, nothing is registered and `_run` is called for the
next level with the reward after this round (the reward the call was entered
with plus the prize of the level, which is the amount the toggle shows) and
the time so far including this round, so that the next call of the run is
entered with exactly these values. -/
theorem C10_right_round_quit_or_continue
    (username : String) (data : List Level) (levelValue : Nat)
    (accumulated : Int) (time : Nat) (played : Option Round) (rest : List Turn)
    (roundTime : Nat) (lv : Level) (decision : Bool)
    (hL : levelValue ≠ 5)
    (hlv : LevelController.searchLevelByValue data levelValue = some lv)
    (hround : RoundController.startRound data levelValue played = some ⟨true, roundTime⟩) :
    turnOutcome username data levelValue accumulated time ⟨played, some decision⟩
      = (if decision then
          .again (levelValue + 1) (accumulated + lv.prize) (time + roundTime)
            [.clear, .round levelValue, .clear, .prompt .youAreRight]
        else
          .stop [.clear, .round levelValue, .clear, .prompt .youAreRight,
            .register ⟨username, levelValue, time + roundTime⟩]) ∧
    (call username data levelValue accumulated time ⟨played, some decision⟩).after
      = some (accumulated + lv.prize) ∧
    _run username data levelValue accumulated time (⟨played, some decision⟩ :: rest)
      = (if decision then
          (_run username data (levelValue + 1) (accumulated + lv.prize) (time + roundTime)
              rest).pre
            [.clear, .round levelValue, .clear, .prompt .youAreRight]
        else
          ⟨.done, rest,
            [.clear, .round levelValue, .clear, .prompt .youAreRight,
              .register ⟨username, levelValue, time + roundTime⟩]⟩) ∧
    calls username data levelValue accumulated time (⟨played, some decision⟩ :: rest)
      = call username data levelValue accumulated time ⟨played, some decision⟩ ::
          (if decision then
            calls username data (levelValue + 1) (accumulated + lv.prize) (time + roundTime)
              rest
          else []) ∧
    (∀ next rest2, decision = true → rest = next :: rest2 →
      ∃ more,
        calls username data levelValue accumulated time (⟨played, some decision⟩ :: rest)
          = call username data levelValue accumulated time ⟨played, some decision⟩ ::
              call username data (levelValue + 1) (accumulated + lv.prize)
                (time + roundTime) next :: more) ∧
    _run username data levelValue accumulated time (⟨played, some decision⟩ :: rest)
      = replay
          (calls username data levelValue accumulated time (⟨played, some decision⟩ :: rest))
          (⟨played, some decision⟩ :: rest) := by
  have hout := turnOutcome_right username data levelValue accumulated time played roundTime
    lv decision hL hlv hround
  have hcalls : calls username data levelValue accumulated time
        (⟨played, some decision⟩ :: rest)
      = call username data levelValue accumulated time ⟨played, some decision⟩ ::
          (if decision then
            calls username data (levelValue + 1) (accumulated + lv.prize) (time + roundTime)
              rest
          else []) := by
    rw [calls, hout]
    cases decision <;> simp
  refine ⟨hout, ?_, ?_, hcalls, ?_, run_eq_replay username data _ _ _ _⟩
  · simp [call, hround, hlv, accumulatedAfter]
  · exact run_right username data levelValue accumulated time played rest roundTime lv
      decision hL hlv hround
  · intro next rest2 hd hrest
    subst hd
    subst hrest
    rw [hcalls]
    simp only [if_true]
    rw [calls]
    exact ⟨_, rfl⟩

/-- Witness of C10: a correct round at level 1 of the reference levels after
which the player continues: the next call is entered at level 2 with the reward
10 and the time 1500. -/
theorem C10_witness :
    ((1 : Nat) ≠ 5 ∧
      LevelController.searchLevelByValue fiveLevels 1 = some ⟨"a", 1, 10⟩ ∧
      RoundController.startRound fiveLevels 1 (some ⟨true, 1500⟩) = some ⟨true, 1500⟩) ∧
    turnOutcome "ann" fiveLevels 1 0 0 ⟨some ⟨true, 1500⟩, some true⟩
      = .again 2 10 1500 [.clear, .round 1, .clear, .prompt .youAreRight] :=
  ⟨⟨by decide, by decide, by decide⟩,
    (C10_right_round_quit_or_continue "ann" fiveLevels 1 0 0 (some ⟨true, 1500⟩) [] 1500
      ⟨"a", 1, 10⟩ true (by decide) (by decide) (by decide)).1⟩

/-- C14. In a play-through from level 1 with the reward 0 in which every round
is answered correctly and the player continues after each round but the last,
the run of `_run` consists of one call per round; the call for round `k + 1`
is entered with the sum of the configured prizes of the levels 1 to `k`, and
after it the reward is the sum of the prizes of the levels 1 to `k + 1`.  In a
call whose round is answered incorrectly the reward stays what the call was
entered with. -/
theorem C14_accumulated_is_sum_of_prizes
    (username : String) (data : List Level) (turns : List Turn)
    (h : allRight data 1 turns = true) :
    _run username data 1 0 0 turns = replay (calls username data 1 0 0 turns) turns ∧
    (calls username data 1 0 0 turns).map (fun c => c.after)
      = (List.range turns.length).map (fun k =>
          some (((List.range (k + 1)).map (fun j => prizeOf data (1 + j))).sum)) ∧
    (calls username data 1 0 0 turns).map (fun c => c.accumulated)
      = (List.range turns.length).map (fun k =>
          ((List.range k).map (fun j => prizeOf data (1 + j))).sum) ∧
    (∀ (levelValue : Nat) (accumulated : Int) (time : Nat) (turn : Turn) (round : Round),
      RoundController.startRound data levelValue turn.played = some round →
      round.correct = false →
      (call username data levelValue accumulated time turn).after = some accumulated) := by
  obtain ⟨h1, h2⟩ := calls_allRight username data turns 1 0 0 h
  refine ⟨run_eq_replay username data turns 1 0 0, ?_, ?_, ?_⟩
  · rw [h1]
    apply List.map_congr_left
    intro k _
    simp
  · rw [h2]
    apply List.map_congr_left
    intro k _
    simp
  · intro levelValue accumulated time turn round hround hc
    rw [call_after username data levelValue accumulated time turn round hround, hc]
    simp

/-- Witness of C14 on the reference configuration: three correct rounds, the
player continues twice; the rewards after the rounds are 10, 30 and 60. -/
theorem C14_witness :
    allRight fiveLevels 1
        [⟨some ⟨true, 1⟩, some true⟩, ⟨some ⟨true, 1⟩, some true⟩,
          ⟨some ⟨true, 1⟩, some false⟩] = true ∧
    (calls "ann" fiveLevels 1 0 0
        [⟨some ⟨true, 1⟩, some true⟩, ⟨some ⟨true, 1⟩, some true⟩,
          ⟨some ⟨true, 1⟩, some false⟩]).map (fun c => c.after)
      = [some 10, some 30, some 60] := by
  refine ⟨by decide, ?_⟩
  rw [(C14_accumulated_is_sum_of_prizes "ann" fiveLevels
    [⟨some ⟨true, 1⟩, some true⟩, ⟨some ⟨true, 1⟩, some true⟩,
      ⟨some ⟨true, 1⟩, some false⟩] (by decide)).2.1]
  decide

/-- C15, as the code has it.  For every level configuration in which no prize
is negative and for every play-through (rounds that are won and continued,
and one more round, entered at any level with any reward), the run of `_run`
consists of calls through which the reward never decreases: its value after a
later call is greater than or equal to its value after an earlier call, and
every value is at least the value the play-through was entered with. -/
theorem C15_accumulated_monotone_for_nonnegative_prizes
    (username : String) (data : List Level) (conts : List Turn) (last : Turn)
    (levelValue : Nat) (accumulated : Int) (time : Nat)
    (hprize : ∀ l ∈ data, 0 ≤ l.prize)
    (hcontinued : continued data levelValue conts = true) :
    _run username data levelValue accumulated time (conts ++ [last])
      = replay (calls username data levelValue accumulated time (conts ++ [last]))
          (conts ++ [last]) ∧
    List.Pairwise (· ≤ ·)
      ((calls username data levelValue accumulated time (conts ++ [last])).filterMap
        (fun c => c.after)) ∧
    (∀ v ∈ (calls username data levelValue accumulated time (conts ++ [last])).filterMap
        (fun c => c.after), accumulated ≤ v) :=
  ⟨run_eq_replay username data _ levelValue accumulated time,
    (calls_monotone username data last hprize conts levelValue accumulated time hcontinued).2,
    (calls_monotone username data last hprize conts levelValue accumulated time hcontinued).1⟩

/-- Witness of C15 on the reference configuration: two rounds won and
continued, and a third round that is lost. -/
theorem C15_witness :
    ((∀ l ∈ fiveLevels, 0 ≤ l.prize) ∧ continued fiveLevels 1 twoContinued = true) ∧
    List.Pairwise (· ≤ ·)
      ((calls "ann" fiveLevels 1 0 0
          (twoContinued ++ [⟨some ⟨false, 500⟩, some false⟩])).filterMap
        (fun c => c.after)) :=
  ⟨⟨by decide, by decide⟩,
    (C15_accumulated_monotone_for_nonnegative_prizes "ann" fiveLevels twoContinued
      ⟨some ⟨false, 500⟩, some false⟩ 1 0 0 (by decide) (by decide)).2.1⟩

/-- C15 fails as stated.  With a level 2 whose configured prize is -5, two
correct rounds from level 1 take the reward from 10 after the first call down
to 5 after the second, the value the toggle of the second call shows. -/
theorem C15_counterexample :
    (calls "ann" negativePrizeLevels 1 0 0
        [⟨some ⟨true, 1⟩, some true⟩, ⟨some ⟨true, 1⟩, some false⟩]).map
        (fun c => c.after) = [some 10, some 5] ∧
    _run "ann" negativePrizeLevels 1 0 0
        [⟨some ⟨true, 1⟩, some true⟩, ⟨some ⟨true, 1⟩, some false⟩]
      = replay (calls "ann" negativePrizeLevels 1 0 0
          [⟨some ⟨true, 1⟩, some true⟩, ⟨some ⟨true, 1⟩, some false⟩])
          [⟨some ⟨true, 1⟩, some true⟩, ⟨some ⟨true, 1⟩, some false⟩] ∧
    ¬ List.Pairwise (· ≤ ·)
      ((calls "ann" negativePrizeLevels 1 0 0
          [⟨some ⟨true, 1⟩, some true⟩, ⟨some ⟨true, 1⟩, some false⟩]).filterMap
        (fun c => c.after)) := by
  decide

end GameController

/-! ## The rounded product of `getRandomNumber` (claim C18) -/

/-- With enough passes, `excessBits` is the number of bits of `n` beyond 53: `n` is
below `2 ^ (53 + s)`, and at least `2 ^ (52 + s)` unless `s = 0`. -/
theorem excessBits_spec : ∀ (fuel n : Nat), n ≤ fuel →
    n < 2 ^ (53 + excessBits fuel n) ∧
    (excessBits fuel n = 0 ∨ 2 ^ (52 + excessBits fuel n) ≤ n) := by
  intro fuel
  induction fuel with
  | zero =>
    intro n hn
    have : n = 0 := by omega
    subst this
    simp [excessBits]
  | succ fuel ih =>
    intro n hn
    unfold excessBits
    by_cases h : n < 2 ^ 53
    · rw [if_pos h]
      exact ⟨by simpa using h, Or.inl rfl⟩
    · rw [if_neg h]
      have h2 : n / 2 ≤ fuel := by
        have : 2 ^ 53 ≤ n := by omega
        have : (2 : Nat) ≤ 2 ^ 53 := by norm_num
        omega
      obtain ⟨h3, h4⟩ := ih (n / 2) h2
      have e1 : (2 : Nat) ^ (53 + (excessBits fuel (n / 2) + 1))
          = 2 * 2 ^ (53 + excessBits fuel (n / 2)) := by
        rw [← Nat.add_assoc, Nat.pow_succ, Nat.mul_comm]
      have e2 : (2 : Nat) ^ (52 + (excessBits fuel (n / 2) + 1))
          = 2 * 2 ^ (52 + excessBits fuel (n / 2)) := by
        rw [← Nat.add_assoc, Nat.pow_succ, Nat.mul_comm]
      refine ⟨?_, Or.inr ?_⟩
      · rw [e1]; omega
      · rw [e2]
        rcases h4 with h4 | h4
        · rw [h4]
          have : (2 : Nat) * 2 ^ (52 + 0) = 2 ^ 53 := by norm_num
          omega
        · omega

/-- The rounded numerator is the numerator with its excess bits cleared, or that
plus one unit of the last kept bit; the latter only when the cleared bits are at
least half a unit. -/
theorem roundBinary64_cases (n : Nat) :
    roundBinary64 n = n / 2 ^ excessBits n n * 2 ^ excessBits n n ∨
    (roundBinary64 n = n / 2 ^ excessBits n n * 2 ^ excessBits n n + 2 ^ excessBits n n ∧
      2 ^ excessBits n n ≤ 2 * (n % 2 ^ excessBits n n) ∧
      2 ^ 52 * 2 ^ excessBits n n ≤ n) := by
  unfold roundBinary64
  simp only
  split
  · exact Or.inl rfl
  · rename_i hcond
    right
    have hle : 2 ^ excessBits n n ≤ 2 * (n % 2 ^ excessBits n n) := by
      by_contra hlt
      exact hcond (Or.inl (by omega))
    refine ⟨by rw [Nat.add_mul, Nat.one_mul], hle, ?_⟩
    rcases (excessBits_spec n n (Nat.le_refl n)).2 with h0 | h1
    · rw [h0] at hle
      simp [Nat.mod_one] at hle
    · rw [Nat.pow_add] at h1
      exact h1


/-- A number is below the next multiple of `w` after its quotient by `w`. -/
theorem lt_succ_div_mul (n w : Nat) (hw : 0 < w) : n < (n / w + 1) * w := by
  have h1 := Nat.div_add_mod n w
  have h2 := Nat.mod_lt n hw
  rw [Nat.add_mul, Nat.one_mul, Nat.mul_comm (n / w) w]
  omega

/-- A number below `2 ^ 53` has no excess bits. -/
theorem excessBits_small (n : Nat) (h : n < 2 ^ 53) : excessBits n n = 0 := by
  cases n with
  | zero => rfl
  | succ k => unfold excessBits; rw [if_pos h]

/-- The floor of the exact product of a random value and a whole number. -/
theorem floor_value_mul (r : MathRandom) (max : Nat) :
    ⌊r.value * (max : ℚ)⌋₊ = r.mantissa * max / 2 ^ r.exponent := by
  have : r.value * (max : ℚ)
      = ((r.mantissa * max : Nat) : ℚ) / ((2 ^ r.exponent : Nat) : ℚ) := by
    unfold MathRandom.value
    push_cast
    ring
  rw [this, Nat.floor_div_eq_div]

/-- For a bound of at most `2 ^ 53` the floor of the rounded product is the floor
of the exact product or the next whole number, and it is the next whole number
exactly when the product is rounded to that whole number. -/
theorem floorTimes_near (r : MathRandom) (max : Nat) (hsafe : max ≤ 2 ^ 53) :
    r.mantissa * max / 2 ^ r.exponent ≤ r.floorTimes max ∧
    r.floorTimes max ≤ r.mantissa * max / 2 ^ r.exponent + 1 ∧
    (r.floorTimes max = r.mantissa * max / 2 ^ r.exponent + 1 ↔
      roundBinary64 (r.mantissa * max)
        = (r.mantissa * max / 2 ^ r.exponent + 1) * 2 ^ r.exponent) := by
  have hW : 0 < 2 ^ r.exponent := Nat.pos_pow_of_pos _ (by norm_num)
  have hA : 0 < 2 ^ excessBits (r.mantissa * max) (r.mantissa * max) :=
    Nat.pos_pow_of_pos _ (by norm_num)
  obtain ⟨hup, hlow⟩ := excessBits_spec (r.mantissa * max) (r.mantissa * max) (Nat.le_refl _)
  have hsp : excessBits (r.mantissa * max) (r.mantissa * max) ≤ r.exponent := by
    rcases hlow with h0 | h1
    · rw [h0]; exact Nat.zero_le _
    · have hN : r.mantissa * max < 2 ^ (53 + r.exponent) := by
        rw [Nat.pow_add]
        calc r.mantissa * max ≤ r.mantissa * 2 ^ 53 := Nat.mul_le_mul_left _ hsafe
          _ < 2 ^ r.exponent * 2 ^ 53 := Nat.mul_lt_mul_of_pos_right r.lt_one (by norm_num)
          _ = 2 ^ 53 * 2 ^ r.exponent := Nat.mul_comm _ _
      have := lt_of_le_of_lt h1 hN
      have := (Nat.pow_lt_pow_iff_right (by norm_num : 1 < 2)).1 this
      omega
  obtain ⟨d, hd⟩ := Nat.exists_eq_add_of_le hsp
  have hWA : 2 ^ r.exponent
      = 2 ^ d * 2 ^ excessBits (r.mantissa * max) (r.mantissa * max) := by
    rw [hd, Nat.pow_add, Nat.mul_comm]
  have hk1 := Nat.div_mul_le_self (r.mantissa * max) (2 ^ r.exponent)
  have hk2 : r.mantissa * max < (r.mantissa * max / 2 ^ r.exponent + 1) * 2 ^ r.exponent :=
    lt_succ_div_mul _ _ hW
  have hq1 := Nat.div_mul_le_self (r.mantissa * max)
    (2 ^ excessBits (r.mantissa * max) (r.mantissa * max))
  have hq2 : r.mantissa * max
      < (r.mantissa * max / 2 ^ excessBits (r.mantissa * max) (r.mantissa * max) + 1)
          * 2 ^ excessBits (r.mantissa * max) (r.mantissa * max) :=
    lt_succ_div_mul _ _ hA
  have hkq : r.mantissa * max / 2 ^ r.exponent * 2 ^ d
      ≤ r.mantissa * max / 2 ^ excessBits (r.mantissa * max) (r.mantissa * max) := by
    rw [Nat.le_div_iff_mul_le hA, Nat.mul_assoc, ← hWA]
    exact hk1
  have hqk : r.mantissa * max / 2 ^ excessBits (r.mantissa * max) (r.mantissa * max) + 1
      ≤ (r.mantissa * max / 2 ^ r.exponent + 1) * 2 ^ d := by
    have : r.mantissa * max / 2 ^ excessBits (r.mantissa * max) (r.mantissa * max)
        < (r.mantissa * max / 2 ^ r.exponent + 1) * 2 ^ d := by
      rw [Nat.div_lt_iff_lt_mul hA, Nat.mul_assoc, ← hWA]
      exact hk2
    exact this
  have hkqA := Nat.mul_le_mul_right
    (2 ^ excessBits (r.mantissa * max) (r.mantissa * max)) hkq
  have hqkA := Nat.mul_le_mul_right
    (2 ^ excessBits (r.mantissa * max) (r.mantissa * max)) hqk
  rw [Nat.mul_assoc, ← hWA] at hkqA hqkA
  rw [Nat.add_mul, Nat.one_mul] at hqkA
  unfold MathRandom.floorTimes
  rcases roundBinary64_cases (r.mantissa * max) with h | ⟨h, _, _⟩
  · rw [h]
    have hge : r.mantissa * max / 2 ^ r.exponent
        ≤ r.mantissa * max / 2 ^ excessBits (r.mantissa * max) (r.mantissa * max)
            * 2 ^ excessBits (r.mantissa * max) (r.mantissa * max) / 2 ^ r.exponent := by
      rw [Nat.le_div_iff_mul_le hW]; exact hkqA
    have hlt : r.mantissa * max / 2 ^ excessBits (r.mantissa * max) (r.mantissa * max)
            * 2 ^ excessBits (r.mantissa * max) (r.mantissa * max) / 2 ^ r.exponent
        < r.mantissa * max / 2 ^ r.exponent + 1 := by
      rw [Nat.div_lt_iff_lt_mul hW]; omega
    refine ⟨hge, by omega, ?_⟩
    constructor
    · intro he; omega
    · intro he; omega
  · rw [h]
    have hge : r.mantissa * max / 2 ^ r.exponent
        ≤ (r.mantissa * max / 2 ^ excessBits (r.mantissa * max) (r.mantissa * max)
            * 2 ^ excessBits (r.mantissa * max) (r.mantissa * max)
            + 2 ^ excessBits (r.mantissa * max) (r.mantissa * max)) / 2 ^ r.exponent := by
      rw [Nat.le_div_iff_mul_le hW]; omega
    have hle : (r.mantissa * max / 2 ^ excessBits (r.mantissa * max) (r.mantissa * max)
            * 2 ^ excessBits (r.mantissa * max) (r.mantissa * max)
            + 2 ^ excessBits (r.mantissa * max) (r.mantissa * max)) / 2 ^ r.exponent
        < r.mantissa * max / 2 ^ r.exponent + 1 + 1 := by
      rw [Nat.div_lt_iff_lt_mul hW, Nat.add_mul _ 1, Nat.one_mul]
      omega
    refine ⟨hge, by omega, ?_⟩
    constructor
    · intro he
      have : (r.mantissa * max / 2 ^ r.exponent + 1) * 2 ^ r.exponent
          ≤ r.mantissa * max / 2 ^ excessBits (r.mantissa * max) (r.mantissa * max)
            * 2 ^ excessBits (r.mantissa * max) (r.mantissa * max)
            + 2 ^ excessBits (r.mantissa * max) (r.mantissa * max) := by
        rw [← Nat.le_div_iff_mul_le hW]; omega
      omega
    · intro he
      rw [he, Nat.mul_div_cancel _ hW]

/-- C18, as the code has it.  For every value `r` of `Math.random()` and every
positive whole number `max` of at most `2 ^ 53`, `getRandomNumber(max)` is the
floor of the product `r * max` rounded to binary64; it is a whole number below
`max`; it is the floor of the exact product or that floor plus one, the latter
exactly when the product is rounded to that whole number, and it is the floor
of the exact product whenever the exact product has no more than 53 bits.  The
floor of the exact product is `k` exactly for the values in
`[k / max, (k + 1) / max)`. -/
theorem C18_getRandomNumber_is_floor_of_rounded_product
    (r : MathRandom) (max : Nat) (hpos : 0 < max) (hsafe : max ≤ 2 ^ 53) :
    getRandomNumber r.toDraw max = roundBinary64 (r.mantissa * max) / 2 ^ r.exponent ∧
    getRandomNumber r.toDraw max < max ∧
    (getRandomNumber r.toDraw max = ⌊r.value * (max : ℚ)⌋₊ ∨
      getRandomNumber r.toDraw max = ⌊r.value * (max : ℚ)⌋₊ + 1) ∧
    (getRandomNumber r.toDraw max = ⌊r.value * (max : ℚ)⌋₊ + 1 ↔
      roundBinary64 (r.mantissa * max)
        = (⌊r.value * (max : ℚ)⌋₊ + 1) * 2 ^ r.exponent) ∧
    (r.mantissa * max < 2 ^ 53 →
      getRandomNumber r.toDraw max = ⌊r.value * (max : ℚ)⌋₊) ∧
    (∀ k : Nat,
      ((k : ℚ) / (max : ℚ) ≤ r.value ∧ r.value < ((k : ℚ) + 1) / (max : ℚ)) ↔
        ⌊r.value * (max : ℚ)⌋₊ = k) := by
  have hget : getRandomNumber r.toDraw max = r.floorTimes max := by
    simp [getRandomNumber, MathRandom.toDraw]
  obtain ⟨h1, h2, h3⟩ := floorTimes_near r max hsafe
  have hlt : getRandomNumber r.toDraw max < max := by
    have := r.toDraw.pick_lt max hpos
    simpa [getRandomNumber] using this
  rw [hget, floor_value_mul] at *
  refine ⟨rfl, hlt, by omega, h3, ?_, ?_⟩
  · intro hsmall
    unfold MathRandom.floorTimes roundBinary64
    simp [excessBits_small _ hsmall, Nat.mod_one]
  · intro k
    have hmax : (0 : ℚ) < (max : ℚ) := by exact_mod_cast hpos
    have hval : (0 : ℚ) ≤ r.value * (max : ℚ) := by
      unfold MathRandom.value
      positivity
    rw [← floor_value_mul, Nat.floor_eq_iff hval, div_le_iff₀ hmax, lt_div_iff₀ hmax]

/-- Witness of C18: one half and the bound 3 give the index 1. -/
theorem C18_witness :
    ((0 : Nat) < 3 ∧ (3 : Nat) ≤ 2 ^ 53) ∧
    getRandomNumber oneHalf.toDraw 3 < 3 ∧ getRandomNumber oneHalf.toDraw 3 = 1 :=
  ⟨⟨by decide, by decide⟩,
    (C18_getRandomNumber_is_floor_of_rounded_product oneHalf 3 (by decide) (by decide)).2.1,
    by decide⟩

/-- C18 fails as stated.  The binary64 number `0.6666666666666666` lies in
`[1/3, 2/3)` and the floor of its exact product with 3 is 1, but the product
`2 - 2 ^ -53` is rounded to 2, so `getRandomNumber(3)` is 2. -/
theorem C18_counterexample :
    (1 : ℚ) / 3 ≤ belowTwoThirds.value ∧ belowTwoThirds.value < 2 / 3 ∧
    ⌊belowTwoThirds.value * ((3 : Nat) : ℚ)⌋₊ = 1 ∧
    getRandomNumber belowTwoThirds.toDraw 3 = 2 := by
  refine ⟨?_, ?_, ?_, by decide⟩
  · norm_num [MathRandom.value, belowTwoThirds]
  · norm_num [MathRandom.value, belowTwoThirds]
  · rw [floor_value_mul]
    decide
